import Mathlib

/-!
Paxoi replica and CURP client: a shallow embedding.

The development embeds the message handlers of `paxoi/paxoi.go` and
`paxoi/recovery.go` as state-passing functions over a record `Replica`.
Descriptors live in the descriptor map and are addressed by the command id
under which `getCmdDesc` stores them, so that a Go pointer `desc` is the map
entry of its `cmdId`.  Output (network sends, channel posts, executed commands)
is collected in logs that are fields of the state.

Go maps are association lists; the order of a list stands for one admissible
iteration order of the map.
-/

namespace Paxoi

/-! ## Association lists standing for Go maps -/

/-- Lookup of a key in an association list (Go: `v, exists := m[k]`). -/
def Map.get {κ α : Type} [DecidableEq κ] : List (κ × α) → κ → Option α
  | [], _ => none
  | (k1, v) :: t, k => if k1 = k then some v else Map.get t k

/-- Store of a key in an association list (Go: `m[k] = v`). -/
def Map.put {κ α : Type} [DecidableEq κ] : List (κ × α) → κ → α → List (κ × α)
  | [], k, v => [(k, v)]
  | (k1, v1) :: t, k, v => if k1 = k then (k, v) :: t else (k1, v1) :: Map.put t k v

/-- Removal of a key from an association list (Go: `delete(m, k)`). -/
def Map.del {κ α : Type} [DecidableEq κ] : List (κ × α) → κ → List (κ × α)
  | [], _ => []
  | (k1, v1) :: t, k => if k1 = k then Map.del t k else (k1, v1) :: Map.del t k

/-- Key list of an association list, in iteration order. -/
def Map.keys {κ α : Type} (m : List (κ × α)) : List κ := m.map Prod.fst

/-! ## Data model -/

/-- Command identifier `CommandId{ClientId, SeqNum}`. -/
structure CommandId where
  ClientId : Int
  SeqNum : Int
deriving DecidableEq, Repr, Inhabited

/-- Modelled from the spec: `state.Command`, the opaque triple (Op, Key, Value)
of section 3; the `state` package is not part of the sources at hand. -/
structure Command where
  Op : Int
  K : Int
  V : Int
deriving DecidableEq, Repr, Inhabited

/-- A dependency slice `Dep = []CommandId`; `none` is the Go `nil` slice, which
the code distinguishes from an empty one (`msg.Dep == nil`, `dep != nil`). -/
abbrev Dep := Option (List CommandId)

/-- Elements of a dependency slice as ranged over by `for _, c := range dep`. -/
def depList : Dep → List CommandId
  | none => []
  | some l => l

/-- Modelled from the spec: `Dep.Equals`, whose code is not part of the sources
at hand; section 3 says that equality of deps is order-insensitive, which is
rendered as equality up to permutation (a nil slice has no element). -/
def Dep.Equals (d1 d2 : Dep) : Bool := (depList d1).isPerm (depList d2)

/-- Modelled from the spec: `Dep.Contains` (used by the sort in `handleSync`),
membership of a command id in a dep. -/
def Dep.Contains (d : Dep) (c : CommandId) : Bool := decide (c ∈ depList d)

/-- A per-key checksum value `SHash`; its representation is not part of the
sources at hand and is kept abstract as an integer. -/
abbrev SHash := Int

/-- Modelled from the spec: the phase constants of section 3, in the order
START, PAYLOAD_ONLY, PRE_ACCEPT, ACCEPT, COMMIT (`desc.phase` is a Go `int`). -/
def START : Int := 0

/-- Modelled from the spec: see `START`. -/
def PAYLOAD_ONLY : Int := 1

/-- Modelled from the spec: see `START`. -/
def PRE_ACCEPT : Int := 2

/-- Modelled from the spec: see `START`. -/
def ACCEPT : Int := 3

/-- Modelled from the spec: see `START`. -/
def COMMIT : Int := 4

/-- Modelled from the spec: the replica-wide status constants of section 3
(`r.status` is a Go `int`). -/
def NORMAL : Int := 0

/-- Modelled from the spec: see `NORMAL`. -/
def RECOVERING : Int := 1

/-- Client proposal `smr.GPropose`, with the fields the replica reads. -/
structure GPropose where
  ClientId : Int
  CommandId : Int
  Command : Command
  Collocated : Bool := false
deriving DecidableEq, Repr, Inhabited

/-- Wire message `MFastAck`. -/
structure MFastAck where
  Replica : Int
  Ballot : Int
  CmdId : CommandId
  Dep : Dep := none
  Checksum : Option (List SHash) := none
deriving DecidableEq, Repr, Inhabited

/-- Wire message `MLightSlowAck`. -/
structure MLightSlowAck where
  Replica : Int
  Ballot : Int
  CmdId : CommandId
deriving DecidableEq, Repr, Inhabited

/-- Wire message `MReply` as built by `handleSync` (the remaining fields keep
their zero value there). -/
structure MReply where
  Replica : Int
  Ballot : Int
  CmdId : CommandId
deriving DecidableEq, Repr, Inhabited

/-- Wire message `MAccept`. -/
structure MAccept where
  Replica : Int
  Ballot : Int
  CmdId : CommandId
deriving DecidableEq, Repr, Inhabited

/-- Wire message `MNewLeader`. -/
structure MNewLeader where
  Replica : Int
  Ballot : Int
deriving DecidableEq, Repr, Inhabited

/-- Wire message `MNewLeaderAckN`: four parallel slices (`Deps` holds the `Dep`
field of each `SDep`). -/
structure MNewLeaderAckN where
  Replica : Int
  Ballot : Int
  Cballot : Int
  CmdIds : List CommandId := []
  Phases : List Int := []
  Cmds : List Command := []
  Deps : List Dep := []
deriving DecidableEq, Repr, Inhabited

/-- Wire message `MSync` of the recovery protocol: three Go maps. -/
structure MSync where
  Replica : Int
  Ballot : Int
  Phases : List (CommandId × Int) := []
  Cmds : List (CommandId × Command) := []
  Deps : List (CommandId × Dep) := []
deriving DecidableEq, Repr, Inhabited

/-- Content of the per-descriptor channel `msgs chan interface{}`. -/
inductive Msg where
  | propose (p : GPropose)
  | fastAck (m : MFastAck)
  | lightSlowAck (m : MLightSlowAck)
  | str (s : String)
  | slot (i : Int)
deriving DecidableEq, Repr, Inhabited

/-- A quorum behind the interface `smr.QuorumI`: what `Size()` returns and the
replicas for which `Contains` holds.  The implementations are not part of the
sources at hand, so both are data of the model. -/
structure QuorumI where
  size : Int := 0
  elems : List Int := []
deriving DecidableEq, Repr, Inhabited

/-- Method `Contains` of a quorum. -/
def QuorumI.Contains (q : QuorumI) (rid : Int) : Bool := decide (rid ∈ q.elems)

/-- Method `Size` of a quorum. -/
def QuorumI.Size (q : QuorumI) : Int := q.size

/-- Modelled from the spec: the message-set aggregator `smr.MsgSet` of section
4.2, whose code is not part of the sources at hand.  It remembers the leader's
message separately, keeps one message per replica id (last write wins) and
remembers whether its completion handler has fired.  The `accept` test and the
handler are bound at `ReinitMsgSet`; they are supplied at the call sites. -/
structure MsgSet (M : Type) where
  q : QuorumI := {}
  leaderMsg : Option M := none
  msgs : List (Int × M) := []
  fired : Bool := false
deriving DecidableEq, Repr, Inhabited

/-- Modelled from the spec: the non-leader messages of a message set that pass
`accept(m, leaderMsg)`; the others are recorded but not counted. -/
def MsgSet.accepted {M : Type} (accept : M → Option M → Bool) (ms : MsgSet M) : List M :=
  (ms.msgs.filter (fun p => accept p.2 ms.leaderMsg)).map Prod.snd

/-- Modelled from the spec: `MsgSet.Add(replica, isLeader, msg)` of section 4.2.
The message is recorded (the leader's one separately, the others by replica
id).  The completion handler fires, once, when a leader message is recorded and
the accepted non-leader messages number at least `Q - 1`; the second component
is then the pair handed to the handler. -/
def MsgSet.Add {M : Type} (accept : M → Option M → Bool) (ms : MsgSet M)
    (repId : Int) (isLeader : Bool) (msg : M) : MsgSet M × Option (Option M × List M) :=
  let ms1 : MsgSet M :=
    if isLeader then { ms with leaderMsg := some msg }
    else { ms with msgs := Map.put ms.msgs repId msg }
  if ms1.fired = false ∧ ms1.leaderMsg.isSome = true ∧
      ms1.q.Size - 1 ≤ ((MsgSet.accepted accept ms1).length : Int) then
    ({ ms1 with fired := true }, some (ms1.leaderMsg, MsgSet.accepted accept ms1))
  else (ms1, none)

/-- Modelled from the spec: `MsgSet.Free()`, which releases the held messages
and resets the set. -/
def MsgSet.Free {M : Type} (ms : MsgSet M) : MsgSet M :=
  { ms with leaderMsg := none, msgs := [], fired := false }

/-- Modelled from the spec: `ReinitMsgSet`, which rebinds the quorum (and the
accept test and handler) of an emptied set. -/
def MsgSet.ReinitMsgSet {M : Type} (_ms : MsgSet M) (q : QuorumI) : MsgSet M :=
  { q := q }

/-- Per-command descriptor `commandDesc`.  The conditional deferred call
`afterPropagate` holds at most one pending closure; its only client is
`fastAckFromLeader`, whose closure is determined by the message it captures, so
the pending closure is that message.  `defered` is the constant `func() {}` in
the live code and carries no state. -/
structure commandDesc where
  phase : Int := START
  cmd : Command := default
  dep : Dep := none
  hs : Option (List SHash) := none
  propose : Option GPropose := none
  proposeDep : Dep := none
  slowPathH : MsgSet MFastAck := {}
  fastPathH : MsgSet MFastAck := {}
  afterPropagate : Option MFastAck := none
  msgs : List Msg := []
  active : Bool := true
  slowPath : Bool := false
  seq : Bool := false
  successors : List CommandId := []
deriving DecidableEq, Repr, Inhabited

/-- Entry `commandStaticDesc` of the history ring. -/
structure commandStaticDesc where
  cmdId : CommandId
  phase : Int
  cmd : Command
  dep : Dep
  slowPath : Bool
deriving DecidableEq, Repr, Inhabited

/-- Descriptor `readDesc` of a fast read. -/
structure readDesc where
  dep : Dep := none
  propose : GPropose
deriving DecidableEq, Repr, Inhabited

/-- Update `checksumUpdate` posted on `checksumUpds`. -/
structure checksumUpdate where
  key : Int
  cmdId : CommandId
  newHash : SHash
deriving DecidableEq, Repr, Inhabited

/-- Modelled from the spec: the reply channel `replyChan` of section 4.9, whose
code is not part of the sources at hand: it buffers the replies handed to it
and can be stopped. -/
structure replyChan where
  stopped : Bool := false
  replies : List CommandId := []
  readReplies : List CommandId := []
deriving DecidableEq, Repr, Inhabited

/-- Modelled from the spec: `keyInfo`, the per-key ordered list of (cmdId, op)
of section 3. -/
abbrev keyInfo := List (CommandId × Int)

/-- Modelled from the spec: `checksum`, the per-key accumulator of section 4.3,
carried as the list of (cmdId, hash) it has taken. -/
abbrev checksum := List (CommandId × SHash)

/-- Messages handed to the sender or to the batcher, tagged by the method that
took them. -/
inductive Out where
  | batcherSendFastAck (m : MFastAck)
  | batcherSendFastAckClient (m : MFastAck) (client : Int)
  | batcherSendLightSlowAck (m : MLightSlowAck)
  | batcherSendLightSlowAckClient (m : MLightSlowAck) (client : Int)
  | sendToClientLightSlowAck (client : Int) (m : MLightSlowAck)
  | sendToClientReply (client : Int) (m : MReply)
  | sendToClientAccept (client : Int) (m : MAccept)
  | sendToAllSync (m : MSync)
  | sendToAllNewLeader (m : MNewLeader)
  | sendToNewLeaderAckN (dest : Int) (m : MNewLeaderAckN)
deriving DecidableEq, Repr, Inhabited

/-- Replica state `Replica` (with the fields of the embedded `smr.Replica` that
the handlers read: `Id`, `N`, `Exec`, `Dreply`).  `qsAQ` tabulates `r.qs.AQ` on
the ballots in use, `MaxDescRoutines` is the package constant of that name.
The logs `sent`, `executed`, `deliverChan`, `checksumUpds` and `ProposeChan`
collect what the handlers send, execute and post. -/
structure Replica where
  Id : Int := 0
  N : Int := 1
  Exec : Bool := true
  Dreply : Bool := true
  ballot : Int := 0
  cballot : Int := 0
  status : Int := NORMAL
  cmdDescs : List (CommandId × commandDesc) := []
  delivered : List CommandId := []
  repchan : replyChan := {}
  keys : List (Int × keyInfo) := []
  sums : List (Int × checksum) := []
  reads : List (CommandId × readDesc) := []
  history : List (Int × commandStaticDesc) := []
  historySize : Int := 0
  historyStart : Int := 0
  checksumUpds : List checksumUpdate := []
  qsAQ : List (Int × QuorumI) := []
  SQ : QuorumI := {}
  FQ : QuorumI := {}
  fixedMajority : Bool := false
  optExec : Bool := false
  fastRead : Bool := false
  deliverChan : List CommandId := []
  routineCount : Int := 0
  MaxDescRoutines : Int := 100
  newLeaderAckNs : MsgSet MNewLeaderAckN := {}
  proposes : List (CommandId × GPropose) := []
  ProposeChan : List GPropose := []
  sent : List Out := []
  executed : List Command := []
deriving DecidableEq, Repr, Inhabited

/-- Modelled from the spec: `smr.Leader`, that is `leader(b) = b mod N`. -/
def Leader (ballot N : Int) : Int := ballot % N

/-- Leader of the current ballot: `r.leader()`. -/
def Replica.leader (r : Replica) : Int := Leader r.ballot r.N

/-- Membership test `r.delivered.Has(cmdId.String())`. -/
def Replica.hasDelivered (r : Replica) (c : CommandId) : Bool := decide (c ∈ r.delivered)

/-- Modelled from the spec: `replyChan.reply`, which buffers a reply. -/
def replyChan.reply (rc : replyChan) (c : CommandId) : replyChan :=
  { rc with replies := rc.replies ++ [c] }

/-- Modelled from the spec: `replyChan.readReply`, which buffers the reply of a
fast read. -/
def replyChan.readReply (rc : replyChan) (c : CommandId) : replyChan :=
  { rc with readReplies := rc.readReplies ++ [c] }

/-- Modelled from the spec: `replyChan.stop`. -/
def replyChan.stop (rc : replyChan) : replyChan := { rc with stopped := true }

/-! ## Delivery -/

/-- Embedding of `Replica.deliver`.  The three early returns are the guards of
the source.  After the command is marked delivered and executed, every
successor is posted on `deliverChan` and, with `Dreply`, the reply is handed to
the reply channel.  When `desc.seq` holds the source then blocks on `desc.msgs`
until the history slot arrives and runs `handleMsg(slot, ...)`; that receive is
a suspension point and the slot is handled by `handleMsg` as a step of its
own. -/
def deliver (r : Replica) (desc : commandDesc) (cmdId : CommandId) : Replica :=
  if desc.propose = none ∨ r.hasDelivered cmdId = true ∨ r.Exec = false then r
  else if desc.phase ≠ COMMIT ∧ (r.optExec = false ∨ r.Id ≠ r.leader) then r
  else if (depList desc.dep).all (fun c => r.hasDelivered c) = false then r
  else
    let r1 : Replica :=
      { r with delivered := r.delivered ++ [cmdId]
               executed := r.executed ++ [desc.cmd]
               deliverChan := r.deliverChan ++ desc.successors }
    if r1.Dreply = false then r1
    else { r1 with repchan := r1.repchan.reply cmdId }

/-- Embedding of `Replica.deliverReadDesc`. -/
def deliverReadDesc (r : Replica) (rDesc : readDesc) (cmdId : CommandId) : Replica :=
  if r.hasDelivered cmdId = true ∨ r.Exec = false then r
  else if (depList rDesc.dep).all (fun c => r.hasDelivered c) = false then r
  else
    let r1 : Replica :=
      { r with delivered := r.delivered ++ [cmdId]
               executed := r.executed ++ [rDesc.propose.Command] }
    if r1.Dreply = false then r1
    else { r1 with repchan := r1.repchan.readReply cmdId }

/-! ## Descriptors -/

/-- Functions of the package that the handlers call and whose code is not part
of the sources at hand: `keysOf` (the keys of a command) and `SHashesEq`
(equality of two checksum slices).  They are parameters of the embedding. -/
structure Ext where
  keysOf : Command → List Int
  SHashesEq : Option (List SHash) → Option (List SHash) → Bool

/-- Embedding of `Replica.newDesc`: a descriptor with every mutable field reset
and both aggregators rebound to the current `SQ` and `FQ`. -/
def Replica.newDesc (r : Replica) : commandDesc :=
  { phase := START
    dep := none
    hs := none
    msgs := []
    active := true
    successors := []
    slowPath := false
    seq := decide (r.MaxDescRoutines ≤ r.routineCount)
    propose := none
    proposeDep := none
    afterPropagate := none
    slowPathH := MsgSet.ReinitMsgSet {} r.SQ
    fastPathH := MsgSet.ReinitMsgSet {} r.FQ }

/-- The descriptor stored for `cmdId`, that is the target of the Go pointer
`desc` obtained from `getCmdDesc(cmdId, ...)`. -/
def Replica.desc (r : Replica) (cmdId : CommandId) : commandDesc :=
  (Map.get r.cmdDescs cmdId).getD r.newDesc

/-- Write through the Go pointer `desc` of `cmdId`. -/
def Replica.setDesc (r : Replica) (cmdId : CommandId) (d : commandDesc) : Replica :=
  { r with cmdDescs := Map.put r.cmdDescs cmdId d }

/-- Append to the log of messages handed to the sender or the batcher. -/
def Replica.send (r : Replica) (o : Out) : Replica := { r with sent := r.sent ++ [o] }

/-- Embedding of `getCmdDescSeq` up to its `if msg != nil`: the delivered test
and the `Upsert` with its callback.  The result is `none` when the source
returns `nil`; otherwise the descriptor is stored under `cmdId`.  A fresh
descriptor that is not sequential gets its own worker (`routineCount++`). -/
def upsertCmdDesc (r : Replica) (cmdId : CommandId) (dep : Dep)
    (hs : Option (List SHash)) (seq : Bool) : Option Replica :=
  if r.hasDelivered cmdId = true then none
  else
    let p : Replica × commandDesc :=
      match Map.get r.cmdDescs cmdId with
      | some d => (r, d)
      | none =>
        let d0 := r.newDesc
        let d : commandDesc := { d0 with seq := seq || d0.seq }
        (if d.seq = false then { r with routineCount := r.routineCount + 1 } else r, d)
    let d1 : commandDesc :=
      if dep ≠ none ∧ p.2.proposeDep = none then
        { p.2 with proposeDep := dep, hs := if hs ≠ none then hs else p.2.hs }
      else p.2
    some (p.1.setDesc cmdId d1)

/-- Embedding of the loop body of the completion handler (and of `handleSync`):
`depDesc := r.getCmdDesc(depCmdId, nil, nil)`, skipped when `nil`, followed by
the append to `depDesc.successors`. -/
def addSuccessor (r : Replica) (depCmdId suc : CommandId) : Replica :=
  match upsertCmdDesc r depCmdId none none false with
  | none => r
  | some r1 =>
    let d := r1.desc depCmdId
    r1.setDesc depCmdId { d with successors := d.successors ++ [suc] }

/-- Embedding of `getFastAndSlowAcksHandler(r, desc)`, the completion handler
shared by both aggregators of the descriptor stored under `cmdId`. -/
def getFastAndSlowAcksHandler (r : Replica) (cmdId : CommandId)
    (leaderMsg : Option MFastAck) : Replica :=
  match leaderMsg with
  | none => r
  | some leaderFastAck =>
    let d := r.desc cmdId
    let r1 := r.setDesc cmdId { d with phase := COMMIT }
    let r2 := (depList (r1.desc cmdId).dep).foldl
      (fun acc depCmdId => addSuccessor acc depCmdId leaderFastAck.CmdId) r1
    deliver r2 (r2.desc cmdId) leaderFastAck.CmdId

/-- Embedding of the closure `acceptFastAndSlowAck` of `newDesc`. -/
def acceptFastAndSlowAck (msg : MFastAck) (leaderMsg : Option MFastAck) : Bool :=
  match leaderMsg with
  | none => true
  | some leaderFastAck => decide (msg.Dep = none) || Dep.Equals leaderFastAck.Dep msg.Dep

/-- The call `desc.slowPathH.Add(repId, isLeader, msg)`: the aggregator step
followed, when it fires, by the completion handler. -/
def slowPathHAdd (r : Replica) (cmdId : CommandId) (repId : Int) (isLeader : Bool)
    (msg : MFastAck) : Replica :=
  let d := r.desc cmdId
  let res := MsgSet.Add acceptFastAndSlowAck d.slowPathH repId isLeader msg
  let r1 := r.setDesc cmdId { d with slowPathH := res.1 }
  match res.2 with
  | none => r1
  | some fire => getFastAndSlowAcksHandler r1 cmdId fire.1

/-- The call `desc.fastPathH.Add(repId, isLeader, msg)`: the aggregator step
followed, when it fires, by the completion handler. -/
def fastPathHAdd (r : Replica) (cmdId : CommandId) (repId : Int) (isLeader : Bool)
    (msg : MFastAck) : Replica :=
  let d := r.desc cmdId
  let res := MsgSet.Add acceptFastAndSlowAck d.fastPathH repId isLeader msg
  let r1 := r.setDesc cmdId { d with fastPathH := res.1 }
  match res.2 with
  | none => r1
  | some fire => getFastAndSlowAcksHandler r1 cmdId fire.1

/-! ## Fast-ack handling -/

/-- Embedding of `Replica.commonCaseFastAck(msg, desc)`, `desc` being the
descriptor stored under `cmdId`. -/
def commonCaseFastAck (r : Replica) (msg : MFastAck) (cmdId : CommandId) : Replica :=
  if r.status ≠ NORMAL ∨ r.ballot ≠ msg.Ballot then r
  else if msg.Dep = none then
    let r1 := slowPathHAdd r cmdId msg.Replica (decide (msg.Replica = r.leader)) msg
    if r1.hasDelivered msg.CmdId = true then r1
    else fastPathHAdd r1 cmdId msg.Replica (decide (msg.Replica = r1.leader)) msg
  else fastPathHAdd r cmdId msg.Replica (decide (msg.Replica = r.leader)) msg

/-- Embedding of `Replica.handleLightSlowAck(msg, desc)`. -/
def handleLightSlowAck (r : Replica) (msg : MLightSlowAck) (cmdId : CommandId) : Replica :=
  commonCaseFastAck r
    { Replica := msg.Replica, Ballot := msg.Ballot, CmdId := msg.CmdId, Dep := none } cmdId

/-- The flag `sendSlowAck` computed by `fastAckFromLeader`. -/
def sendSlowAckOf (r : Replica) (neq : Bool) : Bool :=
  decide (r.leader ≠ r.Id) && (r.SQ.Contains r.Id || (neq && r.FQ.Contains r.Id))

/-- The route of the slow ack in the `sendSlowAck` branch of
`fastAckFromLeader`: through the batcher, or straight to the client when
`optExec` holds, `FQ` has size `N/2 + 1` and this replica is outside `FQ`. -/
def lightSlowAckOut (r : Replica) (lightSlowAck : MLightSlowAck) : Out :=
  if r.optExec = false then Out.batcherSendLightSlowAck lightSlowAck
  else if r.FQ.Size = r.N / 2 + 1 ∧ r.FQ.Contains r.Id = false then
    Out.sendToClientLightSlowAck lightSlowAck.CmdId.ClientId lightSlowAck
  else Out.batcherSendLightSlowAckClient lightSlowAck lightSlowAck.CmdId.ClientId

/-- The send of the `sendSlowAck` branch of `fastAckFromLeader`. -/
def sendLightSlowAck (r : Replica) (lightSlowAck : MLightSlowAck) : Replica :=
  r.send (lightSlowAckOut r lightSlowAck)

/-- First part of the closure of `fastAckFromLeader`: the phase is set to
ACCEPT and the leader's message is recorded in `slowPathH` and, unless the
command is delivered meanwhile, in `fastPathH`. -/
def recordLeaderAck (r : Replica) (msg : MFastAck) (cmdId : CommandId) : Replica :=
  let d0 := r.desc cmdId
  let r1 := r.setDesc cmdId { d0 with phase := ACCEPT }
  let r2 := slowPathHAdd r1 cmdId msg.Replica true msg
  if r2.hasDelivered msg.CmdId = false then fastPathHAdd r2 cmdId msg.Replica true msg else r2

/-- The `if sendSlowAck` block of the closure of `fastAckFromLeader`: the dep
of the leader replaces the local one (when they differ and the command is not
delivered), the slow ack is sent and, unless delivered, handled locally. -/
def emitSlowAck (r : Replica) (msg : MFastAck) (cmdId : CommandId) (neq : Bool) : Replica :=
  let delivered := r.hasDelivered msg.CmdId
  let r4 :=
    if neq = true ∧ delivered = false then
      r.setDesc cmdId { r.desc cmdId with dep := msg.Dep, slowPath := true }
    else r
  let lightSlowAck : MLightSlowAck := { Replica := r4.Id, Ballot := r4.ballot, CmdId := msg.CmdId }
  let r5 := sendLightSlowAck r4 lightSlowAck
  if delivered = false then handleLightSlowAck r5 lightSlowAck cmdId else r5

/-- Body of the closure that `fastAckFromLeader` hands to `afterPropagate`,
without its deferred function; `neq` and `sendSlowAck` are computed on entry,
before the phase is set and the aggregators are fed. -/
def fastAckFromLeaderBody (r : Replica) (msg : MFastAck) (cmdId : CommandId) : Replica :=
  let neq := !(Dep.Equals (r.desc cmdId).dep msg.Dep)
  let r3 := recordLeaderAck r msg cmdId
  if sendSlowAckOf r neq = true then emitSlowAck r3 msg cmdId neq else r3

/-- The function deferred by the closure of `fastAckFromLeader`; it runs when
the closure returns, on the values `cmd`, `hs` and `sendSlowAck` saved at its
start.  The corrections requested by the spawned goroutine are appended to
`checksumUpds` in the order of its two loops. -/
def fastAckFromLeaderDeferred (x : Ext) (r : Replica) (cmd : Command)
    (hs : Option (List SHash)) (sendSlowAck : Bool) (msgCmdId : CommandId)
    (msgChecksum : Option (List SHash)) : Replica :=
  if r.leader = r.Id ∨ r.hasDelivered msgCmdId = true then r
  else if sendSlowAck = false ∧ r.optExec = true ∧ x.SHashesEq hs msgChecksum = false then
    let lightSlowAck : MLightSlowAck := { Replica := r.Id, Ballot := r.ballot, CmdId := msgCmdId }
    let r1 := r.send (Out.sendToClientLightSlowAck msgCmdId.ClientId lightSlowAck)
    { r1 with checksumUpds := r1.checksumUpds ++
        ((x.keysOf cmd).map (fun key =>
          (msgChecksum.getD []).map (fun h => checksumUpdate.mk key msgCmdId h))).flatten }
  else r

/-- The closure that `fastAckFromLeader` hands to `afterPropagate.Call`: the
test of status and ballot, the body, and the deferred function. -/
def fastAckFromLeaderClosure (x : Ext) (r : Replica) (msg : MFastAck) (cmdId : CommandId) :
    Replica :=
  if r.status ≠ NORMAL ∨ r.ballot ≠ msg.Ballot then r
  else
    let d0 := r.desc cmdId
    let neq := !(Dep.Equals d0.dep msg.Dep)
    fastAckFromLeaderDeferred x (fastAckFromLeaderBody r msg cmdId) d0.cmd d0.hs
      (sendSlowAckOf r neq) msg.CmdId msg.Checksum

/-- Modelled from the spec: `OptCondF.Call(fn)` of `tools` (sections 5 and 9),
whose code is not part of the sources at hand: `fn` runs at once when the
condition `desc.propose != nil` holds and is otherwise recorded as the pending
closure.  The closure is the one of `fastAckFromLeader` for `msg`. -/
def afterPropagateCall (x : Ext) (r : Replica) (msg : MFastAck) (cmdId : CommandId) : Replica :=
  let d := r.desc cmdId
  if d.propose ≠ none then fastAckFromLeaderClosure x r msg cmdId
  else r.setDesc cmdId { d with afterPropagate := some msg }

/-- Embedding of `Replica.fastAckFromLeader(msg, desc)`: the closure is handed
to `desc.afterPropagate.Call`. -/
def fastAckFromLeader (x : Ext) (r : Replica) (msg : MFastAck) (cmdId : CommandId) : Replica :=
  afterPropagateCall x r msg cmdId

/-- Modelled from the spec: `OptCondF.Recall()` of `tools` (sections 5 and 9),
whose code is not part of the sources at hand: when a closure is pending and
the condition `desc.propose != nil` holds, the closure is run, once, and `true`
is returned. -/
def afterPropagateRecall (x : Ext) (r : Replica) (cmdId : CommandId) : Replica × Bool :=
  let d := r.desc cmdId
  match d.afterPropagate with
  | none => (r, false)
  | some m =>
    if d.propose ≠ none then
      (fastAckFromLeaderClosure x (r.setDesc cmdId { d with afterPropagate := none }) m cmdId, true)
    else (r, false)

/-- Embedding of `Replica.handleFastAck(msg, desc)`. -/
def handleFastAck (x : Ext) (r : Replica) (msg : MFastAck) (cmdId : CommandId) : Replica :=
  if msg.Replica = r.leader then fastAckFromLeader x r msg cmdId
  else commonCaseFastAck r msg cmdId

/-! ## Propose path -/

/-- Embedding of `Replica.handlePropose(msg, desc, cmdId)`. -/
def handlePropose (x : Ext) (r : Replica) (msg : GPropose) (cmdId : CommandId) : Replica :=
  let d := r.desc cmdId
  if r.status ≠ NORMAL ∨ d.propose ≠ none then r
  else
    let r1 := r.setDesc cmdId { d with propose := some msg, cmd := msg.Command }
    if r1.FQ.Contains r1.Id = false then (afterPropagateRecall x r1 cmdId).1
    else
      let d1 := r1.desc cmdId
      let r2 := r1.setDesc cmdId { d1 with dep := d1.proposeDep, phase := PRE_ACCEPT }
      let rc := afterPropagateRecall x r2 cmdId
      let r3 := rc.1
      if (rc.2 = true ∧ (r3.desc cmdId).slowPath = true) ∨ r3.hasDelivered cmdId = true then r3
      else
        let fastAck : MFastAck :=
          { Replica := r3.Id, Ballot := r3.ballot, CmdId := cmdId
            Dep := (r3.desc cmdId).dep, Checksum := (r3.desc cmdId).hs }
        let r4 :=
          if r3.optExec = false then r3.send (Out.batcherSendFastAck fastAck)
          else if r3.Id = r3.leader then
            let r3a := r3.send (Out.batcherSendFastAck fastAck)
            deliver r3a (r3a.desc cmdId) cmdId
          else r3.send (Out.batcherSendFastAckClient fastAck msg.ClientId)
        handleFastAck x r4 fastAck cmdId

/-- Embedding of `Replica.handleMsg(m, desc, cmdId)`; the boolean is its
result.  A history slot (`int`) files the descriptor in the history, frees its
aggregators and removes it from the descriptor map. -/
def handleMsg (x : Ext) (r : Replica) (m : Msg) (cmdId : CommandId) : Replica × Bool :=
  match m with
  | Msg.propose p => (handlePropose x r p cmdId, false)
  | Msg.fastAck msg => (if msg.CmdId = cmdId then handleFastAck x r msg cmdId else r, false)
  | Msg.lightSlowAck msg => (if msg.CmdId = cmdId then handleLightSlowAck r msg cmdId else r, false)
  | Msg.str s => (if s = "deliver" then deliver r (r.desc cmdId) cmdId else r, false)
  | Msg.slot i =>
    let d := r.desc cmdId
    ({ r with history := Map.put r.history i
                { cmdId := cmdId, phase := d.phase, cmd := d.cmd, dep := d.dep, slowPath := d.slowPath }
              cmdDescs := Map.del r.cmdDescs cmdId }, true)

/-- Embedding of `Replica.getCmdDescSeq`: `none` stands for the `nil` result.
A message for a sequential descriptor is handled on the spot; otherwise it is
queued on `desc.msgs` for the worker of the descriptor. -/
def getCmdDescSeq (x : Ext) (r : Replica) (cmdId : CommandId) (msg : Option Msg) (dep : Dep)
    (hs : Option (List SHash)) (seq : Bool) : Option Replica :=
  match upsertCmdDesc r cmdId dep hs seq with
  | none => none
  | some r1 =>
    match msg with
    | none => some r1
    | some m =>
      let d := r1.desc cmdId
      if d.seq = true then some (handleMsg x r1 m cmdId).1
      else some (r1.setDesc cmdId { d with msgs := d.msgs ++ [m] })

/-- Embedding of `Replica.getCmdDesc`. -/
def getCmdDesc (x : Ext) (r : Replica) (cmdId : CommandId) (msg : Option Msg) (dep : Dep) :
    Option Replica :=
  getCmdDescSeq x r cmdId msg dep none false

/-- One turn of the worker loop `handleDesc` of the descriptor stored under
`cmdId`: the oldest queued message is handled. -/
def handleDescStep (x : Ext) (r : Replica) (cmdId : CommandId) : Replica :=
  let d := r.desc cmdId
  match d.msgs with
  | [] => r
  | m :: rest =>
    let res := handleMsg x (r.setDesc cmdId { d with msgs := rest }) m cmdId
    if res.2 = true then { res.1 with routineCount := res.1.routineCount - 1 } else res.1

/-! ## Recovery -/

/-- Embedding of `Replica.stopDescs`: every active worker is told to stop and
acknowledges by clearing `desc.active`. -/
def stopDescs (r : Replica) : Replica :=
  { r with cmdDescs := r.cmdDescs.map (fun p =>
      (p.1, if p.2.active = true ∧ p.2.seq = false then { p.2 with active := false } else p.2)) }

/-- One pass of the inner loop of Go's insertion sort on the reversed prefix:
the new element moves left while `less(new, left neighbour)` holds. -/
def insertLeft {α : Type} (less : α → α → Bool) (a : α) : List α → List α
  | [] => [a]
  | y :: t => if less a y = true then y :: insertLeft less a t else a :: y :: t

/-- The insertion sort that `sort.Slice` of the Go library runs on a slice of at
most twelve elements, with `less` taking the two elements compared. -/
def sortSlice {α : Type} (less : α → α → Bool) (l : List α) : List α :=
  (l.foldl (fun revPrefix a => insertLeft less a revPrefix) []).reverse

/-- A call deferred by `handleSync` (`defer r.handleFastAck(...)` or
`defer r.handleLightSlowAck(...)`) with its evaluated arguments. -/
inductive SyncDefer where
  | fastAck (m : MFastAck) (cmdId : CommandId)
  | lightSlowAck (m : MLightSlowAck) (cmdId : CommandId)
deriving DecidableEq, Repr, Inhabited

/-- The first loop of `handleSync` (the `IterCb` that clears the descriptors):
a descriptor whose propose is not covered by `msg.Phases` has its propose
posted back on `ProposeChan`. -/
def requeueProposes (r : Replica) (msg : MSync) : Replica :=
  r.cmdDescs.foldl (fun acc p =>
    match p.2.propose with
    | none => acc
    | some propose =>
      let cmdId : CommandId := { ClientId := propose.ClientId, SeqNum := propose.CommandId }
      if Map.get msg.Phases cmdId = none then
        { acc with ProposeChan := acc.ProposeChan ++ [propose] }
      else acc) r

/-- The body of the installation loop of `handleSync` for one command id; the
second component collects the deferred calls, the latest first.  Each spawned
goroutine posts on `deliverChan` the id that its loop variable holds in the
iteration that spawns it. -/
def handleSyncInstall (msg : MSync) (acc : Replica × List SyncDefer) (cmdId : CommandId) :
    Replica × List SyncDefer :=
  let r := acc.1
  let deps : Dep := (Map.get msg.Deps cmdId).getD none
  let up := upsertCmdDesc r cmdId none none false
  let r1 : Replica :=
    match up with
    | none => r
    | some r0 =>
      let d := r0.desc cmdId
      let ra := r0.setDesc cmdId
        { d with phase := (Map.get msg.Phases cmdId).getD 0
                 cmd := (Map.get msg.Cmds cmdId).getD default
                 dep := deps
                 proposeDep := deps }
      let rb := (depList deps).foldl (fun a cmdIdPrime =>
        let a1 := addSuccessor a cmdIdPrime cmdId
        { a1 with deliverChan := a1.deliverChan ++ [cmdIdPrime] }) ra
      let rc : Replica := { rb with deliverChan := rb.deliverChan ++ [cmdId] }
      let d2 := rc.desc cmdId
      if d2.phase ≠ COMMIT ∧ d2.phase ≠ ACCEPT then rc.setDesc cmdId { d2 with phase := ACCEPT }
      else rc
  match Map.get r1.proposes cmdId with
  | none => (r1, acc.2)
  | some propose =>
    let r2 :=
      if up.isSome = true then r1.setDesc cmdId { r1.desc cmdId with propose := some propose }
      else r1
    if r2.SQ.Contains r2.Id = false then (r2, acc.2)
    else if r2.Id = r2.leader then
      let fastAck : MFastAck :=
        { Replica := r2.Id, Ballot := r2.ballot, CmdId := cmdId, Dep := deps }
      let r3 := r2.send (Out.batcherSendFastAck fastAck)
      let reply : MReply := { Replica := r3.Id, Ballot := r3.ballot, CmdId := cmdId }
      (r3.send (Out.sendToClientReply propose.ClientId reply),
        if up.isSome = true then SyncDefer.fastAck fastAck cmdId :: acc.2 else acc.2)
    else
      let lightSlowAck : MLightSlowAck := { Replica := r2.Id, Ballot := r2.ballot, CmdId := cmdId }
      (r2.send (Out.batcherSendLightSlowAckClient lightSlowAck propose.ClientId),
        if up.isSome = true then SyncDefer.lightSlowAck lightSlowAck cmdId :: acc.2 else acc.2)

/-- The last loop of `handleSync`: every pending propose that the sync does not
mention is answered by an `MAccept` to its client. -/
def sendAccepts (r : Replica) (msg : MSync) : Replica :=
  r.proposes.foldl (fun acc p =>
    if Map.get msg.Phases p.1 ≠ none then acc
    else acc.send (Out.sendToClientAccept p.2.ClientId
      { Replica := acc.Id, Ballot := acc.ballot, CmdId := p.1 })) r

/-- Run of one deferred call of `handleSync`. -/
def runSyncDefer (x : Ext) (r : Replica) (d : SyncDefer) : Replica :=
  match d with
  | SyncDefer.fastAck m cmdId => handleFastAck x r m cmdId
  | SyncDefer.lightSlowAck m cmdId => handleLightSlowAck r m cmdId

/-- Embedding of `Replica.handleSync(msg)`.  The keys of `msg.Phases` are taken
in the order of the association list, sorted by `sort.Slice` with the source's
`less`, and installed in that order; the deferred calls run last, the latest
first.  `r.qs.AQ(ballot)` is read from the table `qsAQ`. -/
def handleSync (x : Ext) (r : Replica) (msg : MSync) : Replica :=
  if msg.Ballot < r.ballot ∨ (r.ballot = msg.Ballot ∧ r.status = NORMAL) then r
  else
    let r1 := if r.status = NORMAL then stopDescs { r with repchan := r.repchan.stop } else r
    let r2 := requeueProposes r1 msg
    let r3 : Replica :=
      { r2 with keys := []
                routineCount := 0
                cmdDescs := []
                status := NORMAL
                ballot := msg.Ballot
                cballot := msg.Ballot }
    let r4 : Replica :=
      if r3.fixedMajority = true then { r3 with FQ := (Map.get r3.qsAQ r3.ballot).getD {} } else r3
    let r5 : Replica := { r4 with repchan := {}, historySize := 0 }
    let sorted := sortSlice
      (fun a b => Dep.Contains ((Map.get msg.Deps b).getD none) a) (Map.keys msg.Phases)
    let inst := sorted.foldl (handleSyncInstall msg) (r5, [])
    let r6 := sendAccepts inst.1 msg
    inst.2.foldl (runSyncDefer x) r6

/-- The three maps that `handleNewLeaderAckNs` fills. -/
structure SyncMaps where
  phases : List (CommandId × Int) := []
  cmds : List (CommandId × Command) := []
  deps : List (CommandId × Dep) := []
deriving DecidableEq, Repr, Inhabited

/-- The first loop of `handleNewLeaderAckNs`, one message: `maxCbal` and the
set `U` (`none` while the Go map is still `nil`).  The result is `none` when the
source panics on the store into a `nil` map. -/
def selectUStep (st : Option (Int × Option (List MNewLeaderAckN))) (a : MNewLeaderAckN) :
    Option (Int × Option (List MNewLeaderAckN)) :=
  match st with
  | none => none
  | some (maxCbal, U) =>
    let p : Int × Option (List MNewLeaderAckN) :=
      if maxCbal < a.Cballot then (a.Cballot, some []) else (maxCbal, U)
    if p.1 = a.Cballot then
      match p.2 with
      | none => none
      | some u => some (p.1, some (u ++ [a]))
    else some p

/-- The first loop of `handleNewLeaderAckNs`, starting from `maxCbal = -1` and
a `nil` map. -/
def selectU (msgs : List MNewLeaderAckN) : Option (Int × Option (List MNewLeaderAckN)) :=
  msgs.foldl selectUStep (some (-1, none))

/-- The body of the inner loop of `handleNewLeaderAckNs` at index `i`: `none`
when one of the three index expressions is out of range. -/
def syncEntry (a : MNewLeaderAckN) (acc : Option SyncMaps) (ip : Nat × Int) : Option SyncMaps :=
  match acc with
  | none => none
  | some m =>
    if ip.2 = COMMIT ∨ ip.2 = ACCEPT then
      match a.CmdIds[ip.1]?, a.Cmds[ip.1]?, a.Deps[ip.1]? with
      | some cmdId, some cmd, some dep =>
        some { phases := Map.put m.phases cmdId ip.2
               cmds := Map.put m.cmds cmdId cmd
               deps := Map.put m.deps cmdId dep }
      | _, _, _ => none
    else some m

/-- The second loop of `handleNewLeaderAckNs` over the members of `U`. -/
def syncMapsOf (us : List MNewLeaderAckN) : Option SyncMaps :=
  us.foldl (fun acc a => a.Phases.enum.foldl (syncEntry a) acc) (some {})

/-- The `MSync` that `handleNewLeaderAckNs` builds from the acks, `none` when
the source panics. -/
def buildSync (r : Replica) (msgs : List MNewLeaderAckN) : Option MSync :=
  match selectU msgs with
  | none => none
  | some (_, U) =>
    match syncMapsOf (U.getD []) with
    | none => none
    | some m =>
      some { Replica := r.Id, Ballot := r.ballot, Phases := m.phases, Cmds := m.cmds, Deps := m.deps }

/-- Embedding of `Replica.handleNewLeaderAckNs(_, msgs)`: the sync is sent to
all and handled locally. -/
def handleNewLeaderAckNs (x : Ext) (r : Replica) (msgs : List MNewLeaderAckN) : Option Replica :=
  match buildSync r msgs with
  | none => none
  | some sync => some (handleSync x (r.send (Out.sendToAllSync sync)) sync)

/-! ## Concrete states used by the closed statements -/

/-- An instance of the two package functions: a command has the single key `K`
and two checksum slices are equal when they are the same list. -/
def extSingle : Ext :=
  { keysOf := fun cmd => [cmd.K]
    SHashesEq := fun a b => decide (a = b) }

/-- Command id (1, 1). -/
def c11 : CommandId := { ClientId := 1, SeqNum := 1 }

/-- Command id (2, 1). -/
def c21 : CommandId := { ClientId := 2, SeqNum := 1 }

/-- A write of key 100. -/
def put100 : Command := { Op := 1, K := 100, V := 7 }

/-- The propose of command (1, 1). -/
def propose11 : GPropose := { ClientId := 1, CommandId := 1, Command := put100 }

/-- A committed descriptor of (1, 1) that depends on (2, 1). -/
def descCommitted : commandDesc :=
  { phase := COMMIT, cmd := put100, dep := some [c21], propose := some propose11
    successors := [c21] }

/-- Replica 1 of three, at ballot 0 (leader 0), which has delivered (2, 1). -/
def replicaAfterC21 : Replica := { Id := 1, N := 3, delivered := [c21] }

/-- Replica 1 of three, at ballot 0, which has delivered (1, 1). -/
def replicaAfterC11 : Replica := { Id := 1, N := 3, delivered := [c11] }

/-- Replica 0 of three, leader of ballot 0, with `optExec`, outside its own
fast quorum `FQ = {1, 2}`, before any propose. -/
def leaderOutsideFQ : Replica :=
  { Id := 0, N := 3, optExec := true
    SQ := { size := 2, elems := [0, 1, 2] }
    FQ := { size := 2, elems := [1, 2] } }

/-- A sync of ballot 0. -/
def syncBallot0 : MSync := { Replica := 0, Ballot := 0, Phases := [(c11, COMMIT)] }

/-! ## Predicates used by the statements on recovery -/

/-- Ack `a` reports, at index `i`, command `c` with phase `ph`, command `cmd`
and dep `dep`, the phase being ACCEPT or COMMIT. -/
def ReportedAt (a : MNewLeaderAckN) (i : Nat) (c : CommandId) (ph : Int) (cmd : Command)
    (dep : Dep) : Prop :=
  a.CmdIds[i]? = some c ∧ a.Phases[i]? = some ph ∧ a.Cmds[i]? = some cmd ∧
    a.Deps[i]? = some dep ∧ (ph = COMMIT ∨ ph = ACCEPT)

/-- Some ack of `us` reports `c` with phase ACCEPT or COMMIT and these values. -/
def Reported (us : List MNewLeaderAckN) (c : CommandId) (ph : Int) (cmd : Command)
    (dep : Dep) : Prop :=
  ∃ a ∈ us, ∃ i, ReportedAt a i c ph cmd dep

/-- Ack `a` is one of `msgs` whose `Cballot` is the maximum among `msgs`. -/
def HasMaxCballot (msgs : List MNewLeaderAckN) (a : MNewLeaderAckN) : Prop :=
  a ∈ msgs ∧ ∀ b ∈ msgs, b.Cballot ≤ a.Cballot

/-- The four parallel slices of an ack have one length. -/
def MNewLeaderAckN.WellFormed (a : MNewLeaderAckN) : Prop :=
  a.CmdIds.length = a.Phases.length ∧ a.Cmds.length = a.Phases.length ∧
    a.Deps.length = a.Phases.length

/-- Invariant of the second loop of `handleNewLeaderAckNs`: the three maps have
the same keys, every key carries a triple that belongs to `S`, and every
element of `S` has its key in the maps. -/
def SyncInv (S : CommandId → Int → Command → Dep → Prop) (m : SyncMaps) : Prop :=
  Map.keys m.phases = Map.keys m.cmds ∧ Map.keys m.cmds = Map.keys m.deps ∧
  (∀ c, c ∈ Map.keys m.phases → ∃ ph cmd dep, Map.get m.phases c = some ph ∧
    Map.get m.cmds c = some cmd ∧ Map.get m.deps c = some dep ∧ S c ph cmd dep) ∧
  (∀ c ph cmd dep, S c ph cmd dep → c ∈ Map.keys m.phases)

/-- Invariant of the first loop of `handleNewLeaderAckNs` after the acks `done`. -/
def SelInv (done : List MNewLeaderAckN) :
    Option (Int × Option (List MNewLeaderAckN)) → Prop
  | none => False
  | some (mc, none) => mc = -1 ∧ done = []
  | some (mc, some u) =>
    (∀ b ∈ done, b.Cballot ≤ mc) ∧ (∃ b ∈ done, b.Cballot = mc) ∧
      (∀ a, a ∈ u ↔ (a ∈ done ∧ a.Cballot = mc))

/-- Two acks of a recovery: replica 1 with cballot 1 reports (1, 1) accepted
and (2, 1) pre-accepted, replica 2 with cballot 0 reports (2, 1) committed. -/
def acksExample : List MNewLeaderAckN :=
  [ { Replica := 2, Ballot := 2, Cballot := 0, CmdIds := [c21], Phases := [COMMIT]
      Cmds := [put100], Deps := [some []] },
    { Replica := 1, Ballot := 2, Cballot := 1, CmdIds := [c11, c21], Phases := [ACCEPT, PRE_ACCEPT]
      Cmds := [put100, put100], Deps := [some [c21], some []] } ]

/-! ## Relations between replica states used by the statements on handlers -/

/-- The part of the replica state that the aggregators, the completion handler
and `deliver` leave alone: everything but the descriptor map, the Delivered
set, the reply channel, the posts on `deliverChan`, the worker count and the
executed commands. -/
def Replica.env (r : Replica) : Replica :=
  { r with cmdDescs := [], delivered := [], repchan := {}, deliverChan := []
           routineCount := 0, executed := [] }

/-- Every descriptor of `r` is still stored in `r2`, related by `R`. -/
def DescsRel (R : CommandId → commandDesc → commandDesc → Prop) (r r2 : Replica) : Prop :=
  ∀ id d, Map.get r.cmdDescs id = some d → ∃ d2, Map.get r2.cmdDescs id = some d2 ∧ R id d d2

/-- A relation on descriptors that the completion handler respects: it is
reflexive and transitive and holds across an update of the successors and
across the move to COMMIT. -/
structure HandlerClosed (R : CommandId → commandDesc → commandDesc → Prop) : Prop where
  refl : ∀ id d, R id d d
  trans : ∀ id a b c, R id a b → R id b c → R id a c
  succ : ∀ id d s, R id d { d with successors := s }
  commit : ∀ id d, R id d { d with phase := COMMIT }

/-! ## Concrete runs used by the closed statements on handlers -/

/-- The dispatch loop on a propose of (1, 1) whose local dep is `[]` and whose
hashes are `[5]`: `r.proposes[cmdId] = propose`, then
`getCmdDescSeq(cmdId, propose, dep, hs, r.leader() == r.Id)`, then one turn of
the worker of the descriptor. -/
def dispatchPropose11 (r : Replica) : Replica :=
  let r1 : Replica := { r with proposes := Map.put r.proposes c11 propose11 }
  handleDescStep extSingle
    ((getCmdDescSeq extSingle r1 c11 (some (Msg.propose propose11)) (some []) (some [5])
      (decide (r1.leader = r1.Id))).getD r1) c11

/-- The dispatch loop on a message of `fastAckChan` or `lightSlowAckChan` for
(1, 1): `getCmdDesc(cmdId, msg, nil)`, then one turn of the worker of the
descriptor. -/
def dispatch11 (r : Replica) (m : Msg) : Replica :=
  handleDescStep extSingle ((getCmdDesc extSingle r c11 (some m) none).getD r) c11

/-- Replica 1 of four at ballot 0 (leader 0), with `SQ` and `FQ` of size 3 over
all replicas. -/
def runA0 : Replica :=
  { Id := 1, N := 4, SQ := { size := 3, elems := [0, 1, 2, 3] }
    FQ := { size := 3, elems := [0, 1, 2, 3] } }

/-- The FastAck of the leader for (1, 1), with dep [(2, 1)]. -/
def leaderAckA : MFastAck :=
  { Replica := 0, Ballot := 0, CmdId := c11, Dep := some [c21], Checksum := some [5] }

/-- Run A, step 1: the propose of (1, 1) is dispatched. -/
def runA1 : Replica := dispatchPropose11 runA0

/-- Run A, step 2: the FastAck of the leader is dispatched. -/
def runA2 : Replica := dispatch11 runA1 (Msg.fastAck leaderAckA)

/-- Run A, step 3: the LightSlowAck of replica 2 is dispatched. -/
def runA3 : Replica :=
  dispatch11 runA2 (Msg.lightSlowAck { Replica := 2, Ballot := 0, CmdId := c11 })

/-- Replica 1 of three at ballot 0 (leader 0), with `SQ` of size 2 and `FQ` of
size 3 over all replicas. -/
def runB0 : Replica :=
  { Id := 1, N := 3, SQ := { size := 2, elems := [0, 1, 2] }
    FQ := { size := 3, elems := [0, 1, 2] } }

/-- Run B, step 1: the propose of (1, 1) is dispatched. -/
def runB1 : Replica := dispatchPropose11 runB0

/-- Run B, step 2: the LightSlowAck of replica 2 arrives, and is dispatched,
before the FastAck of the leader. -/
def runB2 : Replica :=
  dispatch11 runB1 (Msg.lightSlowAck { Replica := 2, Ballot := 0, CmdId := c11 })

/-- Run B, step 3: the FastAck of the leader, with dep [(2, 1)], is
dispatched. -/
def runB3 : Replica := dispatch11 runB2 (Msg.fastAck leaderAckA)

/-- Replica 2 of three at ballot 0 (leader 0), inside `SQ` and outside
`FQ = {0, 1}`, after the propose of (1, 1) is dispatched. -/
def runD1 : Replica :=
  dispatchPropose11
    { Id := 2, N := 3, SQ := { size := 2, elems := [0, 1, 2] }
      FQ := { size := 2, elems := [0, 1] } }

/-- The FastAck of the leader for (1, 1), with an empty dep. -/
def leaderAckD : MFastAck :=
  { Replica := 0, Ballot := 0, CmdId := c11, Dep := some [], Checksum := some [5] }

/-- Replica 0 of three, leader of ballot 0, with `optExec` and outside its own
fast quorum `FQ = {1, 2}`, after the propose of (1, 1) is dispatched. -/
def leaderAfterPropose : Replica := dispatchPropose11 leaderOutsideFQ

/-- The LightSlowAck of replica 2 for (1, 1) in the shape `handleLightSlowAck`
gives it: a FastAck with a nil dep. -/
def nilAck2 : MFastAck := { Replica := 2, Ballot := 0, CmdId := c11, Dep := none }

/-- Run A, within step 3: `slowPathH` has taken the ack of replica 2 and
`fastPathH` is about to. -/
def runA2s : Replica := slowPathHAdd runA2 c11 2 false nilAck2

/-- A relation on descriptors that the closure of `fastAckFromLeader`, run on
the descriptor of `cmdId`, respects in each of its writes. -/
structure FastAckClosed (R : CommandId → commandDesc → commandDesc → Prop) (cmdId : CommandId)
    extends HandlerClosed R : Prop where
  slow : ∀ id d ms, R id d { d with slowPathH := ms }
  fast : ∀ id d ms, R id d { d with fastPathH := ms }
  accept : ∀ d, R cmdId d { d with phase := ACCEPT }
  dep : ∀ id d dp, R id d { d with dep := dp, slowPath := true }
  pending : ∀ id d m, R id d { d with afterPropagate := m }

/-- The phase of a descriptor is not lowered, or, for the descriptor of `cmdId`
only, it ends at `k` or above (all phases staying within START..COMMIT). -/
def PhaseFloor (cmdId : CommandId) (k : Int) : CommandId → commandDesc → commandDesc → Prop :=
  fun id d d2 =>
    d.phase ≤ COMMIT → d2.phase ≤ COMMIT ∧ (d.phase ≤ d2.phase ∨ (id = cmdId ∧ k ≤ d2.phase))

/-- The phase of a descriptor is not lowered (and stays within START..COMMIT). -/
def PhaseMono : CommandId → commandDesc → commandDesc → Prop :=
  fun _ d d2 => d.phase ≤ COMMIT → d2.phase ≤ COMMIT ∧ d.phase ≤ d2.phase

/-! ## Concrete states for the statements on checksums and on the order of a sync -/

/-- An instance of the two package functions in which a command spans the two
keys `K` and `K + 1`. -/
def extPair : Ext :=
  { keysOf := fun cmd => [cmd.K, cmd.K + 1]
    SHashesEq := fun a b => decide (a = b) }

/-- Replica 3 of four at ballot 0 (leader 0), outside `SQ = FQ = {0, 1, 2}`,
with `optExec`, after the propose of (1, 1) is dispatched; the local hashes of
its two keys are 5 and 6. -/
def runE1 : Replica :=
  handleDescStep extPair
    ((getCmdDescSeq extPair
      { Id := 3, N := 4, optExec := true, SQ := { size := 3, elems := [0, 1, 2] }
        FQ := { size := 3, elems := [0, 1, 2] }, proposes := [(c11, propose11)] }
      c11 (some (Msg.propose propose11)) (some []) (some [5, 6]) false).getD {}) c11

/-- The FastAck of the leader for (1, 1) whose checksum agrees on the first key
(5) and differs on the second (7 against 6). -/
def leaderAckE : MFastAck :=
  { Replica := 0, Ballot := 0, CmdId := c11, Dep := some [], Checksum := some [5, 7] }

/-- Command id (3, 1). -/
def c31 : CommandId := { ClientId := 3, SeqNum := 1 }

/-- A sync of ballot 1 whose `Phases` map is iterated in the order (1, 1),
(3, 1), (2, 1), and in which (1, 1) depends on (2, 1). -/
def syncUnordered : MSync :=
  { Replica := 1, Ballot := 1
    Phases := [(c11, ACCEPT), (c31, ACCEPT), (c21, ACCEPT)]
    Cmds := [(c11, put100), (c31, put100), (c21, put100)]
    Deps := [(c11, some [c21]), (c31, some []), (c21, some [])] }

/-- The order in which `handleSync` installs the command ids of a sync: the
keys of `msg.Phases` after `sort.Slice` with the `less` of the source. -/
def handleSyncOrder (msg : MSync) : List CommandId :=
  sortSlice (fun a b => Dep.Contains ((Map.get msg.Deps b).getD none) a) (Map.keys msg.Phases)

/-- Replica 2 of three, recovering at ballot 1 (leader 1). -/
def recovering2 : Replica :=
  { Id := 2, N := 3, ballot := 1, status := RECOVERING
    SQ := { size := 2, elems := [0, 1, 2] }, FQ := { size := 3, elems := [0, 1, 2] } }

/-! ## Conflict index -/

/-- Methods of `keyInfo` and of `checksum` that `getDep` and `getDepAndHashes`
call and whose code is not part of the sources at hand; they are parameters of
the embedding.  `add` and `update` return the receiver after the call, `update`
together with the hash it returns. -/
structure KeyOps where
  getConflictCmds : keyInfo → Command → List CommandId
  add : keyInfo → Command → CommandId → keyInfo
  newLightKeyInfo : keyInfo
  update : checksum → Command → CommandId → checksum × SHash
  newChecksum : checksum

/-- Embedding of `Replica.getDep(cmd)`. -/
def getDep (x : Ext) (k : KeyOps) (r : Replica) (cmd : Command) : Dep :=
  some ((x.keysOf cmd).foldl (fun dep key =>
    match Map.get r.keys key with
    | some info => dep ++ k.getConflictCmds info cmd
    | none => dep) [])

/-- The body of the loop of `getDepAndHashes` for one key, on the replica state
and the slices `dep` and `hashes`.  `info` and `s` are references in the
source: the map entry holds the receiver after `add` and after `update`. -/
def getDepAndHashesStep (k : KeyOps) (cmd : Command) (cmdId : CommandId)
    (acc : Replica × List CommandId × List SHash) (key : Int) :
    Replica × List CommandId × List SHash :=
  let r := acc.1
  let info : keyInfo := (Map.get r.keys key).getD k.newLightKeyInfo
  let dep : List CommandId :=
    match Map.get r.keys key with
    | some i => acc.2.1 ++ k.getConflictCmds i cmd
    | none => acc.2.1
  let r1 : Replica := { r with keys := Map.put r.keys key (k.add info cmd cmdId) }
  let s : checksum := (Map.get r1.sums key).getD k.newChecksum
  let u := k.update s cmd cmdId
  ({ r1 with sums := Map.put r1.sums key u.1 }, dep, acc.2.2 ++ [u.2])

/-- Embedding of `Replica.getDepAndHashes(cmd, cmdId)`: the state after the
call, the dep and the hashes. -/
def getDepAndHashes (x : Ext) (k : KeyOps) (r : Replica) (cmd : Command) (cmdId : CommandId) :
    Replica × Dep × Option (List SHash) :=
  let res := (x.keysOf cmd).foldl (getDepAndHashesStep k cmd cmdId) (r, [], [])
  (res.1, some res.2.1, some res.2.2)

/-- The dep of a command in the words of section 3: the concatenation, in key
order, of `KeyInfo[k].getConflictCmds(cmd)` over the keys `k` of the command, a
key without `KeyInfo` contributing nothing. -/
def getDepSpec (x : Ext) (k : KeyOps) (r : Replica) (cmd : Command) : List CommandId :=
  ((x.keysOf cmd).map (fun key =>
    match Map.get r.keys key with
    | some info => k.getConflictCmds info cmd
    | none => [])).flatten

/-- An instance of the methods of the conflict index: `add` appends (cmdId, op)
to the log of the key, `getConflictCmds` returns the ids of the log when the
command is a write or the ids of the writes of the log otherwise (op 1 is
PUT), and a checksum adds up the sequence numbers it has taken. -/
def keyOpsLog : KeyOps :=
  { getConflictCmds := fun info cmd =>
      (info.filter (fun p => decide (cmd.Op = 1 ∨ p.2 = 1))).map Prod.fst
    add := fun info cmd cmdId => info ++ [(cmdId, cmd.Op)]
    newLightKeyInfo := []
    update := fun s _ cmdId =>
      (s ++ [(cmdId, (s.map Prod.snd).sum + cmdId.SeqNum)], (s.map Prod.snd).sum + cmdId.SeqNum)
    newChecksum := [] }

/-- An instance of `keysOf` in which no command has a key. -/
def extNoKey : Ext :=
  { keysOf := fun _ => []
    SHashesEq := fun a b => decide (a = b) }

/-- Replica 1 of three whose key index holds the write (2, 1) on key 100. -/
def replicaIndexed : Replica :=
  { Id := 1, N := 3, keys := [(100, [(c21, 1)])], sums := [(100, [(c21, 1)])] }

/-! ## Acks of a recovery -/

/-- Modelled from the spec: `state.NOOP()[0]`, the placeholder command of the
glossary, whose code is not part of the sources at hand. -/
def NOOP : Command := { Op := 0, K := 0, V := 0 }

/-- The command id `CommandId{propose.ClientId, propose.CommandId}` of a
propose. -/
def proposeId (p : GPropose) : CommandId := { ClientId := p.ClientId, SeqNum := p.CommandId }

/-- The four slices and the map `seen` that `fillNewLeaderAckN` builds. -/
structure AckSlices where
  cmdIds : List CommandId := []
  phases : List Int := []
  cmds : List Command := []
  deps : List Dep := []
  seen : List CommandId := []
deriving DecidableEq, Repr, Inhabited

/-- The callback that `fillNewLeaderAckN` hands to `r.cmdDescs.IterCb`, on one
entry of the descriptor map. -/
def fillDescStep (acc : AckSlices) (p : CommandId × commandDesc) : AckSlices :=
  match p.2.propose with
  | none => acc
  | some propose =>
    if proposeId propose ∈ acc.seen then acc
    else
      { cmdIds := acc.cmdIds ++ [proposeId propose]
        phases := acc.phases ++ [p.2.phase]
        cmds := acc.cmds ++ [p.2.cmd]
        deps := acc.deps ++ [p.2.dep]
        seen := acc.seen ++ [proposeId propose] }

/-- The body of the loop of `fillNewLeaderAckN` over `r.proposes`, on one
entry. -/
def fillProposeStep (r : Replica) (acc : AckSlices) (p : CommandId × GPropose) : AckSlices :=
  if p.1 ∈ acc.seen ∨ r.hasDelivered p.1 = true then acc
  else
    { acc with cmdIds := acc.cmdIds ++ [p.1]
               phases := acc.phases ++ [ACCEPT]
               cmds := acc.cmds ++ [NOOP]
               deps := acc.deps ++ [some []] }

/-- Embedding of `Replica.fillNewLeaderAckN(newLeaderAckN)`; the two maps are
ranged over in the order of their association lists. -/
def fillNewLeaderAckN (r : Replica) (newLeaderAckN : MNewLeaderAckN) : MNewLeaderAckN :=
  let s := r.proposes.foldl (fillProposeStep r) (r.cmdDescs.foldl fillDescStep {})
  { newLeaderAckN with CmdIds := s.cmdIds, Phases := s.phases, Cmds := s.cmds, Deps := s.deps }

/-- Ack `a` carries at index `i` the command id `c` with phase `ph`, command
`cmd` and dep `dep`. -/
def CarriedAt (a : MNewLeaderAckN) (i : Nat) (c : CommandId) (ph : Int) (cmd : Command)
    (dep : Dep) : Prop :=
  a.CmdIds[i]? = some c ∧ a.Phases[i]? = some ph ∧ a.Cmds[i]? = some cmd ∧ a.Deps[i]? = some dep

/-- No two descriptors of the replica bear a propose of the same command id (a
descriptor is stored under the id of the propose it bears). -/
def Replica.ProposeIdsDistinct (r : Replica) : Prop :=
  (r.cmdDescs.filterMap (fun p => p.2.propose.map proposeId)).Nodup

/-- A row of an ack: command id, phase, command and dep. -/
abbrev AckRow := CommandId × Int × Command × Dep

/-- The four slices are the four columns of `rows`. -/
def AckSlices.Rep (s : AckSlices) (rows : List AckRow) : Prop :=
  s.cmdIds = rows.map (fun w => w.1) ∧ s.phases = rows.map (fun w => w.2.1) ∧
    s.cmds = rows.map (fun w => w.2.2.1) ∧ s.deps = rows.map (fun w => w.2.2.2)

/-! ## Concrete states for the statements on the acks of a recovery -/

/-- The propose of command (2, 1). -/
def propose21 : GPropose := { ClientId := 2, CommandId := 1, Command := put100 }

/-- A sync of ballot 1 that carries (1, 1) committed. -/
def syncCommitted : MSync :=
  { Replica := 1, Ballot := 1, Phases := [(c11, COMMIT)], Cmds := [(c11, put100)]
    Deps := [(c11, some [])] }

/-- Replica 2 of three after the sync of ballot 1: it never received the
propose of (1, 1), so its committed descriptor bears no propose. -/
def followerSynced : Replica := handleSync extSingle recovering2 syncCommitted

/-- Replica 0 of three, still at `cballot` 0, with the committed command
(2, 1) and its propose. -/
def staleCommitted : Replica :=
  { Id := 0, N := 3, ballot := 2, status := RECOVERING
    cmdDescs := [(c21, { phase := COMMIT, cmd := put100, dep := some [], propose := some propose21 })]
    proposes := [(c21, propose21)] }

/-- Replica 1 of three at `cballot` 1 with the committed command (1, 1) and its
propose, and the pending propose of (2, 1). -/
def freshCommitted : Replica :=
  { Id := 1, N := 3, ballot := 2, cballot := 1, status := RECOVERING
    cmdDescs := [(c11, descCommitted)]
    proposes := [(c11, propose11), (c21, propose21)] }

/-- Replica 2, recovering at ballot 2, of which it is the leader. -/
def leaderRecovering : Replica := { followerSynced with status := RECOVERING, ballot := 2 }

/-- The acks that replicas 2 and 0 build for ballot 2. -/
def acksLost : List MNewLeaderAckN :=
  [ fillNewLeaderAckN leaderRecovering
      { Replica := 2, Ballot := 2, Cballot := leaderRecovering.cballot },
    fillNewLeaderAckN staleCommitted
      { Replica := 0, Ballot := 2, Cballot := staleCommitted.cballot } ]

/-- The acks that replicas 1 and 0 build for ballot 2. -/
def acksKept : List MNewLeaderAckN :=
  [ fillNewLeaderAckN freshCommitted
      { Replica := 1, Ballot := 2, Cballot := freshCommitted.cballot },
    fillNewLeaderAckN staleCommitted
      { Replica := 0, Ballot := 2, Cballot := staleCommitted.cballot } ]

/-! ## CURP client -/

namespace Curp

/-- Modelled from the spec: the three values of `Ok` in a record ack (section
6); the constants are not part of the sources at hand. -/
def FALSE : Int := 0

/-- Modelled from the spec: the value `TRUE` of `Ok`. -/
def TRUE : Int := 1

/-- Modelled from the spec: the value `ORDERED` of `Ok`. -/
def ORDERED : Int := 2

/-- A `state.Value`; `none` is `nil`. -/
abbrev Value := Option (List Int)

/-- Wire message `MRecordAck` of the CURP client. -/
structure MRecordAck where
  Replica : Int
  Ballot : Int
  CmdId : CommandId
  Ok : Int
deriving DecidableEq, Repr, Inhabited

/-- Wire message `MReply` of the CURP client. -/
structure MReply where
  Replica : Int
  Ballot : Int
  CmdId : CommandId
  Rep : Value
  Ok : Int
deriving DecidableEq, Repr, Inhabited

/-- Wire message `MSyncReply` of the CURP client. -/
structure MSyncReply where
  Replica : Int
  Ballot : Int
  CmdId : CommandId
  Rep : Value
deriving DecidableEq, Repr, Inhabited

/-- Wire message `MSync` of the CURP client. -/
structure MSync where
  CmdId : CommandId
deriving DecidableEq, Repr, Inhabited

/-- Client state `Client`.  `Q` and `M` are the quorums `smr.ThreeQuarters` and
`smr.Majority` of `N`, `delivered` is the Go map `map[int32]struct{}`.  The logs
`ResChan`, `ready`, `timerResets` and `sent` collect the values posted on the
result channel, the posts on `ready`, the calls of `t.Reset` and the messages
handed to `SendMsg`; `stopped` records that `handleMsgs` has returned. -/
structure Client where
  acks : MsgSet MRecordAck := {}
  macks : MsgSet MRecordAck := {}
  N : Int := 1
  Q : QuorumI := {}
  M : QuorumI := {}
  val : Value := none
  ready : Nat := 0
  leader : Int := -1
  ballot : Int := -1
  delivered : List (Int × Unit) := []
  lastCmdId : CommandId := { ClientId := 0, SeqNum := 0 }
  slowPaths : Int := 0
  alreadySlow : List CommandId := []
  ResChan : List Value := []
  timerResets : Nat := 0
  sent : List (Int × MSync) := []
  stopped : Bool := false
deriving DecidableEq, Repr, Inhabited

/-- The value of an `int32` after an arithmetic operation whose exact result is
`x`: Go wraps around in two's complement. -/
def wrap32 (x : Int) : Int := (x + 2147483648) % 4294967296 - 2147483648

/-- Embedding of `Client.reinitAcks`: both aggregators are freed and rebound to
their quorums. -/
def reinitAcks (c : Client) : Client :=
  { c with acks := (c.acks.Free).ReinitMsgSet c.Q
           macks := (c.macks.Free).ReinitMsgSet c.M }

/-- Embedding of `Client.handleAcks(leaderMsg, msgs)`. -/
def handleAcks (c : Client) (leaderMsg : Option MRecordAck) (_msgs : List MRecordAck) : Client :=
  match leaderMsg with
  | none => c
  | some lm =>
    if (Map.get c.delivered lm.CmdId.SeqNum).isSome = true then c
    else
      let c1 : Client :=
        { c with delivered := Map.put c.delivered lm.CmdId.SeqNum ()
                 lastCmdId := { c.lastCmdId with SeqNum := wrap32 (c.lastCmdId.SeqNum + 1) }
                 ResChan := c.ResChan ++ [c.val]
                 ready := c.ready + 1 }
      { reinitAcks c1 with timerResets := c1.timerResets + 1 }

/-- The call `c.acks.Add(repId, isLeader, msg)`.  The accept test bound by
`reinitAcks` counts a message with `Ok == TRUE`; run on a non-leader message
with `Ok == FALSE` it counts one more slow path, once per command id.  When the
set fires, `handleAcks` runs inside the call. -/
def acksAdd (c : Client) (repId : Int) (isLeader : Bool) (msg : MRecordAck) : Client :=
  let c0 : Client :=
    if isLeader = false ∧ msg.CmdId ∉ c.alreadySlow ∧ msg.Ok = FALSE then
      { c with slowPaths := c.slowPaths + 1, alreadySlow := c.alreadySlow ++ [msg.CmdId] }
    else c
  let res := MsgSet.Add (fun m _ => decide (m.Ok = TRUE)) c0.acks repId isLeader msg
  let c1 : Client := { c0 with acks := res.1 }
  match res.2 with
  | none => c1
  | some fire => handleAcks c1 fire.1 fire.2

/-- The call `c.macks.Add(repId, isLeader, msg)`, whose accept test takes every
message.  When the set fires, `handleAcks` runs inside the call. -/
def macksAdd (c : Client) (repId : Int) (isLeader : Bool) (msg : MRecordAck) : Client :=
  let res := MsgSet.Add (fun _ _ => true) c.macks repId isLeader msg
  let c1 : Client := { c with macks := res.1 }
  match res.2 with
  | none => c1
  | some fire => handleAcks c1 fire.1 fire.2

/-- The part of `handleRecordAck` that follows the reconciliation of the
ballot: the leader is noted and `r` is recorded in the aggregators. -/
def recordAck (c : Client) (r : MRecordAck) (fromLeader : Bool) : Client :=
  let c1 : Client :=
    if fromLeader = true then macksAdd { c with leader := r.Replica } r.Replica true r else c
  if r.Ok = ORDERED then macksAdd c1 r.Replica false r
  else acksAdd c1 r.Replica fromLeader r

/-- Embedding of `Client.handleRecordAck(r, fromLeader)`. -/
def handleRecordAck (c : Client) (r : MRecordAck) (fromLeader : Bool) : Client :=
  if (Map.get c.delivered r.CmdId.SeqNum).isSome = true then c
  else if c.ballot = -1 then recordAck { c with ballot := r.Ballot } r fromLeader
  else if c.ballot < r.Ballot then recordAck (reinitAcks { c with ballot := r.Ballot }) r fromLeader
  else if c.ballot > r.Ballot then c
  else recordAck c r fromLeader

/-- Embedding of `Client.handleReply(r)`. -/
def handleReply (c : Client) (r : MReply) : Client :=
  if (Map.get c.delivered r.CmdId.SeqNum).isSome = true then c
  else
    handleRecordAck { c with val := r.Rep }
      { Replica := r.Replica, Ballot := r.Ballot, CmdId := r.CmdId, Ok := r.Ok } true

/-- The delivery of `handleSyncReply` once the ballot is reconciled. -/
def deliverSyncReply (c : Client) (rep : MSyncReply) : Client :=
  let c1 : Client :=
    { c with leader := rep.Replica
             val := rep.Rep
             delivered := Map.put c.delivered rep.CmdId.SeqNum ()
             lastCmdId := { c.lastCmdId with SeqNum := wrap32 (c.lastCmdId.SeqNum + 1) }
             ResChan := c.ResChan ++ [rep.Rep]
             ready := c.ready + 1 }
  { reinitAcks c1 with timerResets := c1.timerResets + 1 }

/-- Embedding of `Client.handleSyncReply(rep)`. -/
def handleSyncReply (c : Client) (rep : MSyncReply) : Client :=
  if (Map.get c.delivered rep.CmdId.SeqNum).isSome = true then c
  else if c.ballot = -1 then deliverSyncReply { c with ballot := rep.Ballot } rep
  else if c.ballot < rep.Ballot then deliverSyncReply (reinitAcks { c with ballot := rep.Ballot }) rep
  else if c.ballot > rep.Ballot then c
  else deliverSyncReply c rep

/-- What the `select` of `handleMsgs` receives. -/
inductive Event where
  | reply (m : MReply)
  | recordAck (m : MRecordAck)
  | syncReply (m : MSyncReply)
  | timer (needSync : Bool)
deriving DecidableEq, Repr, Inhabited

/-- One turn of the loop of `Client.handleMsgs`. -/
def handleMsgs (c : Client) (ev : Event) : Client :=
  if c.stopped = true then c
  else
    match ev with
    | Event.reply rep => if rep.CmdId = c.lastCmdId then handleReply c rep else c
    | Event.recordAck recAck =>
      if recAck.CmdId = c.lastCmdId then handleRecordAck c recAck false else c
    | Event.syncReply rep => if rep.CmdId = c.lastCmdId then handleSyncReply c rep else c
    | Event.timer needSync =>
      if needSync = true ∧ c.leader ≠ -1 then
        if (Map.get c.delivered c.lastCmdId.SeqNum).isSome = true then { c with stopped := true }
        else { c with sent := c.sent ++ [(c.leader, { CmdId := c.lastCmdId })] }
      else c

/-- The client that `NewClient` returns: sequence number 0, nothing delivered,
no ballot and no leader known, both aggregators bound by `reinitAcks`. -/
def NewClient (clientId N : Int) (Q M : QuorumI) : Client :=
  reinitAcks { N := N, Q := Q, M := M, lastCmdId := { ClientId := clientId, SeqNum := 0 } }

/-- States of the client reachable from `NewClient` through `handleAcks` and
`handleSyncReply` on any arguments, and through the turns of `handleMsgs`. -/
inductive Reachable : Client → Prop where
  | init (clientId N : Int) (Q M : QuorumI) : Reachable (NewClient clientId N Q M)
  | acks (c : Client) (leaderMsg : Option MRecordAck) (msgs : List MRecordAck) :
      Reachable c → Reachable (handleAcks c leaderMsg msgs)
  | syncReply (c : Client) (rep : MSyncReply) : Reachable c → Reachable (handleSyncReply c rep)
  | msg (c : Client) (ev : Event) : Reachable c → Reachable (handleMsgs c ev)

/-- The sequence number is the wrapped count of the delivered set, which is
also the count of the values posted on the result channel. -/
def CountInv (c : Client) : Prop :=
  c.lastCmdId.SeqNum = wrap32 c.delivered.length ∧ c.ResChan.length = c.delivered.length

/-- From `c` to `c2` nothing is delivered, or one value is: the delivered set
gains one entry, the sequence number is incremented and the result channel
receives one value. -/
def Delivers (c c2 : Client) : Prop :=
  (c2.delivered = c.delivered ∧ c2.lastCmdId = c.lastCmdId ∧ c2.ResChan = c.ResChan) ∨
  ∃ k v, Map.get c.delivered k = none ∧ c2.delivered = c.delivered ++ [(k, ())] ∧
    c2.lastCmdId.SeqNum = wrap32 (c.lastCmdId.SeqNum + 1) ∧ c2.ResChan = c.ResChan ++ [v]

/-- The record ack of the leader (replica 0, ballot 0) for the command of
sequence number `k` of client 0. -/
def ackOf (k : Nat) : MRecordAck :=
  { Replica := 0, Ballot := 0, CmdId := { ClientId := 0, SeqNum := k }, Ok := TRUE }

/-- The client of three replicas after `n` deliveries: `handleAcks` has run on
the leader acks of the sequence numbers `0` to `n - 1`. -/
def deliverMany : Nat → Client
  | 0 => NewClient 0 3 { size := 3, elems := [0, 1, 2] } { size := 2, elems := [0, 1, 2] }
  | n + 1 => handleAcks (deliverMany n) (some (ackOf n)) []

end Curp

/-! ## Predicates for the statement on the descriptors that a sync installs -/

/-- Descriptor `d` holds what the sync `msg` carries for `cmdId`: the phase is
ACCEPT or COMMIT, the command is `msg.Cmds[cmdId]` and the dep is
`msg.Deps[cmdId]` (the zero value of Go for a missing key). -/
def Installed (msg : MSync) (cmdId : CommandId) (d : commandDesc) : Prop :=
  (d.phase = ACCEPT ∨ d.phase = COMMIT) ∧ d.cmd = (Map.get msg.Cmds cmdId).getD default ∧
    d.dep = (Map.get msg.Deps cmdId).getD none

/-- Command and dep are kept, and a phase that is ACCEPT or COMMIT stays one of
the two. -/
def KeepsInstalled : CommandId → commandDesc → commandDesc → Prop :=
  fun _ d d2 => d2.cmd = d.cmd ∧ d2.dep = d.dep ∧
    ((d.phase = ACCEPT ∨ d.phase = COMMIT) → (d2.phase = ACCEPT ∨ d2.phase = COMMIT))

/-- The relation `KeepsInstalled` on every descriptor but the one of `cmdId`. -/
def KeepsInstalledBut (cmdId : CommandId) : CommandId → commandDesc → commandDesc → Prop :=
  fun id d d2 => id = cmdId ∨ KeepsInstalled id d d2

/-- A call deferred by `handleSync` at replica `r`: a FastAck is deferred by the
leader only, in its own name. -/
def SyncDefer.Own (r : Replica) : SyncDefer → Prop
  | SyncDefer.fastAck m _ => m.Replica = r.Id ∧ r.Id = r.leader
  | SyncDefer.lightSlowAck _ _ => True

/-- The `if desc != nil` block of the installation loop of `handleSync`, on the
state that `getCmdDesc` returned. -/
def installDesc (msg : MSync) (r0 : Replica) (cmdId : CommandId) : Replica :=
  let deps : Dep := (Map.get msg.Deps cmdId).getD none
  let d := r0.desc cmdId
  let ra := r0.setDesc cmdId
    { d with phase := (Map.get msg.Phases cmdId).getD 0
             cmd := (Map.get msg.Cmds cmdId).getD default
             dep := deps
             proposeDep := deps }
  let rb := (depList deps).foldl (fun a cmdIdPrime =>
    let a1 := addSuccessor a cmdIdPrime cmdId
    { a1 with deliverChan := a1.deliverChan ++ [cmdIdPrime] }) ra
  let rc : Replica := { rb with deliverChan := rb.deliverChan ++ [cmdId] }
  let d2 := rc.desc cmdId
  if d2.phase ≠ COMMIT ∧ d2.phase ≠ ACCEPT then rc.setDesc cmdId { d2 with phase := ACCEPT }
  else rc

/-- The `if propose, exists := r.proposes[cmdId]` block of the installation
loop of `handleSync`; `installed` tells whether `desc != nil`. -/
def announceInstalled (r1 : Replica) (installed : Bool) (deps : Dep) (defers : List SyncDefer)
    (cmdId : CommandId) : Replica × List SyncDefer :=
  match Map.get r1.proposes cmdId with
  | none => (r1, defers)
  | some propose =>
    let r2 :=
      if installed = true then r1.setDesc cmdId { r1.desc cmdId with propose := some propose }
      else r1
    if r2.SQ.Contains r2.Id = false then (r2, defers)
    else if r2.Id = r2.leader then
      let fastAck : MFastAck :=
        { Replica := r2.Id, Ballot := r2.ballot, CmdId := cmdId, Dep := deps }
      let r3 := r2.send (Out.batcherSendFastAck fastAck)
      let reply : MReply := { Replica := r3.Id, Ballot := r3.ballot, CmdId := cmdId }
      (r3.send (Out.sendToClientReply propose.ClientId reply),
        if installed = true then SyncDefer.fastAck fastAck cmdId :: defers else defers)
    else
      let lightSlowAck : MLightSlowAck := { Replica := r2.Id, Ballot := r2.ballot, CmdId := cmdId }
      (r2.send (Out.batcherSendLightSlowAckClient lightSlowAck propose.ClientId),
        if installed = true then SyncDefer.lightSlowAck lightSlowAck cmdId :: defers else defers)

/-- A sync of ballot 1 that carries (1, 1) with the phase PRE_ACCEPT and the dep
[(2, 1)]. -/
def syncPreAccepted : MSync :=
  { Replica := 1, Ballot := 1, Phases := [(c11, PRE_ACCEPT)], Cmds := [(c11, put100)]
    Deps := [(c11, some [c21])] }

/-! ## Change of leader -/

/-- The fields that the recovery protocol writes: `ballot`, `cballot`, `status`
and the aggregator `newLeaderAckNs`. -/
def Replica.epoch (r : Replica) : Int × Int × Int × MsgSet MNewLeaderAckN :=
  (r.ballot, r.cballot, r.status, r.newLeaderAckNs)

/-- Embedding of `Replica.reinitNewLeaderAckNs`; `Q` is `smr.NewMajorityOf(r.N)`,
whose code is not part of the sources at hand. -/
def reinitNewLeaderAckNs (r : Replica) (Q : QuorumI) : Replica :=
  { r with newLeaderAckNs := r.newLeaderAckNs.ReinitMsgSet Q }

/-- Modelled from the spec: `MsgSet.Add` on the aggregator `newLeaderAckNs`.
Every ack is added to it as a non-leader message, so that it never records a
leader message, and section 4.10 (step 4, "On NewLeaderAckNs quorum", and
scenario S3, where the acks of replicas 1 and 2 of 3 suffice) has its handler
run once the acks of a quorum are held.  The message is recorded as
`MsgSet.Add` records it, and the completion handler fires, once, under the rule
of section 4.2 or when the accepted non-leader messages number at least `Q`;
the second component is then the pair handed to the handler. -/
def MsgSet.AddQuorum {M : Type} (accept : M → Option M → Bool) (ms : MsgSet M)
    (repId : Int) (isLeader : Bool) (msg : M) : MsgSet M × Option (Option M × List M) :=
  let ms1 : MsgSet M :=
    if isLeader then { ms with leaderMsg := some msg }
    else { ms with msgs := Map.put ms.msgs repId msg }
  let n : Int := ((MsgSet.accepted accept ms1).length : Int)
  if ms1.fired = false ∧
      ((ms1.leaderMsg.isSome = true ∧ ms1.q.Size - 1 ≤ n) ∨ ms1.q.Size ≤ n) then
    ({ ms1 with fired := true }, some (ms1.leaderMsg, MsgSet.accepted accept ms1))
  else (ms1, none)

/-- Embedding of `Replica.handleNewLeaderAckN(msg)`: the ack is added to
`newLeaderAckNs`, whose accept test takes every message; when the set fires,
`handleNewLeaderAckNs` runs inside the call on the messages it holds (it does
not read the leader message).  The result is `none` when that handler panics. -/
def handleNewLeaderAckN (x : Ext) (r : Replica) (msg : MNewLeaderAckN) : Option Replica :=
  if r.status ≠ RECOVERING ∨ r.ballot ≠ msg.Ballot then some r
  else
    let res := MsgSet.AddQuorum (fun _ _ => true) r.newLeaderAckNs msg.Replica false msg
    let r1 : Replica := { r with newLeaderAckNs := res.1 }
    match res.2 with
    | none => some r1
    | some fire => handleNewLeaderAckNs x r1 fire.2

/-- The writes of `handleNewLeader` that open a recovery: status RECOVERING,
the new ballot, the reply channel stopped and the workers of the descriptors
stopped. -/
def startRecovery (r : Replica) (ballot : Int) : Replica :=
  let r1 : Replica := { r with status := RECOVERING, ballot := ballot }
  stopDescs { r1 with repchan := r1.repchan.stop }

/-- Embedding of `Replica.handleNewLeader(msg)` up to its final loop.  That
loop (`for r.status == RECOVERING`) receives from the channels of new leaders,
acks and syncs only; it is a suspension point and each message it receives is
handled as a step of its own. -/
def handleNewLeader (x : Ext) (r : Replica) (msg : MNewLeader) : Option Replica :=
  if msg.Ballot ≤ r.ballot then some r
  else
    let r2 := startRecovery r msg.Ballot
    let newLeaderAckN := fillNewLeaderAckN r2
      { Replica := r2.Id, Ballot := r2.ballot, Cballot := r2.cballot }
    if msg.Replica ≠ r2.Id then some (r2.send (Out.sendToNewLeaderAckN msg.Replica newLeaderAckN))
    else handleNewLeaderAckN x r2 newLeaderAckN

/-- The case `newBallot := <-r.recover` of the dispatch loop.  The ballot
`chosen` of the `MNewLeader` is computed there with `smr.NextBallotOf`,
`qs.SameHigher`, `qs.AQ` and `Alive`, whose code is not part of the sources at
hand; it is a parameter, as is the majority quorum `Q`. -/
def recoverNewLeader (x : Ext) (r : Replica) (chosen : Int) (Q : QuorumI) : Option Replica :=
  let newLeader : MNewLeader := { Replica := r.Id, Ballot := chosen }
  handleNewLeader x (reinitNewLeaderAckNs (r.send (Out.sendToAllNewLeader newLeader)) Q) newLeader

/-- What `NewReplica` establishes for the fields of the recovery protocol:
status NORMAL, `cballot` equal to `ballot`, and no aggregator of acks yet. -/
def Replica.Fresh (r : Replica) : Prop :=
  r.status = NORMAL ∧ r.cballot = r.ballot ∧ r.newLeaderAckNs = {}

/-- The case `newBallot := <-r.recover` of the dispatch loop up to its call of
`handleNewLeader`: the `MNewLeader` is sent to all and the aggregator of acks
is bound to the majority quorum. -/
def announceNewLeader (r : Replica) (chosen : Int) (Q : QuorumI) : Replica :=
  reinitNewLeaderAckNs (r.send (Out.sendToAllNewLeader { Replica := r.Id, Ballot := chosen })) Q

/-- What the branch `else` of `handleNewLeader(msg)` hands to
`newLeaderAckNs`: the set after the replica's own ack is added, and the pair
for the handler when the set fires on it. -/
def ownAckAdded (r : Replica) (msg : MNewLeader) :
    MsgSet MNewLeaderAckN × Option (Option MNewLeaderAckN × List MNewLeaderAckN) :=
  let r2 := startRecovery r msg.Ballot
  let newLeaderAckN := fillNewLeaderAckN r2
    { Replica := r2.Id, Ballot := r2.ballot, Cballot := r2.cballot }
  MsgSet.AddQuorum (fun _ _ => true) r2.newLeaderAckNs newLeaderAckN.Replica false newLeaderAckN

/-- The new leader of `msg` is the replica itself and its own ack completes the
quorum of `newLeaderAckNs`. -/
def CompletesQuorum (r : Replica) (msg : MNewLeader) : Prop :=
  msg.Replica = r.Id ∧ (ownAckAdded r msg).2.isSome = true

/-- One step of the replica: a case of the dispatch loop (the store of a
propose in `r.proposes`, the hand-over of a message to a descriptor, the
delivery of a read, the recovery trigger, whole or up to its call of
`handleNewLeader`, a new leader, an ack, a sync), a turn of a worker of a
descriptor, or a message received by the loop of `handleNewLeader`. -/
inductive Step (x : Ext) : Replica → Replica → Prop where
  | store (r : Replica) (cmdId : CommandId) (p : GPropose) :
      Step x r { r with proposes := Map.put r.proposes cmdId p }
  | dispatch (r r2 : Replica) (cmdId : CommandId) (msg : Option Msg) (dep : Dep)
      (hs : Option (List SHash)) (seq : Bool) :
      getCmdDescSeq x r cmdId msg dep hs seq = some r2 → Step x r r2
  | worker (r : Replica) (cmdId : CommandId) : Step x r (handleDescStep x r cmdId)
  | handle (r : Replica) (m : Msg) (cmdId : CommandId) : Step x r (handleMsg x r m cmdId).1
  | read (r : Replica) (rDesc : readDesc) (cmdId : CommandId) :
      Step x r (deliverReadDesc r rDesc cmdId)
  | recover (r r2 : Replica) (chosen : Int) (Q : QuorumI) :
      recoverNewLeader x r chosen Q = some r2 → Step x r r2
  | announce (r : Replica) (chosen : Int) (Q : QuorumI) : Step x r (announceNewLeader r chosen Q)
  | newLeader (r r2 : Replica) (msg : MNewLeader) : handleNewLeader x r msg = some r2 → Step x r r2
  | newLeaderAckN (r r2 : Replica) (msg : MNewLeaderAckN) :
      handleNewLeaderAckN x r msg = some r2 → Step x r r2
  | sync (r : Replica) (msg : MSync) : Step x r (handleSync x r msg)

/-- States of the replica reachable from a fresh one. -/
inductive ReplicaReachable (x : Ext) : Replica → Prop where
  | init (r : Replica) : r.Fresh → ReplicaReachable x r
  | step (r r2 : Replica) : ReplicaReachable x r → Step x r r2 → ReplicaReachable x r2

/-- A cluster of one replica, fresh at ballot 0. -/
def replicaAlone : Replica := { Id := 0, N := 1 }

/-- The majority quorum of a cluster of one replica. -/
def majorityOfOne : QuorumI := { size := 1, elems := [0] }

/-- The majority quorum of a cluster of three replicas. -/
def majorityOfThree : QuorumI := { size := 2, elems := [0, 1, 2] }

/-- The ack of replica 2 for the ballot 1, with nothing to report. -/
def ackOfTwo : MNewLeaderAckN := { Replica := 2, Ballot := 1, Cballot := 0 }

namespace Curp

/-- States of the client reachable from `NewClient` through the turns of the
message loop `handleMsgs`. -/
inductive LoopReachable : Client → Prop where
  | init (clientId N : Int) (Q M : QuorumI) : LoopReachable (NewClient clientId N Q M)
  | turn (c : Client) (ev : Event) : LoopReachable c → LoopReachable (handleMsgs c ev)

/-- The record ack `m` is for the outstanding command or for a command that is
delivered. -/
def Settled (c : Client) (m : MRecordAck) : Prop :=
  m.CmdId.SeqNum = c.lastCmdId.SeqNum ∨ (Map.get c.delivered m.CmdId.SeqNum).isSome = true

/-- Invariant of the message loop: the sequence number is the wrapped count of
the delivered set; while the count has not passed 2147483648 the delivered set
holds the sequence numbers from 0 up to the count; and the leader message of
each aggregator is for the outstanding command or for a delivered one. -/
def LoopInv (c : Client) : Prop :=
  c.lastCmdId.SeqNum = wrap32 c.delivered.length ∧
  (c.delivered.length ≤ 2147483648 → ∀ k : Int,
    (Map.get c.delivered k).isSome = true ↔ (0 ≤ k ∧ k < c.delivered.length)) ∧
  (∀ lm, c.acks.leaderMsg = some lm → Settled c lm) ∧
  (∀ lm, c.macks.leaderMsg = some lm → Settled c lm)

/-- From `c` to `c2` the delivered set does not shrink, the loop is neither
stopped nor restarted, and a settled record ack stays settled. -/
def Progress (c c2 : Client) : Prop :=
  c.delivered.length ≤ c2.delivered.length ∧ c2.stopped = c.stopped ∧
    ∀ m, Settled c m → Settled c2 m

/-- The loop has not returned while at most 2147483647 values are delivered. -/
def Running (c : Client) : Prop := c.delivered.length ≤ 2147483647 → c.stopped = false

/-- The client of three replicas after `n` turns of the message loop, each on
the sync reply of replica 0 at ballot 0 for the outstanding command. -/
def loopMany : Nat → Client
  | 0 => NewClient 0 3 { size := 3, elems := [0, 1, 2] } { size := 2, elems := [0, 1, 2] }
  | n + 1 =>
    handleMsgs (loopMany n)
      (Event.syncReply { Replica := 0, Ballot := 0, CmdId := (loopMany n).lastCmdId, Rep := none })

end Curp

/-- One ack whose `Cballot` is -2 and that reports (1, 1) committed. -/
def acksBelow : List MNewLeaderAckN :=
  [ { Replica := 2, Ballot := 2, Cballot := -2, CmdIds := [c11], Phases := [COMMIT]
      Cmds := [put100], Deps := [some []] } ]

/-- One ack whose `Cballot` is -1, the starting value of `maxCbal`, and that
reports (1, 1) committed. -/
def acksMinusOne : List MNewLeaderAckN :=
  [ { Replica := 2, Ballot := 2, Cballot := -1, CmdIds := [c11], Phases := [COMMIT]
      Cmds := [put100], Deps := [some []] } ]

/-- One ack of `Cballot` 0 whose slice of phases is longer than its slice of
command ids. -/
def acksRagged : List MNewLeaderAckN :=
  [ { Replica := 2, Ballot := 2, Cballot := 0, CmdIds := [], Phases := [COMMIT]
      Cmds := [put100], Deps := [some []] } ]

/-! ## Theorems -/

/-! ### Delivery (C1, C2, C3) -/

theorem all_hasDelivered (r : Replica) (l : List CommandId)
    (h : ¬ (l.all (fun c => r.hasDelivered c) = false)) : ∀ d ∈ l, d ∈ r.delivered := by
  intro d hd
  have h1 : l.all (fun c => r.hasDelivered c) = true := by simpa using h
  have h2 := List.all_eq_true.mp h1 d hd
  simpa [Replica.hasDelivered] using h2

/-- C1: when `deliver(desc, cmdId)`, or `deliverReadDesc(rDesc, cmdId)` for a
fast read, adds `cmdId` to the Delivered set, every command id of the dep of
that descriptor was in the Delivered set before the call. -/
theorem deliver_dep_delivered_before (r : Replica) (desc : commandDesc) (rDesc : readDesc)
    (cmdId : CommandId) (hnew : cmdId ∉ r.delivered) :
    (cmdId ∈ (deliver r desc cmdId).delivered → ∀ d ∈ depList desc.dep, d ∈ r.delivered) ∧
    (cmdId ∈ (deliverReadDesc r rDesc cmdId).delivered →
      ∀ d ∈ depList rDesc.dep, d ∈ r.delivered) := by
  constructor
  · intro h
    unfold deliver at h
    split_ifs at h with h1 h2 h3 <;>
      first
      | exact absurd h hnew
      | exact all_hasDelivered r _ h3
  · intro h
    unfold deliverReadDesc at h
    split_ifs at h with h1 h2 <;>
      first
      | exact absurd h hnew
      | exact all_hasDelivered r _ h2

/-- Witness of C1: replica 1 has delivered (2, 1) and then delivers (1, 1),
whose dep is [(2, 1)], through `deliver` and through `deliverReadDesc`. -/
theorem deliver_dep_delivered_before_witness :
    c11 ∉ replicaAfterC21.delivered ∧
    c11 ∈ (deliver replicaAfterC21 descCommitted c11).delivered ∧
    c11 ∈ (deliverReadDesc replicaAfterC21 { dep := some [c21], propose := propose11 } c11).delivered ∧
    (∀ d ∈ depList descCommitted.dep, d ∈ replicaAfterC21.delivered) :=
  ⟨by decide, by decide, by decide,
    (deliver_dep_delivered_before replicaAfterC21 descCommitted
      { dep := some [c21], propose := propose11 } c11 (by decide)).1 (by decide)⟩

/-- C2: `deliver(desc, cmdId)` returns the replica state as it was (Delivered
set, executed commands and posted successors included) whenever `desc.propose`
is nil, or `cmdId` is already delivered, or `exec` is disabled. -/
theorem deliver_precondition_noop (r : Replica) (desc : commandDesc) (cmdId : CommandId)
    (h : desc.propose = none ∨ cmdId ∈ r.delivered ∨ r.Exec = false) :
    deliver r desc cmdId = r := by
  have h1 : desc.propose = none ∨ r.hasDelivered cmdId = true ∨ r.Exec = false := by
    simpa [Replica.hasDelivered] using h
  simp [deliver, h1]

/-- Witness of C2: a committed descriptor of the delivered command (1, 1) is
not delivered (nor executed) a second time. -/
theorem deliver_precondition_noop_witness :
    c11 ∈ replicaAfterC11.delivered ∧
    (deliver replicaAfterC11 { descCommitted with dep := none } c11).executed = [] ∧
    deliver replicaAfterC11 { descCommitted with dep := none } c11 = replicaAfterC11 :=
  ⟨by decide, by decide,
    deliver_precondition_noop replicaAfterC11 { descCommitted with dep := none } c11
      (Or.inr (Or.inl (by decide)))⟩

/-- C3, as stated, fails: at a leader with `optExec` that is outside `FQ`,
`handlePropose` records the propose and leaves the phase START; `deliver` on
that descriptor marks the command delivered and executes it although the phase
is neither COMMIT nor at least PRE_ACCEPT. -/
theorem deliver_gate_counterexample :
    (leaderAfterPropose.desc c11).phase = START ∧
    (leaderAfterPropose.desc c11).propose = some propose11 ∧
    c11 ∉ leaderAfterPropose.delivered ∧
    c11 ∈ (deliver leaderAfterPropose (leaderAfterPropose.desc c11) c11).delivered ∧
    (deliver leaderAfterPropose (leaderAfterPropose.desc c11) c11).executed = [put100] ∧
    ¬ ((leaderAfterPropose.desc c11).phase = COMMIT ∨
        (leaderAfterPropose.optExec = true ∧ leaderAfterPropose.Id = leaderAfterPropose.leader ∧
          PRE_ACCEPT ≤ (leaderAfterPropose.desc c11).phase)) := by
  decide

/-- C3, amended: `deliver(desc, cmdId)` marks `cmdId` delivered, or executes a
command, only if `desc.phase == COMMIT`, or `optExec` is enabled and this
replica is the leader (the phase is not consulted in that case). -/
theorem deliver_gate (r : Replica) (desc : commandDesc) (cmdId : CommandId)
    (hnew : cmdId ∉ r.delivered)
    (h : cmdId ∈ (deliver r desc cmdId).delivered ∨ (deliver r desc cmdId).executed ≠ r.executed) :
    desc.phase = COMMIT ∨ (r.optExec = true ∧ r.Id = r.leader) := by
  by_cases hg : desc.phase ≠ COMMIT ∧ (r.optExec = false ∨ r.Id ≠ r.leader)
  · have hr : deliver r desc cmdId = r := by
      unfold deliver
      split_ifs <;> rfl
    rw [hr] at h
    rcases h with h | h
    · exact absurd h hnew
    · exact absurd rfl h
  · by_cases hp : desc.phase = COMMIT
    · exact Or.inl hp
    · right
      have h2 : ¬ (r.optExec = false ∨ r.Id ≠ r.leader) := fun h3 => hg ⟨hp, h3⟩
      constructor
      · cases ho : r.optExec
        · exact absurd (Or.inl ho) h2
        · rfl
      · by_contra hne
        exact h2 (Or.inr hne)

/-- Witness of C3 (amended): the committed descriptor of (1, 1) is delivered at
replica 1, which has delivered its dep. -/
theorem deliver_gate_witness :
    c11 ∈ (deliver replicaAfterC21 descCommitted c11).delivered ∧
    (descCommitted.phase = COMMIT ∨
      (replicaAfterC21.optExec = true ∧ replicaAfterC21.Id = replicaAfterC21.leader)) :=
  ⟨by decide, deliver_gate replicaAfterC21 descCommitted c11 (by decide) (Or.inl (by decide))⟩

/-! ### Recovery (C9, C10) -/

/-- C9: `handleSync(msg)` returns the replica state as it was (status, ballot,
cballot, descriptor map, key index, FQ, historySize and the message log
included) whenever the ballot of the replica is greater than `msg.Ballot`, or
equals `msg.Ballot` while the status is NORMAL. -/
theorem handleSync_stale_noop (x : Ext) (r : Replica) (msg : MSync)
    (h : msg.Ballot < r.ballot ∨ (r.ballot = msg.Ballot ∧ r.status = NORMAL)) :
    handleSync x r msg = r := by
  simp [handleSync, h]

/-- Witness of C9: a sync of ballot 0 at a NORMAL replica of ballot 0. -/
theorem handleSync_stale_noop_witness :
    (replicaAfterC21.ballot = syncBallot0.Ballot ∧ replicaAfterC21.status = NORMAL) ∧
    handleSync extSingle replicaAfterC21 syncBallot0 = replicaAfterC21 :=
  ⟨by decide, handleSync_stale_noop extSingle replicaAfterC21 syncBallot0 (Or.inr (by decide))⟩

theorem Map.get_put {κ α : Type} [DecidableEq κ] (m : List (κ × α)) (k : κ) (v : α) (k2 : κ) :
    Map.get (Map.put m k v) k2 = if k = k2 then some v else Map.get m k2 := by
  induction m with
  | nil => simp [Map.put, Map.get]
  | cons p t ih =>
    obtain ⟨k1, v1⟩ := p
    by_cases h1 : k1 = k
    · subst h1
      by_cases h2 : k1 = k2 <;> simp [Map.put, Map.get, h2]
    · by_cases h2 : k1 = k2
      · subst h2
        have h3 : ¬ k = k1 := fun h => h1 h.symm
        simp [Map.put, Map.get, h1, h3]
      · simp [Map.put, Map.get, h1, h2, ih]

theorem Map.keys_put {κ α : Type} [DecidableEq κ] (m : List (κ × α)) (k : κ) (v : α) :
    Map.keys (Map.put m k v) = if k ∈ Map.keys m then Map.keys m else Map.keys m ++ [k] := by
  induction m with
  | nil => simp [Map.put, Map.keys]
  | cons p t ih =>
    obtain ⟨k1, v1⟩ := p
    by_cases h1 : k1 = k
    · subst h1
      simp [Map.put, Map.keys]
    · have h3 : ¬ k = k1 := fun h => h1 h.symm
      simp only [Map.keys] at ih
      by_cases h4 : k ∈ List.map Prod.fst t
      · simp [Map.put, Map.keys, h1, h3, h4, ih]
      · simp [Map.put, Map.keys, h1, h3, h4, ih]

theorem Map.mem_keys_iff {κ α : Type} [DecidableEq κ] (m : List (κ × α)) (k : κ) :
    k ∈ Map.keys m ↔ ∃ v, Map.get m k = some v := by
  induction m with
  | nil => simp [Map.keys, Map.get]
  | cons p t ih =>
    obtain ⟨k1, v1⟩ := p
    simp only [Map.keys] at ih
    by_cases h1 : k1 = k
    · subst h1
      simp [Map.keys, Map.get]
    · have h3 : ¬ k = k1 := fun h => h1 h.symm
      simp [Map.keys, Map.get, h1, h3, ih]

theorem Map.keys_put_congr {κ α β : Type} [DecidableEq κ] (m : List (κ × α)) (n : List (κ × β))
    (k : κ) (v : α) (w : β) (h : Map.keys m = Map.keys n) :
    Map.keys (Map.put m k v) = Map.keys (Map.put n k w) := by
  rw [Map.keys_put, Map.keys_put, h]

theorem SyncInv.congr (S T : CommandId → Int → Command → Dep → Prop) (m : SyncMaps)
    (hST : ∀ c ph cmd dep, S c ph cmd dep ↔ T c ph cmd dep) (h : SyncInv S m) : SyncInv T m := by
  obtain ⟨h1, h2, h3, h4⟩ := h
  refine ⟨h1, h2, ?_, ?_⟩
  · intro c hc
    obtain ⟨ph, cmd, dep, a, b, d, e⟩ := h3 c hc
    exact ⟨ph, cmd, dep, a, b, d, (hST _ _ _ _).mp e⟩
  · intro c ph cmd dep hT
    exact h4 c ph cmd dep ((hST _ _ _ _).mpr hT)

theorem SyncInv.put (S : CommandId → Int → Command → Dep → Prop) (m : SyncMaps)
    (c : CommandId) (ph : Int) (cmd : Command) (dep : Dep) (h : SyncInv S m) :
    SyncInv (fun c2 ph2 cmd2 dep2 =>
        S c2 ph2 cmd2 dep2 ∨ (c2 = c ∧ ph2 = ph ∧ cmd2 = cmd ∧ dep2 = dep))
      { phases := Map.put m.phases c ph, cmds := Map.put m.cmds c cmd,
        deps := Map.put m.deps c dep } := by
  obtain ⟨h1, h2, h3, h4⟩ := h
  have hk : ∀ c2, c2 ∈ Map.keys (Map.put m.phases c ph) ↔ (c2 = c ∨ c2 ∈ Map.keys m.phases) := by
    intro c2
    rw [Map.keys_put]
    by_cases hc : c ∈ Map.keys m.phases
    · simp only [hc, if_true]
      constructor
      · exact Or.inr
      · rintro (rfl | h5)
        · exact hc
        · exact h5
    · simp only [hc, if_false, List.mem_append, List.mem_singleton]
      tauto
  refine ⟨Map.keys_put_congr _ _ _ _ _ h1, Map.keys_put_congr _ _ _ _ _ h2, ?_, ?_⟩
  · intro c2 hc2
    by_cases hcc : c = c2
    · subst hcc
      exact ⟨ph, cmd, dep, by simp [Map.get_put], by simp [Map.get_put], by simp [Map.get_put],
        Or.inr ⟨rfl, rfl, rfl, rfl⟩⟩
    · have hc3 : c2 ∈ Map.keys m.phases := by
        rcases (hk c2).mp hc2 with h5 | h5
        · exact absurd h5.symm hcc
        · exact h5
      obtain ⟨ph2, cmd2, dep2, a, b, d, e⟩ := h3 c2 hc3
      exact ⟨ph2, cmd2, dep2, by simp [Map.get_put, hcc, a], by simp [Map.get_put, hcc, b],
        by simp [Map.get_put, hcc, d], Or.inl e⟩
  · intro c2 ph2 cmd2 dep2 hS
    rw [hk]
    rcases hS with hS | ⟨rfl, _⟩
    · exact Or.inr (h4 _ _ _ _ hS)
    · exact Or.inl rfl

theorem syncEntry_fold (a : MNewLeaderAckN) (hwf : a.WellFormed) (l : List (Nat × Int))
    (hl : ∀ ip ∈ l, a.Phases[ip.1]? = some ip.2) :
    ∀ (S : CommandId → Int → Command → Dep → Prop) (m : SyncMaps), SyncInv S m →
      ∃ m2, l.foldl (syncEntry a) (some m) = some m2 ∧
        SyncInv (fun c ph cmd dep =>
          S c ph cmd dep ∨ ∃ ip ∈ l, ip.2 = ph ∧ ReportedAt a ip.1 c ph cmd dep) m2 := by
  induction l with
  | nil =>
    intro S m h
    exact ⟨m, rfl, SyncInv.congr _ _ _ (by simp) h⟩
  | cons ip t ih =>
    intro S m h
    have hip := hl ip (List.mem_cons_self _ _)
    have ht : ∀ ip2 ∈ t, a.Phases[ip2.1]? = some ip2.2 :=
      fun ip2 h2 => hl ip2 (List.mem_cons_of_mem _ h2)
    obtain ⟨w1, w2, w3⟩ := hwf
    have hlt : ip.1 < a.Phases.length := by
      by_contra hge
      rw [List.getElem?_eq_none (by omega)] at hip
      exact Option.noConfusion hip
    have e1 : a.CmdIds[ip.1]? = some (a.CmdIds[ip.1]) := List.getElem?_eq_getElem (by omega)
    have e2 : a.Cmds[ip.1]? = some (a.Cmds[ip.1]) := List.getElem?_eq_getElem (by omega)
    have e3 : a.Deps[ip.1]? = some (a.Deps[ip.1]) := List.getElem?_eq_getElem (by omega)
    by_cases hq : ip.2 = COMMIT ∨ ip.2 = ACCEPT
    · have hstep : syncEntry a (some m) ip =
          some { phases := Map.put m.phases (a.CmdIds[ip.1]) ip.2
                 cmds := Map.put m.cmds (a.CmdIds[ip.1]) (a.Cmds[ip.1])
                 deps := Map.put m.deps (a.CmdIds[ip.1]) (a.Deps[ip.1]) } := by
        simp only [syncEntry, hq, if_true, e1, e2, e3]
      obtain ⟨m2, hm2, hinv⟩ := ih ht _ _
        (SyncInv.put S m (a.CmdIds[ip.1]) ip.2 (a.Cmds[ip.1]) (a.Deps[ip.1]) h)
      refine ⟨m2, by rw [List.foldl_cons, hstep]; exact hm2, SyncInv.congr _ _ _ ?_ hinv⟩
      intro c ph cmd dep
      constructor
      · rintro ((hS | ⟨rfl, rfl, rfl, rfl⟩) | ⟨ip2, hmem, h5⟩)
        · exact Or.inl hS
        · exact Or.inr ⟨ip, List.mem_cons_self _ _, rfl, e1, hip, e2, e3, hq⟩
        · exact Or.inr ⟨ip2, List.mem_cons_of_mem _ hmem, h5⟩
      · rintro (hS | ⟨ip2, hmem, h5, h6⟩)
        · exact Or.inl (Or.inl hS)
        · rcases List.mem_cons.mp hmem with rfl | hmem2
          · obtain ⟨r1, _, r3, r4, _⟩ := h6
            rw [e1] at r1
            rw [e2] at r3
            rw [e3] at r4
            exact Or.inl (Or.inr ⟨(Option.some.inj r1).symm, h5.symm, (Option.some.inj r3).symm,
              (Option.some.inj r4).symm⟩)
          · exact Or.inr ⟨ip2, hmem2, h5, h6⟩
    · have hstep : syncEntry a (some m) ip = some m := by
        simp only [syncEntry, hq, if_false]
      obtain ⟨m2, hm2, hinv⟩ := ih ht _ _ h
      refine ⟨m2, by rw [List.foldl_cons, hstep]; exact hm2, SyncInv.congr _ _ _ ?_ hinv⟩
      intro c ph cmd dep
      constructor
      · rintro (hS | ⟨ip2, hmem, h5⟩)
        · exact Or.inl hS
        · exact Or.inr ⟨ip2, List.mem_cons_of_mem _ hmem, h5⟩
      · rintro (hS | ⟨ip2, hmem, h5, h6⟩)
        · exact Or.inl hS
        · rcases List.mem_cons.mp hmem with rfl | hmem2
          · exact absurd (h5 ▸ h6.2.2.2.2) hq
          · exact Or.inr ⟨ip2, hmem2, h5, h6⟩

theorem syncMapsOf_fold (us : List MNewLeaderAckN) (hwf : ∀ a ∈ us, a.WellFormed) :
    ∀ (S : CommandId → Int → Command → Dep → Prop) (m : SyncMaps), SyncInv S m →
      ∃ m2, us.foldl (fun acc a => a.Phases.enum.foldl (syncEntry a) acc) (some m) = some m2 ∧
        SyncInv (fun c ph cmd dep => S c ph cmd dep ∨ Reported us c ph cmd dep) m2 := by
  induction us with
  | nil =>
    intro S m h
    exact ⟨m, rfl, SyncInv.congr _ _ _ (by simp [Reported]) h⟩
  | cons a t ih =>
    intro S m h
    obtain ⟨m1, hm1, hinv1⟩ := syncEntry_fold a (hwf a (List.mem_cons_self _ _)) a.Phases.enum
      (fun ip hmem => List.mem_enum_iff_getElem?.mp hmem) S m h
    obtain ⟨m2, hm2, hinv2⟩ := ih (fun b hb => hwf b (List.mem_cons_of_mem _ hb)) _ m1 hinv1
    refine ⟨m2, by rw [List.foldl_cons, hm1]; exact hm2, SyncInv.congr _ _ _ ?_ hinv2⟩
    intro c ph cmd dep
    constructor
    · rintro ((hS | ⟨ip, _, _, h6⟩) | ⟨b, hb, i, h7⟩)
      · exact Or.inl hS
      · exact Or.inr ⟨a, List.mem_cons_self _ _, ip.1, h6⟩
      · exact Or.inr ⟨b, List.mem_cons_of_mem _ hb, i, h7⟩
    · rintro (hS | ⟨b, hb, i, h7⟩)
      · exact Or.inl (Or.inl hS)
      · rcases List.mem_cons.mp hb with rfl | hb2
        · exact Or.inl (Or.inr ⟨(i, ph), List.mem_enum_iff_getElem?.mpr h7.2.1, rfl, h7⟩)
        · exact Or.inr ⟨b, hb2, i, h7⟩

theorem selectUStep_inv (done : List MNewLeaderAckN)
    (st : Option (Int × Option (List MNewLeaderAckN))) (a : MNewLeaderAckN)
    (ha : 0 ≤ a.Cballot) (h : SelInv done st) : SelInv (done ++ [a]) (selectUStep st a) := by
  match st, h with
  | some (mc, none), h =>
    obtain ⟨h1, h2⟩ := h
    subst h1 h2
    have hlt : (-1 : Int) < a.Cballot := by omega
    simp [selectUStep, hlt, SelInv]
  | some (mc, some u), h =>
    obtain ⟨h1, ⟨b0, hb0, hb0c⟩, h3⟩ := h
    by_cases hlt : mc < a.Cballot
    · simp only [selectUStep, hlt, if_true, List.nil_append, SelInv]
      refine ⟨?_, ⟨a, by simp, rfl⟩, ?_⟩
      · intro b hb
        rcases List.mem_append.mp hb with hb | hb
        · have := h1 b hb
          omega
        · rw [List.mem_singleton.mp hb]
      · intro y
        constructor
        · intro hy
          rw [List.mem_singleton.mp hy]
          exact ⟨by simp, rfl⟩
        · rintro ⟨hy, hyc⟩
          rcases List.mem_append.mp hy with hy | hy
          · have := h1 y hy
            omega
          · exact hy
    · by_cases heq : mc = a.Cballot
      · subst heq
        simp only [selectUStep, lt_irrefl, if_false, if_true, SelInv]
        refine ⟨?_, ⟨a, by simp, rfl⟩, ?_⟩
        · intro b hb
          rcases List.mem_append.mp hb with hb | hb
          · exact h1 b hb
          · rw [List.mem_singleton.mp hb]
        · intro y
          rw [List.mem_append, List.mem_append, h3 y, List.mem_singleton]
          constructor
          · rintro (⟨hy, hyc⟩ | rfl)
            · exact ⟨Or.inl hy, hyc⟩
            · exact ⟨Or.inr rfl, rfl⟩
          · rintro ⟨hy | hy, hyc⟩
            · exact Or.inl ⟨hy, hyc⟩
            · exact Or.inr hy
      · simp only [selectUStep, hlt, if_false, heq, SelInv]
        refine ⟨?_, ⟨b0, List.mem_append_left _ hb0, hb0c⟩, ?_⟩
        · intro b hb
          rcases List.mem_append.mp hb with hb | hb
          · exact h1 b hb
          · rw [List.mem_singleton.mp hb]
            omega
        · intro y
          rw [List.mem_append, h3 y, List.mem_singleton]
          constructor
          · rintro ⟨hy, hyc⟩
            exact ⟨Or.inl hy, hyc⟩
          · rintro ⟨hy | hy, hyc⟩
            · exact ⟨hy, hyc⟩
            · subst hy
              exact absurd hyc.symm heq

theorem selectU_fold (rest : List MNewLeaderAckN) (hcb : ∀ a ∈ rest, 0 ≤ a.Cballot) :
    ∀ (done : List MNewLeaderAckN) (st : Option (Int × Option (List MNewLeaderAckN))),
      SelInv done st → SelInv (done ++ rest) (rest.foldl selectUStep st) := by
  induction rest with
  | nil =>
    intro done st h
    simpa using h
  | cons a t ih =>
    intro done st h
    have h1 := selectUStep_inv done st a (hcb a (List.mem_cons_self _ _)) h
    have h2 := ih (fun b hb => hcb b (List.mem_cons_of_mem _ hb)) (done ++ [a]) _ h1
    simpa using h2

theorem selectU_spec (msgs : List MNewLeaderAckN) (hne : msgs ≠ [])
    (hcb : ∀ a ∈ msgs, 0 ≤ a.Cballot) :
    ∃ mc u, selectU msgs = some (mc, some u) ∧ ∀ a, a ∈ u ↔ HasMaxCballot msgs a := by
  have h := selectU_fold msgs hcb [] (some (-1, none)) ⟨rfl, rfl⟩
  rw [List.nil_append] at h
  unfold selectU
  match hst : msgs.foldl selectUStep (some (-1, none)), h with
  | some (mc, none), h =>
    exact absurd h.2 hne
  | some (mc, some u), h =>
    obtain ⟨h1, ⟨b0, hb0, hb0c⟩, h3⟩ := h
    refine ⟨mc, u, rfl, ?_⟩
    intro a
    rw [h3 a]
    constructor
    · rintro ⟨ha, hac⟩
      exact ⟨ha, fun b hb => by rw [hac]; exact h1 b hb⟩
    · rintro ⟨ha, hmax⟩
      refine ⟨ha, ?_⟩
      have h5 := hmax b0 hb0
      have h6 := h1 a ha
      omega

/-- C10, as stated, fails on acks that replicas do not build.  The single ack of
`acksBelow` has the maximal `Cballot` of its list, -2, and reports (1, 1) with
phase COMMIT; `maxCbal` starts at -1, so `U` stays `nil` and the Sync is
emitted without any key.  On `acksMinusOne` the store into the `nil` map
panics, and on `acksRagged` an index is out of range: no Sync is emitted. -/
theorem sync_empty_below_minus_one :
    acksBelow ≠ [] ∧
    (∃ a, HasMaxCballot acksBelow a ∧ ∃ i : Nat, a.CmdIds[i]? = some c11 ∧
      (a.Phases[i]? = some ACCEPT ∨ a.Phases[i]? = some COMMIT)) ∧
    (buildSync replicaAfterC21 acksBelow).map (fun sync => Map.keys sync.Phases) = some [] ∧
    (handleNewLeaderAckNs extSingle replicaAfterC21 acksBelow).isSome = true ∧
    ¬ (∃ sync, buildSync replicaAfterC21 acksBelow = some sync ∧
      ∀ c, c ∈ Map.keys sync.Phases ↔
        ∃ a, HasMaxCballot acksBelow a ∧ ∃ i : Nat, a.CmdIds[i]? = some c ∧
          (a.Phases[i]? = some ACCEPT ∨ a.Phases[i]? = some COMMIT)) ∧
    acksMinusOne ≠ [] ∧ handleNewLeaderAckNs extSingle replicaAfterC21 acksMinusOne = none ∧
    acksRagged ≠ [] ∧ handleNewLeaderAckNs extSingle replicaAfterC21 acksRagged = none := by
  have hmax : ∃ a, HasMaxCballot acksBelow a ∧ ∃ i : Nat, a.CmdIds[i]? = some c11 ∧
      (a.Phases[i]? = some ACCEPT ∨ a.Phases[i]? = some COMMIT) := by
    refine ⟨_, ⟨List.mem_singleton_self _, ?_⟩, 0, rfl, Or.inr rfl⟩
    intro b hb
    rw [acksBelow, List.mem_singleton] at hb
    rw [hb]
  have hb : buildSync replicaAfterC21 acksBelow =
      some { Replica := 1, Ballot := 0, Phases := [], Cmds := [], Deps := [] } := by decide
  refine ⟨by decide, hmax, by rw [hb]; rfl, ?_, ?_, by decide, ?_, by decide, ?_⟩
  · simp only [handleNewLeaderAckNs, hb, Option.isSome_some]
  · rintro ⟨sync, hs, hiff⟩
    rw [hb] at hs
    have hs2 := Option.some.inj hs
    have hk := (hiff c11).mpr hmax
    rw [← hs2] at hk
    simp [Map.keys] at hk
  · have h : buildSync replicaAfterC21 acksMinusOne = none := by decide
    simp only [handleNewLeaderAckNs, h]
  · have h : buildSync replicaAfterC21 acksRagged = none := by decide
    simp only [handleNewLeaderAckNs, h]

/-- C10: on a non-empty list of acks (each with its four slices of one length
and a `Cballot` that is not negative), `handleNewLeaderAckNs` emits a Sync whose
`Phases`, `Cmds` and `Deps` have the same keys; a command id is a key exactly
when an ack whose `Cballot` is the maximum among the acks reports it with phase
ACCEPT or COMMIT; and the phase, command and dep stored for a key are those
that such an ack reports at one index. -/
theorem handleNewLeaderAckNs_sync (x : Ext) (r : Replica) (msgs : List MNewLeaderAckN)
    (hne : msgs ≠ []) (hcb : ∀ a ∈ msgs, 0 ≤ a.Cballot) (hwf : ∀ a ∈ msgs, a.WellFormed) :
    ∃ sync, buildSync r msgs = some sync ∧
      handleNewLeaderAckNs x r msgs =
        some (handleSync x (r.send (Out.sendToAllSync sync)) sync) ∧
      Map.keys sync.Phases = Map.keys sync.Cmds ∧ Map.keys sync.Cmds = Map.keys sync.Deps ∧
      (∀ c, c ∈ Map.keys sync.Phases ↔
        ∃ a, HasMaxCballot msgs a ∧ ∃ i : Nat, a.CmdIds[i]? = some c ∧
          (a.Phases[i]? = some ACCEPT ∨ a.Phases[i]? = some COMMIT)) ∧
      (∀ c, c ∈ Map.keys sync.Phases → ∃ ph cmd dep,
        Map.get sync.Phases c = some ph ∧ Map.get sync.Cmds c = some cmd ∧
        Map.get sync.Deps c = some dep ∧
        ∃ a, HasMaxCballot msgs a ∧ ∃ i, ReportedAt a i c ph cmd dep) := by
  obtain ⟨mc, u, hsel, hu⟩ := selectU_spec msgs hne hcb
  have hwfu : ∀ a ∈ u, a.WellFormed := fun a ha => hwf a ((hu a).mp ha).1
  have hinit : SyncInv (fun _ _ _ _ => False) ({} : SyncMaps) :=
    ⟨rfl, rfl, by intro c hc; simp [Map.keys] at hc, by intro c ph cmd dep h; exact h.elim⟩
  obtain ⟨m, hm, hk1, hk2, hval, hkey⟩ := syncMapsOf_fold u hwfu _ _ hinit
  have hb : buildSync r msgs = some
      { Replica := r.Id, Ballot := r.ballot, Phases := m.phases, Cmds := m.cmds, Deps := m.deps } := by
    simp only [buildSync, hsel, Option.getD_some, syncMapsOf, hm]
  refine ⟨_, hb, by simp only [handleNewLeaderAckNs, hb], hk1, hk2, ?_, ?_⟩
  · intro c
    constructor
    · intro hc
      obtain ⟨ph, cmd, dep, _, _, _, hS⟩ := hval c hc
      rcases hS with hS | ⟨a, ha, i, hr⟩
      · exact hS.elim
      · refine ⟨a, (hu a).mp ha, i, hr.1, ?_⟩
        rcases hr.2.2.2.2 with h5 | h5
        · exact Or.inr (h5 ▸ hr.2.1)
        · exact Or.inl (h5 ▸ hr.2.1)
    · rintro ⟨a, ha, i, hc, hp⟩
      obtain ⟨w1, w2, w3⟩ := hwf a ha.1
      have hlt : i < a.CmdIds.length := by
        by_contra hge
        rw [List.getElem?_eq_none (by omega)] at hc
        exact Option.noConfusion hc
      have e2 : a.Cmds[i]? = some (a.Cmds[i]) := List.getElem?_eq_getElem (by omega)
      have e3 : a.Deps[i]? = some (a.Deps[i]) := List.getElem?_eq_getElem (by omega)
      rcases hp with hp | hp
      · exact hkey c ACCEPT _ _ (Or.inr ⟨a, (hu a).mpr ha, i, hc, hp, e2, e3, Or.inr rfl⟩)
      · exact hkey c COMMIT _ _ (Or.inr ⟨a, (hu a).mpr ha, i, hc, hp, e2, e3, Or.inl rfl⟩)
  · intro c hc
    obtain ⟨ph, cmd, dep, g1, g2, g3, hS⟩ := hval c hc
    rcases hS with hS | ⟨a, ha, i, hr⟩
    · exact hS.elim
    · exact ⟨ph, cmd, dep, g1, g2, g3, a, (hu a).mp ha, i, hr⟩

theorem acksExample_wellFormed : ∀ a ∈ acksExample, a.WellFormed := by
  intro a ha
  simp only [acksExample, List.mem_cons, List.mem_singleton, List.not_mem_nil, or_false] at ha
  rcases ha with rfl | rfl <;> exact ⟨rfl, rfl, rfl⟩

/-- Witness of C10: of the two acks of `acksExample` the one with the maximal
`Cballot` reports (1, 1) at ACCEPT, and the emitted Sync holds (1, 1) alone. -/
theorem handleNewLeaderAckNs_sync_witness :
    (buildSync replicaAfterC21 acksExample).map (fun sync => sync.Phases) =
      some [(c11, ACCEPT)] ∧
    ∃ sync, buildSync replicaAfterC21 acksExample = some sync ∧
      handleNewLeaderAckNs extSingle replicaAfterC21 acksExample =
        some (handleSync extSingle (replicaAfterC21.send (Out.sendToAllSync sync)) sync) ∧
      Map.keys sync.Phases = Map.keys sync.Cmds ∧ Map.keys sync.Cmds = Map.keys sync.Deps ∧
      (∀ c, c ∈ Map.keys sync.Phases ↔
        ∃ a, HasMaxCballot acksExample a ∧ ∃ i : Nat, a.CmdIds[i]? = some c ∧
          (a.Phases[i]? = some ACCEPT ∨ a.Phases[i]? = some COMMIT)) ∧
      (∀ c, c ∈ Map.keys sync.Phases → ∃ ph cmd dep,
        Map.get sync.Phases c = some ph ∧ Map.get sync.Cmds c = some cmd ∧
        Map.get sync.Deps c = some dep ∧
        ∃ a, HasMaxCballot acksExample a ∧ ∃ i, ReportedAt a i c ph cmd dep) :=
  ⟨by decide,
    handleNewLeaderAckNs_sync extSingle replicaAfterC21 acksExample (by decide) (by decide)
      acksExample_wellFormed⟩

/-! ### Frame lemmas for the handlers -/

theorem desc_of_get (r : Replica) (id : CommandId) (d : commandDesc)
    (h : Map.get r.cmdDescs id = some d) : r.desc id = d := by
  simp [Replica.desc, h]

theorem get_setDesc_same (r : Replica) (id : CommandId) (d : commandDesc) :
    Map.get (r.setDesc id d).cmdDescs id = some d := by
  simp [Replica.setDesc, Map.get_put]

theorem desc_setDesc_same (r : Replica) (id : CommandId) (d : commandDesc) :
    (r.setDesc id d).desc id = d :=
  desc_of_get _ _ _ (get_setDesc_same r id d)

theorem env_setDesc (r : Replica) (id : CommandId) (d : commandDesc) :
    (r.setDesc id d).env = r.env := rfl

theorem delivered_setDesc (r : Replica) (id : CommandId) (d : commandDesc) :
    (r.setDesc id d).delivered = r.delivered := rfl

theorem env_deliver (r : Replica) (d : commandDesc) (c : CommandId) :
    (deliver r d c).env = r.env := by
  unfold deliver
  dsimp only
  split_ifs <;> rfl

theorem cmdDescs_deliver (r : Replica) (d : commandDesc) (c : CommandId) :
    (deliver r d c).cmdDescs = r.cmdDescs := by
  unfold deliver
  dsimp only
  split_ifs <;> rfl

theorem DescsRel.refl {R : CommandId → commandDesc → commandDesc → Prop} (hR : HandlerClosed R)
    (r : Replica) : DescsRel R r r :=
  fun id d h => ⟨d, h, hR.refl id d⟩

theorem DescsRel.trans {R : CommandId → commandDesc → commandDesc → Prop} (hR : HandlerClosed R)
    {r r2 r3 : Replica} (h1 : DescsRel R r r2) (h2 : DescsRel R r2 r3) : DescsRel R r r3 := by
  intro id d h
  obtain ⟨d2, g2, q2⟩ := h1 id d h
  obtain ⟨d3, g3, q3⟩ := h2 id d2 g2
  exact ⟨d3, g3, hR.trans id d d2 d3 q2 q3⟩

theorem DescsRel.of_eq {R : CommandId → commandDesc → commandDesc → Prop} (hR : HandlerClosed R)
    {r r2 : Replica} (h : r2.cmdDescs = r.cmdDescs) : DescsRel R r r2 := by
  intro id d hg
  exact ⟨d, by rw [h]; exact hg, hR.refl id d⟩

theorem DescsRel.setDesc {R : CommandId → commandDesc → commandDesc → Prop} (hR : HandlerClosed R)
    (r : Replica) (id : CommandId) (d2 : commandDesc)
    (h : ∀ d, Map.get r.cmdDescs id = some d → R id d d2) : DescsRel R r (r.setDesc id d2) := by
  intro id2 d hg
  by_cases hid : id = id2
  · subst hid
    exact ⟨d2, get_setDesc_same r id d2, h d hg⟩
  · exact ⟨d, by simp [Replica.setDesc, Map.get_put, hid, hg], hR.refl id2 d⟩

theorem upsert_none_eq (r : Replica) (id : CommandId) (hs : Option (List SHash)) (seq : Bool) :
    upsertCmdDesc r id none hs seq =
      if r.hasDelivered id = true then none
      else
        match Map.get r.cmdDescs id with
        | some d => some (r.setDesc id d)
        | none =>
          some ((if (seq || r.newDesc.seq) = false then
              { r with routineCount := r.routineCount + 1 } else r).setDesc id
            { r.newDesc with seq := seq || r.newDesc.seq }) := by
  unfold upsertCmdDesc
  by_cases hd : r.hasDelivered id = true
  · rw [if_pos hd, if_pos hd]
  · rw [if_neg hd, if_neg hd]
    cases hg : Map.get r.cmdDescs id <;>
      simp only [ne_eq, not_true_eq_false, false_and, if_false]

theorem upsert_spec {R : CommandId → commandDesc → commandDesc → Prop} (hR : HandlerClosed R)
    (r r1 : Replica) (id : CommandId) (hs : Option (List SHash)) (seq : Bool)
    (h : upsertCmdDesc r id none hs seq = some r1) :
    DescsRel R r r1 ∧ r1.env = r.env ∧ r1.delivered = r.delivered ∧
      ∃ d, Map.get r1.cmdDescs id = some d := by
  rw [upsert_none_eq] at h
  by_cases hd : r.hasDelivered id = true
  · rw [if_pos hd] at h
    cases h
  · rw [if_neg hd] at h
    cases hg : Map.get r.cmdDescs id with
    | some d =>
      simp only [hg, Option.some.injEq] at h
      subst h
      exact ⟨DescsRel.setDesc hR r id d (fun d0 h0 => by
        rw [hg] at h0; cases h0; exact hR.refl id d), rfl, rfl, d, get_setDesc_same r id d⟩
    | none =>
      simp only [hg, Option.some.injEq] at h
      subst h
      refine ⟨?_, ?_, ?_, _, get_setDesc_same _ id _⟩
      · intro id2 d hg2
        have hid : ¬ id = id2 := by
          intro he
          subst he
          rw [hg] at hg2
          cases hg2
        refine ⟨d, ?_, hR.refl id2 d⟩
        simp only [Replica.setDesc, Map.get_put, hid, if_false]
        by_cases hseq : (seq || r.newDesc.seq) = false
        · simp only [hseq, if_true]
          exact hg2
        · simp only [hseq, if_false]
          exact hg2
      · by_cases hseq : (seq || r.newDesc.seq) = false
        · simp only [hseq, if_true]
          rfl
        · simp only [hseq, if_false]
          rfl
      · by_cases hseq : (seq || r.newDesc.seq) = false
        · simp only [hseq, if_true]
          rfl
        · simp only [hseq, if_false]
          rfl

theorem addSuccessor_spec {R : CommandId → commandDesc → commandDesc → Prop} (hR : HandlerClosed R)
    (r : Replica) (depCmdId suc : CommandId) :
    DescsRel R r (addSuccessor r depCmdId suc) ∧ (addSuccessor r depCmdId suc).env = r.env ∧
      (addSuccessor r depCmdId suc).delivered = r.delivered := by
  unfold addSuccessor
  cases hu : upsertCmdDesc r depCmdId none none false with
  | none => exact ⟨DescsRel.refl hR r, rfl, rfl⟩
  | some r1 =>
    obtain ⟨h1, h2, h3, d, hd⟩ := upsert_spec hR r r1 depCmdId none false hu
    refine ⟨DescsRel.trans hR h1 (DescsRel.setDesc hR r1 depCmdId _ ?_), ?_, ?_⟩
    · intro d0 h0
      rw [desc_of_get r1 depCmdId d0 h0]
      exact hR.succ depCmdId d0 _
    · simpa [env_setDesc] using h2
    · simpa [delivered_setDesc] using h3

theorem foldl_addSuccessor_spec {R : CommandId → commandDesc → commandDesc → Prop}
    (hR : HandlerClosed R) (suc : CommandId) (l : List CommandId) :
    ∀ r : Replica,
      DescsRel R r (l.foldl (fun acc depCmdId => addSuccessor acc depCmdId suc) r) ∧
      (l.foldl (fun acc depCmdId => addSuccessor acc depCmdId suc) r).env = r.env ∧
      (l.foldl (fun acc depCmdId => addSuccessor acc depCmdId suc) r).delivered = r.delivered := by
  induction l with
  | nil => intro r; exact ⟨DescsRel.refl hR r, rfl, rfl⟩
  | cons a t ih =>
    intro r
    obtain ⟨h1, h2, h3⟩ := addSuccessor_spec hR r a suc
    obtain ⟨g1, g2, g3⟩ := ih (addSuccessor r a suc)
    exact ⟨DescsRel.trans hR h1 g1, by simpa [List.foldl_cons] using g2.trans h2,
      by simpa [List.foldl_cons] using g3.trans h3⟩

theorem handler_spec {R : CommandId → commandDesc → commandDesc → Prop} (hR : HandlerClosed R)
    (r : Replica) (cmdId : CommandId) (leaderMsg : Option MFastAck) :
    DescsRel R r (getFastAndSlowAcksHandler r cmdId leaderMsg) ∧
      (getFastAndSlowAcksHandler r cmdId leaderMsg).env = r.env := by
  unfold getFastAndSlowAcksHandler
  cases leaderMsg with
  | none => exact ⟨DescsRel.refl hR r, rfl⟩
  | some l =>
    simp only
    have h1 : DescsRel R r (r.setDesc cmdId { r.desc cmdId with phase := COMMIT }) :=
      DescsRel.setDesc hR r cmdId _ (fun d0 h0 => by
        rw [desc_of_get r cmdId d0 h0]; exact hR.commit cmdId d0)
    obtain ⟨g1, g2, _⟩ := foldl_addSuccessor_spec hR l.CmdId
      (depList ((r.setDesc cmdId { r.desc cmdId with phase := COMMIT }).desc cmdId).dep)
      (r.setDesc cmdId { r.desc cmdId with phase := COMMIT })
    refine ⟨DescsRel.trans hR (DescsRel.trans hR h1 g1)
      (DescsRel.of_eq hR (cmdDescs_deliver _ _ _)), ?_⟩
    rw [env_deliver, g2, env_setDesc]

theorem DescsRel.desc {R : CommandId → commandDesc → commandDesc → Prop} {r r2 : Replica}
    (h : DescsRel R r r2) (id : CommandId) (d : commandDesc)
    (hg : Map.get r.cmdDescs id = some d) : R id d (r2.desc id) := by
  obtain ⟨d2, g2, q2⟩ := h id d hg
  rw [desc_of_get r2 id d2 g2]
  exact q2

theorem leader_of_env {r r2 : Replica} (h : r2.env = r.env) : r2.leader = r.leader := by
  have h1 : r2.ballot = r.ballot := by
    show r2.env.ballot = r.env.ballot
    rw [h]
  have h2 : r2.N = r.N := by
    show r2.env.N = r.env.N
    rw [h]
  simp [Replica.leader, h1, h2]

theorem slowPathHAdd_spec {R : CommandId → commandDesc → commandDesc → Prop} (hR : HandlerClosed R)
    (hslow : ∀ id d ms, R id d { d with slowPathH := ms })
    (r : Replica) (cmdId : CommandId) (repId : Int) (isLeader : Bool) (msg : MFastAck) :
    DescsRel R r (slowPathHAdd r cmdId repId isLeader msg) ∧
      (slowPathHAdd r cmdId repId isLeader msg).env = r.env := by
  unfold slowPathHAdd
  have h1 : DescsRel R r (r.setDesc cmdId { r.desc cmdId with
      slowPathH := (MsgSet.Add acceptFastAndSlowAck (r.desc cmdId).slowPathH repId isLeader msg).1 }) :=
    DescsRel.setDesc hR r cmdId _ (fun d0 h0 => by
      rw [desc_of_get r cmdId d0 h0]; exact hslow cmdId d0 _)
  cases hf : (MsgSet.Add acceptFastAndSlowAck (r.desc cmdId).slowPathH repId isLeader msg).2 with
  | none =>
    simp only [hf]
    exact ⟨h1, rfl⟩
  | some fire =>
    simp only [hf]
    obtain ⟨g1, g2⟩ := handler_spec hR (r.setDesc cmdId { r.desc cmdId with
      slowPathH := (MsgSet.Add acceptFastAndSlowAck (r.desc cmdId).slowPathH repId isLeader msg).1 })
      cmdId fire.1
    exact ⟨DescsRel.trans hR h1 g1, by rw [g2, env_setDesc]⟩

theorem fastPathHAdd_spec {R : CommandId → commandDesc → commandDesc → Prop} (hR : HandlerClosed R)
    (hfast : ∀ id d ms, R id d { d with fastPathH := ms })
    (r : Replica) (cmdId : CommandId) (repId : Int) (isLeader : Bool) (msg : MFastAck) :
    DescsRel R r (fastPathHAdd r cmdId repId isLeader msg) ∧
      (fastPathHAdd r cmdId repId isLeader msg).env = r.env := by
  unfold fastPathHAdd
  have h1 : DescsRel R r (r.setDesc cmdId { r.desc cmdId with
      fastPathH := (MsgSet.Add acceptFastAndSlowAck (r.desc cmdId).fastPathH repId isLeader msg).1 }) :=
    DescsRel.setDesc hR r cmdId _ (fun d0 h0 => by
      rw [desc_of_get r cmdId d0 h0]; exact hfast cmdId d0 _)
  cases hf : (MsgSet.Add acceptFastAndSlowAck (r.desc cmdId).fastPathH repId isLeader msg).2 with
  | none =>
    simp only [hf]
    exact ⟨h1, rfl⟩
  | some fire =>
    simp only [hf]
    obtain ⟨g1, g2⟩ := handler_spec hR (r.setDesc cmdId { r.desc cmdId with
      fastPathH := (MsgSet.Add acceptFastAndSlowAck (r.desc cmdId).fastPathH repId isLeader msg).1 })
      cmdId fire.1
    exact ⟨DescsRel.trans hR h1 g1, by rw [g2, env_setDesc]⟩

theorem commonCaseFastAck_spec {R : CommandId → commandDesc → commandDesc → Prop}
    (hR : HandlerClosed R) (hslow : ∀ id d ms, R id d { d with slowPathH := ms })
    (hfast : ∀ id d ms, R id d { d with fastPathH := ms })
    (r : Replica) (msg : MFastAck) (cmdId : CommandId) :
    DescsRel R r (commonCaseFastAck r msg cmdId) ∧ (commonCaseFastAck r msg cmdId).env = r.env := by
  unfold commonCaseFastAck
  dsimp only
  split_ifs with h1 h2 h3
  · exact ⟨DescsRel.refl hR r, rfl⟩
  · exact slowPathHAdd_spec hR hslow r cmdId _ _ msg
  · obtain ⟨a1, a2⟩ := slowPathHAdd_spec hR hslow r cmdId msg.Replica
      (decide (msg.Replica = r.leader)) msg
    obtain ⟨b1, b2⟩ := fastPathHAdd_spec hR hfast
      (slowPathHAdd r cmdId msg.Replica (decide (msg.Replica = r.leader)) msg) cmdId msg.Replica
      (decide (msg.Replica =
        (slowPathHAdd r cmdId msg.Replica (decide (msg.Replica = r.leader)) msg).leader)) msg
    exact ⟨DescsRel.trans hR a1 b1, b2.trans a2⟩
  · exact fastPathHAdd_spec hR hfast r cmdId _ _ msg

theorem handleLightSlowAck_spec {R : CommandId → commandDesc → commandDesc → Prop}
    (hR : HandlerClosed R) (hslow : ∀ id d ms, R id d { d with slowPathH := ms })
    (hfast : ∀ id d ms, R id d { d with fastPathH := ms })
    (r : Replica) (msg : MLightSlowAck) (cmdId : CommandId) :
    DescsRel R r (handleLightSlowAck r msg cmdId) ∧ (handleLightSlowAck r msg cmdId).env = r.env :=
  commonCaseFastAck_spec hR hslow hfast r _ cmdId

theorem trivial_closed : HandlerClosed (fun _ _ _ => True) :=
  { refl := fun _ _ => trivial
    trans := fun _ _ _ _ _ _ => trivial
    succ := fun _ _ _ => trivial
    commit := fun _ _ => trivial }

theorem pathH_closed :
    HandlerClosed (fun _ d d2 => d2.slowPathH = d.slowPathH ∧ d2.fastPathH = d.fastPathH) :=
  { refl := fun _ _ => ⟨rfl, rfl⟩
    trans := fun _ _ _ _ h1 h2 => ⟨h2.1.trans h1.1, h2.2.trans h1.2⟩
    succ := fun _ _ _ => ⟨rfl, rfl⟩
    commit := fun _ _ => ⟨rfl, rfl⟩ }

theorem fastPathHAdd_desc (r : Replica) (cmdId : CommandId) (repId : Int) (isLeader : Bool)
    (msg : MFastAck) :
    ((fastPathHAdd r cmdId repId isLeader msg).desc cmdId).slowPathH = (r.desc cmdId).slowPathH ∧
    ((fastPathHAdd r cmdId repId isLeader msg).desc cmdId).fastPathH =
      (MsgSet.Add acceptFastAndSlowAck (r.desc cmdId).fastPathH repId isLeader msg).1 := by
  unfold fastPathHAdd
  cases hf : (MsgSet.Add acceptFastAndSlowAck (r.desc cmdId).fastPathH repId isLeader msg).2 with
  | none =>
    simp only [hf, desc_setDesc_same, and_self]
  | some fire =>
    simp only [hf]
    have h := (handler_spec pathH_closed (r.setDesc cmdId { r.desc cmdId with
      fastPathH := (MsgSet.Add acceptFastAndSlowAck (r.desc cmdId).fastPathH repId isLeader msg).1 })
      cmdId fire.1).1.desc cmdId _ (get_setDesc_same _ _ _)
    exact h

theorem slowPathHAdd_desc (r : Replica) (cmdId : CommandId) (repId : Int) (isLeader : Bool)
    (msg : MFastAck) :
    ((slowPathHAdd r cmdId repId isLeader msg).desc cmdId).slowPathH =
      (MsgSet.Add acceptFastAndSlowAck (r.desc cmdId).slowPathH repId isLeader msg).1 ∧
    ((slowPathHAdd r cmdId repId isLeader msg).desc cmdId).fastPathH = (r.desc cmdId).fastPathH := by
  unfold slowPathHAdd
  cases hf : (MsgSet.Add acceptFastAndSlowAck (r.desc cmdId).slowPathH repId isLeader msg).2 with
  | none =>
    simp only [hf, desc_setDesc_same, and_self]
  | some fire =>
    simp only [hf]
    have h := (handler_spec pathH_closed (r.setDesc cmdId { r.desc cmdId with
      slowPathH := (MsgSet.Add acceptFastAndSlowAck (r.desc cmdId).slowPathH repId isLeader msg).1 })
      cmdId fire.1).1.desc cmdId _ (get_setDesc_same _ _ _)
    exact h

/-! ### Aggregation (C4, C7) -/

theorem Map.keys_put_nodup {κ α : Type} [DecidableEq κ] (m : List (κ × α)) (k : κ) (v : α)
    (h : (Map.keys m).Nodup) : (Map.keys (Map.put m k v)).Nodup := by
  rw [Map.keys_put]
  split_ifs with hk
  · exact h
  · exact List.Nodup.append h (List.nodup_singleton k) (by
      intro a ha hb
      rw [List.mem_singleton] at hb
      subst hb
      exact hk ha)

theorem MsgSet.Add_records {M : Type} (accept : M → Option M → Bool) (ms : MsgSet M)
    (repId : Int) (isLeader : Bool) (msg : M) :
    (isLeader = true → (MsgSet.Add accept ms repId isLeader msg).1.leaderMsg = some msg) ∧
    (isLeader = false → Map.get (MsgSet.Add accept ms repId isLeader msg).1.msgs repId = some msg) := by
  cases isLeader
  · refine ⟨fun h => (by cases h), fun _ => ?_⟩
    unfold MsgSet.Add
    simp only [Bool.false_eq_true, if_false]
    split_ifs <;> simp [Map.get_put]
  · refine ⟨fun _ => ?_, fun h => (by cases h)⟩
    unfold MsgSet.Add
    simp only [if_true]
    split_ifs <;> rfl

theorem MsgSet.Add_fired {M : Type} (accept : M → Option M → Bool) (ms : MsgSet M)
    (repId : Int) (isLeader : Bool) (msg : M) (hn : (Map.keys ms.msgs).Nodup)
    (h0 : ms.fired = false) (h1 : (MsgSet.Add accept ms repId isLeader msg).1.fired = true) :
    ∃ lm, (MsgSet.Add accept ms repId isLeader msg).1.leaderMsg = some lm ∧
      (Map.keys (MsgSet.Add accept ms repId isLeader msg).1.msgs).Nodup ∧
      (MsgSet.Add accept ms repId isLeader msg).1.q.Size - 1 ≤
        ((((MsgSet.Add accept ms repId isLeader msg).1.msgs).filter
          (fun p => accept p.2 (some lm))).length : Int) := by
  cases isLeader
  · unfold MsgSet.Add at h1 ⊢
    simp only [Bool.false_eq_true, if_false] at h1 ⊢
    split_ifs at h1 ⊢ with hc
    · obtain ⟨_, hs, hcount⟩ := hc
      simp only [MsgSet.accepted, List.length_map] at hcount
      cases hl : ms.leaderMsg with
      | none => simp [hl] at hs
      | some lm =>
        rw [hl] at hcount
        exact ⟨lm, rfl, Map.keys_put_nodup _ _ _ hn, hcount⟩
    · rw [h0] at h1
      cases h1
  · unfold MsgSet.Add at h1 ⊢
    simp only [if_true] at h1 ⊢
    split_ifs at h1 ⊢ with hc
    · obtain ⟨_, _, hcount⟩ := hc
      simp only [MsgSet.accepted, List.length_map] at hcount
      exact ⟨msg, rfl, hn, hcount⟩
    · rw [h0] at h1
      cases h1

/-- C4, as stated, fails: in run A the leader's FastAck carries dep [(2, 1)],
the only other messages in `fastPathH` are the light slow acks (nil dep) of
replicas 1 and 2, both are counted, and the aggregator of size 3 fires although
no replica but the leader reported a dep equal to the leader's. -/
theorem fastPathH_counts_nil_dep :
    (runA2s.desc c11).fastPathH.fired = false ∧
    (runA3.desc c11).fastPathH.fired = true ∧
    (runA3.desc c11).fastPathH.q.Size = 3 ∧
    (runA3.desc c11).fastPathH.leaderMsg = some leaderAckA ∧
    (MsgSet.accepted acceptFastAndSlowAck (runA3.desc c11).fastPathH).length = 2 ∧
    (∀ p ∈ (runA3.desc c11).fastPathH.msgs,
      p.2.Dep = none ∧ Dep.Equals leaderAckA.Dep p.2.Dep = false) := by
  decide

/-- C4, amended: `fastPathH` counts a non-leader message exactly when its dep
is nil (a light slow ack) or equal, up to order, to the dep of the recorded
leader FastAck; hence when the fast-path aggregator fires at an `Add`, a leader
FastAck is recorded and at least `Size - 1` other replicas have each reported a
nil dep or a dep equal to the leader's. -/
theorem fastPathH_fires_only_on_quorum (r : Replica) (cmdId : CommandId) (repId : Int)
    (isLeader : Bool) (msg : MFastAck)
    (hn : (Map.keys (r.desc cmdId).fastPathH.msgs).Nodup)
    (h0 : (r.desc cmdId).fastPathH.fired = false)
    (h1 : ((fastPathHAdd r cmdId repId isLeader msg).desc cmdId).fastPathH.fired = true) :
    ∃ lm, ((fastPathHAdd r cmdId repId isLeader msg).desc cmdId).fastPathH.leaderMsg = some lm ∧
      (∀ m, acceptFastAndSlowAck m (some lm) = true ↔
        (m.Dep = none ∨ Dep.Equals lm.Dep m.Dep = true)) ∧
      (Map.keys ((fastPathHAdd r cmdId repId isLeader msg).desc cmdId).fastPathH.msgs).Nodup ∧
      ((fastPathHAdd r cmdId repId isLeader msg).desc cmdId).fastPathH.q.Size - 1 ≤
        (((((fastPathHAdd r cmdId repId isLeader msg).desc cmdId).fastPathH.msgs).filter
          (fun p => decide (p.2.Dep = none) || Dep.Equals lm.Dep p.2.Dep)).length : Int) := by
  have hd := (fastPathHAdd_desc r cmdId repId isLeader msg).2
  rw [hd] at h1 ⊢
  obtain ⟨lm, g1, g2, g3⟩ := MsgSet.Add_fired acceptFastAndSlowAck _ repId isLeader msg hn h0 h1
  refine ⟨lm, g1, ?_, g2, g3⟩
  intro m
  simp [acceptFastAndSlowAck]

/-- Witness of C4 (amended): step 3 of run A, where `fastPathH` fires on the
light slow ack of replica 2. -/
theorem fastPathH_fires_only_on_quorum_witness :
    (runA2s.desc c11).fastPathH.fired = false ∧
    ((fastPathHAdd runA2s c11 2 false nilAck2).desc c11).fastPathH.fired = true ∧
    ∃ lm, ((fastPathHAdd runA2s c11 2 false nilAck2).desc c11).fastPathH.leaderMsg = some lm ∧
      (∀ m, acceptFastAndSlowAck m (some lm) = true ↔
        (m.Dep = none ∨ Dep.Equals lm.Dep m.Dep = true)) ∧
      (Map.keys ((fastPathHAdd runA2s c11 2 false nilAck2).desc c11).fastPathH.msgs).Nodup ∧
      ((fastPathHAdd runA2s c11 2 false nilAck2).desc c11).fastPathH.q.Size - 1 ≤
        (((((fastPathHAdd runA2s c11 2 false nilAck2).desc c11).fastPathH.msgs).filter
          (fun p => decide (p.2.Dep = none) || Dep.Equals lm.Dep p.2.Dep)).length : Int) :=
  ⟨by decide, by decide,
    fastPathH_fires_only_on_quorum runA2s c11 2 false nilAck2 (by decide) (by decide) (by decide)⟩

/-- C7, as stated, fails: at replica 1 of run A (status NORMAL, ballot 0) the
light slow ack of replica 2, whose dep is nil, is recorded in `slowPathH` and in
`fastPathH` as well. -/
theorem commonCaseFastAck_nil_dep_reaches_fastPathH :
    runA1.status = NORMAL ∧ runA1.ballot = nilAck2.Ballot ∧ nilAck2.Dep = none ∧
    Map.get ((commonCaseFastAck runA1 nilAck2 c11).desc c11).slowPathH.msgs 2 = some nilAck2 ∧
    Map.get (runA1.desc c11).fastPathH.msgs 2 = none ∧
    Map.get ((commonCaseFastAck runA1 nilAck2 c11).desc c11).fastPathH.msgs 2 = some nilAck2 ∧
    ((commonCaseFastAck runA1 nilAck2 c11).desc c11).fastPathH ≠ (runA1.desc c11).fastPathH := by
  decide

/-- C7, amended: at status NORMAL and with `msg.Ballot` equal to the ballot of
the replica, `commonCaseFastAck` hands a message whose dep is non-nil to
`fastPathH` only (`slowPathH` is left as it was), and a message whose dep is nil
to `slowPathH` and then, unless the command is delivered once `slowPathH` has
taken it, to `fastPathH` as well; an aggregator that is handed the message
records it. -/
theorem commonCaseFastAck_records (r : Replica) (msg : MFastAck) (cmdId : CommandId)
    (hst : r.status = NORMAL) (hb : r.ballot = msg.Ballot) :
    (msg.Dep ≠ none →
      ((commonCaseFastAck r msg cmdId).desc cmdId).slowPathH = (r.desc cmdId).slowPathH ∧
      ((commonCaseFastAck r msg cmdId).desc cmdId).fastPathH =
        (MsgSet.Add acceptFastAndSlowAck (r.desc cmdId).fastPathH msg.Replica
          (decide (msg.Replica = r.leader)) msg).1) ∧
    (msg.Dep = none →
      ((commonCaseFastAck r msg cmdId).desc cmdId).slowPathH =
        (MsgSet.Add acceptFastAndSlowAck (r.desc cmdId).slowPathH msg.Replica
          (decide (msg.Replica = r.leader)) msg).1 ∧
      ((commonCaseFastAck r msg cmdId).desc cmdId).fastPathH =
        if msg.CmdId ∈ (slowPathHAdd r cmdId msg.Replica
            (decide (msg.Replica = r.leader)) msg).delivered then (r.desc cmdId).fastPathH
        else (MsgSet.Add acceptFastAndSlowAck (r.desc cmdId).fastPathH msg.Replica
          (decide (msg.Replica = r.leader)) msg).1) ∧
    (∀ ms : MsgSet MFastAck,
      (msg.Replica = r.leader →
        (MsgSet.Add acceptFastAndSlowAck ms msg.Replica
          (decide (msg.Replica = r.leader)) msg).1.leaderMsg = some msg) ∧
      (msg.Replica ≠ r.leader →
        Map.get (MsgSet.Add acceptFastAndSlowAck ms msg.Replica
          (decide (msg.Replica = r.leader)) msg).1.msgs msg.Replica = some msg)) := by
  have hguard : ¬ (r.status ≠ NORMAL ∨ r.ballot ≠ msg.Ballot) := by
    rintro (h | h)
    · exact h hst
    · exact h hb
  refine ⟨?_, ?_, ?_⟩
  · intro hdep
    have he : commonCaseFastAck r msg cmdId =
        fastPathHAdd r cmdId msg.Replica (decide (msg.Replica = r.leader)) msg := by
      unfold commonCaseFastAck
      rw [if_neg hguard, if_neg hdep]
    rw [he]
    exact fastPathHAdd_desc r cmdId _ _ msg
  · intro hdep
    have hs := slowPathHAdd_desc r cmdId msg.Replica (decide (msg.Replica = r.leader)) msg
    have henv := (slowPathHAdd_spec trivial_closed (fun _ _ _ => trivial) r cmdId msg.Replica
      (decide (msg.Replica = r.leader)) msg).2
    by_cases hdel : msg.CmdId ∈ (slowPathHAdd r cmdId msg.Replica
        (decide (msg.Replica = r.leader)) msg).delivered
    · have he : commonCaseFastAck r msg cmdId =
          slowPathHAdd r cmdId msg.Replica (decide (msg.Replica = r.leader)) msg := by
        unfold commonCaseFastAck
        rw [if_neg hguard, if_pos hdep]
        simp [Replica.hasDelivered, hdel]
      rw [he, if_pos hdel]
      exact hs
    · have he : commonCaseFastAck r msg cmdId =
          fastPathHAdd (slowPathHAdd r cmdId msg.Replica (decide (msg.Replica = r.leader)) msg)
            cmdId msg.Replica (decide (msg.Replica = r.leader)) msg := by
        unfold commonCaseFastAck
        rw [if_neg hguard, if_pos hdep]
        simp [Replica.hasDelivered, hdel, leader_of_env henv]
      rw [he, if_neg hdel]
      have hf := fastPathHAdd_desc
        (slowPathHAdd r cmdId msg.Replica (decide (msg.Replica = r.leader)) msg)
        cmdId msg.Replica (decide (msg.Replica = r.leader)) msg
      rw [hf.1, hf.2, hs.1, hs.2]
      exact ⟨rfl, rfl⟩
  · intro ms
    have h := MsgSet.Add_records acceptFastAndSlowAck ms msg.Replica
      (decide (msg.Replica = r.leader)) msg
    exact ⟨fun hl => h.1 (by simp [hl]), fun hl => h.2 (by simp [hl])⟩

/-- Witness of C7 (amended): the light slow ack of replica 2 at replica 1 of
run A. -/
theorem commonCaseFastAck_records_witness :
    (runA1.status = NORMAL ∧ runA1.ballot = nilAck2.Ballot) ∧
    ((commonCaseFastAck runA1 nilAck2 c11).desc c11).slowPathH =
      (MsgSet.Add acceptFastAndSlowAck (runA1.desc c11).slowPathH 2 false nilAck2).1 :=
  ⟨by decide, ((commonCaseFastAck_records runA1 nilAck2 c11 (by decide) (by decide)).2.1
    (by decide)).1⟩

/-! ### The closure of `fastAckFromLeader` (C5, C6, C8) -/

theorem env_fields {r r2 : Replica} (h : r2.env = r.env) :
    r2.Id = r.Id ∧ r2.N = r.N ∧ r2.ballot = r.ballot ∧ r2.status = r.status ∧ r2.SQ = r.SQ ∧
      r2.FQ = r.FQ ∧ r2.optExec = r.optExec ∧ r2.sent = r.sent ∧ r2.checksumUpds = r.checksumUpds := by
  refine ⟨?_, ?_, ?_, ?_, ?_, ?_, ?_, ?_, ?_⟩
  · show r2.env.Id = r.env.Id
    rw [h]
  · show r2.env.N = r.env.N
    rw [h]
  · show r2.env.ballot = r.env.ballot
    rw [h]
  · show r2.env.status = r.env.status
    rw [h]
  · show r2.env.SQ = r.env.SQ
    rw [h]
  · show r2.env.FQ = r.env.FQ
    rw [h]
  · show r2.env.optExec = r.env.optExec
    rw [h]
  · show r2.env.sent = r.env.sent
    rw [h]
  · show r2.env.checksumUpds = r.env.checksumUpds
    rw [h]

theorem env_sendLightSlowAck {r r2 : Replica} (h : r2.env = r.env) (c : CommandId) :
    (sendLightSlowAck r2 { Replica := r2.Id, Ballot := r2.ballot, CmdId := c }).env =
      (sendLightSlowAck r { Replica := r.Id, Ballot := r.ballot, CmdId := c }).env := by
  have e1 : (sendLightSlowAck r2 { Replica := r2.Id, Ballot := r2.ballot, CmdId := c }).env =
      sendLightSlowAck r2.env { Replica := r2.env.Id, Ballot := r2.env.ballot, CmdId := c } := rfl
  have e2 : (sendLightSlowAck r { Replica := r.Id, Ballot := r.ballot, CmdId := c }).env =
      sendLightSlowAck r.env { Replica := r.env.Id, Ballot := r.env.ballot, CmdId := c } := rfl
  rw [e1, e2, h]

theorem recordLeaderAck_spec {R : CommandId → commandDesc → commandDesc → Prop} {cmdId : CommandId}
    (hC : FastAckClosed R cmdId) (r : Replica) (msg : MFastAck) :
    DescsRel R r (recordLeaderAck r msg cmdId) ∧ (recordLeaderAck r msg cmdId).env = r.env := by
  have hR := hC.toHandlerClosed
  unfold recordLeaderAck
  dsimp only
  have h1 : DescsRel R r (r.setDesc cmdId { r.desc cmdId with phase := ACCEPT }) :=
    DescsRel.setDesc hR r cmdId _ (fun d0 h0 => by
      rw [desc_of_get r cmdId d0 h0]; exact hC.accept d0)
  obtain ⟨a1, a2⟩ := slowPathHAdd_spec hR hC.slow
    (r.setDesc cmdId { r.desc cmdId with phase := ACCEPT }) cmdId msg.Replica true msg
  split_ifs with hdel
  · obtain ⟨b1, b2⟩ := fastPathHAdd_spec hR hC.fast
      (slowPathHAdd (r.setDesc cmdId { r.desc cmdId with phase := ACCEPT }) cmdId msg.Replica
        true msg) cmdId msg.Replica true msg
    exact ⟨DescsRel.trans hR h1 (DescsRel.trans hR a1 b1), by rw [b2, a2, env_setDesc]⟩
  · exact ⟨DescsRel.trans hR h1 a1, by rw [a2, env_setDesc]⟩

theorem emitSlowAck_spec {R : CommandId → commandDesc → commandDesc → Prop} {cmdId : CommandId}
    (hC : FastAckClosed R cmdId) (r : Replica) (msg : MFastAck) (neq : Bool) :
    DescsRel R r (emitSlowAck r msg cmdId neq) ∧
      (emitSlowAck r msg cmdId neq).env =
        (sendLightSlowAck r { Replica := r.Id, Ballot := r.ballot, CmdId := msg.CmdId }).env := by
  have hR := hC.toHandlerClosed
  unfold emitSlowAck
  dsimp only
  have h4 : DescsRel R r (if neq = true ∧ r.hasDelivered msg.CmdId = false then
        r.setDesc cmdId { r.desc cmdId with dep := msg.Dep, slowPath := true } else r) ∧
      (if neq = true ∧ r.hasDelivered msg.CmdId = false then
        r.setDesc cmdId { r.desc cmdId with dep := msg.Dep, slowPath := true } else r).env = r.env := by
    split_ifs
    · exact ⟨DescsRel.setDesc hR r cmdId _ (fun d0 h0 => by
        rw [desc_of_get r cmdId d0 h0]; exact hC.dep cmdId d0 _), rfl⟩
    · exact ⟨DescsRel.refl hR r, rfl⟩
  generalize (if neq = true ∧ r.hasDelivered msg.CmdId = false then
        r.setDesc cmdId { r.desc cmdId with dep := msg.Dep, slowPath := true } else r) = r4 at h4 ⊢
  obtain ⟨g1, g2⟩ := h4
  have h5 : DescsRel R r4
      (sendLightSlowAck r4 { Replica := r4.Id, Ballot := r4.ballot, CmdId := msg.CmdId }) :=
    DescsRel.of_eq hR rfl
  have e5 := env_sendLightSlowAck g2 msg.CmdId
  split_ifs
  · obtain ⟨b1, b2⟩ := handleLightSlowAck_spec hR hC.slow hC.fast
      (sendLightSlowAck r4 { Replica := r4.Id, Ballot := r4.ballot, CmdId := msg.CmdId })
      { Replica := r4.Id, Ballot := r4.ballot, CmdId := msg.CmdId } cmdId
    exact ⟨DescsRel.trans hR g1 (DescsRel.trans hR h5 b1), by rw [b2, e5]⟩
  · exact ⟨DescsRel.trans hR g1 h5, e5⟩

theorem fastAckFromLeaderBody_spec {R : CommandId → commandDesc → commandDesc → Prop}
    {cmdId : CommandId} (hC : FastAckClosed R cmdId) (r : Replica) (msg : MFastAck) :
    DescsRel R r (fastAckFromLeaderBody r msg cmdId) ∧
      (fastAckFromLeaderBody r msg cmdId).env =
        if sendSlowAckOf r (!(Dep.Equals (r.desc cmdId).dep msg.Dep)) = true then
          (sendLightSlowAck r { Replica := r.Id, Ballot := r.ballot, CmdId := msg.CmdId }).env
        else r.env := by
  have hR := hC.toHandlerClosed
  unfold fastAckFromLeaderBody
  dsimp only
  obtain ⟨a1, a2⟩ := recordLeaderAck_spec hC r msg
  split_ifs with hs
  · obtain ⟨b1, b2⟩ := emitSlowAck_spec hC (recordLeaderAck r msg cmdId) msg
      (!(Dep.Equals (r.desc cmdId).dep msg.Dep))
    exact ⟨DescsRel.trans hR a1 b1, by rw [b2]; exact env_sendLightSlowAck a2 msg.CmdId⟩
  · exact ⟨a1, a2⟩

theorem cmdDescs_fastAckFromLeaderDeferred (x : Ext) (r : Replica) (cmd : Command)
    (hs : Option (List SHash)) (sendSlowAck : Bool) (msgCmdId : CommandId)
    (msgChecksum : Option (List SHash)) :
    (fastAckFromLeaderDeferred x r cmd hs sendSlowAck msgCmdId msgChecksum).cmdDescs =
      r.cmdDescs := by
  unfold fastAckFromLeaderDeferred
  dsimp only
  split_ifs <;> rfl

theorem fastAckFromLeaderClosure_spec {R : CommandId → commandDesc → commandDesc → Prop}
    {cmdId : CommandId} (hC : FastAckClosed R cmdId) (x : Ext) (r : Replica) (msg : MFastAck) :
    DescsRel R r (fastAckFromLeaderClosure x r msg cmdId) := by
  have hR := hC.toHandlerClosed
  unfold fastAckFromLeaderClosure
  dsimp only
  split_ifs
  · exact DescsRel.refl hR r
  · exact DescsRel.trans hR (fastAckFromLeaderBody_spec hC r msg).1
      (DescsRel.of_eq hR (cmdDescs_fastAckFromLeaderDeferred _ _ _ _ _ _ _))

theorem fastAckFromLeader_spec {R : CommandId → commandDesc → commandDesc → Prop}
    {cmdId : CommandId} (hC : FastAckClosed R cmdId) (x : Ext) (r : Replica) (msg : MFastAck) :
    DescsRel R r (fastAckFromLeader x r msg cmdId) := by
  have hR := hC.toHandlerClosed
  unfold fastAckFromLeader afterPropagateCall
  dsimp only
  split_ifs
  · exact fastAckFromLeaderClosure_spec hC x r msg
  · exact DescsRel.setDesc hR r cmdId _ (fun d0 h0 => by
      rw [desc_of_get r cmdId d0 h0]; exact hC.pending cmdId d0 _)

theorem afterPropagateRecall_spec {R : CommandId → commandDesc → commandDesc → Prop}
    {cmdId : CommandId} (hC : FastAckClosed R cmdId) (x : Ext) (r : Replica) :
    DescsRel R r (afterPropagateRecall x r cmdId).1 := by
  have hR := hC.toHandlerClosed
  unfold afterPropagateRecall
  dsimp only
  cases hp : (r.desc cmdId).afterPropagate with
  | none => exact DescsRel.refl hR r
  | some m =>
    dsimp only
    split_ifs
    · exact DescsRel.trans hR
        (DescsRel.setDesc hR r cmdId _ (fun d0 h0 => by
          rw [desc_of_get r cmdId d0 h0]; exact hC.pending cmdId d0 _))
        (fastAckFromLeaderClosure_spec hC x _ m)
    · exact DescsRel.refl hR r

theorem handleFastAck_spec {R : CommandId → commandDesc → commandDesc → Prop}
    {cmdId : CommandId} (hC : FastAckClosed R cmdId) (x : Ext) (r : Replica) (msg : MFastAck) :
    DescsRel R r (handleFastAck x r msg cmdId) := by
  unfold handleFastAck
  split_ifs
  · exact fastAckFromLeader_spec hC x r msg
  · exact (commonCaseFastAck_spec hC.toHandlerClosed hC.slow hC.fast r msg cmdId).1

theorem handlePropose_spec {R : CommandId → commandDesc → commandDesc → Prop}
    {cmdId : CommandId} (hC : FastAckClosed R cmdId)
    (hprop : ∀ d p c, R cmdId d { d with propose := p, cmd := c })
    (hpre : ∀ d dp, R cmdId d { d with dep := dp, phase := PRE_ACCEPT })
    (x : Ext) (r : Replica) (msg : GPropose) :
    DescsRel R r (handlePropose x r msg cmdId) := by
  have hR := hC.toHandlerClosed
  unfold handlePropose
  dsimp only
  have h1 : DescsRel R r
      (r.setDesc cmdId { r.desc cmdId with propose := some msg, cmd := msg.Command }) :=
    DescsRel.setDesc hR r cmdId _ (fun d0 h0 => by
      rw [desc_of_get r cmdId d0 h0]; exact hprop d0 _ _)
  generalize (r.setDesc cmdId { r.desc cmdId with propose := some msg, cmd := msg.Command }) = r1
    at h1 ⊢
  have h2 : DescsRel R r1
      (r1.setDesc cmdId { r1.desc cmdId with dep := (r1.desc cmdId).proposeDep, phase := PRE_ACCEPT }) :=
    DescsRel.setDesc hR r1 cmdId _ (fun d0 h0 => by
      rw [desc_of_get r1 cmdId d0 h0]; exact hpre d0 _)
  generalize (r1.setDesc cmdId
    { r1.desc cmdId with dep := (r1.desc cmdId).proposeDep, phase := PRE_ACCEPT }) = r2 at h2 ⊢
  have h3 := afterPropagateRecall_spec hC x r2
  generalize (afterPropagateRecall x r2 cmdId) = rc at h3 ⊢
  have h12 := DescsRel.trans hR h1 (DescsRel.trans hR h2 h3)
  have hsend : ∀ (r0 : Replica) (o : Out), DescsRel R r0 (r0.send o) :=
    fun r0 o => DescsRel.of_eq hR rfl
  have hdel : ∀ (r0 : Replica) (d : commandDesc), DescsRel R r0 (deliver r0 d cmdId) :=
    fun r0 d => DescsRel.of_eq hR (cmdDescs_deliver r0 d cmdId)
  split_ifs
  · exact DescsRel.refl hR r
  · exact DescsRel.trans hR h1 (afterPropagateRecall_spec hC x r1)
  · exact h12
  · exact DescsRel.trans hR h12 (DescsRel.trans hR (hsend _ _) (handleFastAck_spec hC x _ _))
  · exact DescsRel.trans hR h12 (DescsRel.trans hR
      (DescsRel.trans hR (hsend _ _) (hdel _ _)) (handleFastAck_spec hC x _ _))
  · exact DescsRel.trans hR h12 (DescsRel.trans hR (hsend _ _) (handleFastAck_spec hC x _ _))

theorem phaseMono_closed : HandlerClosed PhaseMono :=
  { refl := fun _ _ h => ⟨h, le_refl _⟩
    trans := fun _ _ _ _ h1 h2 h => by
      obtain ⟨a1, a2⟩ := h1 h
      obtain ⟨b1, b2⟩ := h2 a1
      exact ⟨b1, le_trans a2 b2⟩
    succ := fun _ _ _ h => ⟨h, le_refl _⟩
    commit := fun _ _ h => ⟨le_refl _, h⟩ }

theorem phaseFloor_closed (cmdId : CommandId) (k : Int) (hk : k ≤ ACCEPT) :
    FastAckClosed (PhaseFloor cmdId k) cmdId :=
  { refl := fun _ _ h => ⟨h, Or.inl (le_refl _)⟩
    trans := fun _ _ _ _ h1 h2 h => by
      obtain ⟨a1, a2⟩ := h1 h
      obtain ⟨b1, b2⟩ := h2 a1
      refine ⟨b1, ?_⟩
      rcases a2 with a2 | ⟨a2, a3⟩
      · rcases b2 with b2 | b2
        · exact Or.inl (le_trans a2 b2)
        · exact Or.inr b2
      · rcases b2 with b2 | b2
        · exact Or.inr ⟨a2, le_trans a3 b2⟩
        · exact Or.inr b2
    succ := fun _ _ _ h => ⟨h, Or.inl (le_refl _)⟩
    commit := fun _ _ h => ⟨le_refl _, Or.inl h⟩
    slow := fun _ _ _ h => ⟨h, Or.inl (le_refl _)⟩
    fast := fun _ _ _ h => ⟨h, Or.inl (le_refl _)⟩
    accept := fun _ _ => ⟨(show ACCEPT ≤ COMMIT by decide), Or.inr ⟨rfl, hk⟩⟩
    dep := fun _ _ _ h => ⟨h, Or.inl (le_refl _)⟩
    pending := fun _ _ _ h => ⟨h, Or.inl (le_refl _)⟩ }

/-- C6, as stated, fails: in run A the descriptor of (1, 1) is at COMMIT after
step 3, and `fastAckFromLeader` on the FastAck of the leader, at the same
ballot, puts it back to ACCEPT. -/
theorem fastAckFromLeader_lowers_commit :
    (runA3.desc c11).phase = COMMIT ∧
    runA3.status = NORMAL ∧ runA3.ballot = leaderAckA.Ballot ∧ leaderAckA.Replica = runA3.leader ∧
    (fastAckFromLeader extSingle runA3 leaderAckA c11).ballot = runA3.ballot ∧
    ((fastAckFromLeader extSingle runA3 leaderAckA c11).desc c11).phase = ACCEPT ∧
    ACCEPT < COMMIT := by
  decide

/-- C6, amended: `commonCaseFastAck`, `handleLightSlowAck` and the quorum
completion handler lower the phase of no descriptor; `fastAckFromLeader` and
`handlePropose` lower the phase of no descriptor other than the one they
handle, nor the phase of that one when it is at most ACCEPT
(`fastAckFromLeader`) or at most PRE_ACCEPT (`handlePropose`) on entry.  Phases
are those of START..COMMIT. -/
theorem handlers_phase_monotone (x : Ext) (r : Replica) (cmdId id : CommandId) (d : commandDesc)
    (hg : Map.get r.cmdDescs id = some d) (hd : d.phase ≤ COMMIT) :
    (∀ msg, ∃ d2, Map.get (commonCaseFastAck r msg cmdId).cmdDescs id = some d2 ∧
      d.phase ≤ d2.phase) ∧
    (∀ msg, ∃ d2, Map.get (handleLightSlowAck r msg cmdId).cmdDescs id = some d2 ∧
      d.phase ≤ d2.phase) ∧
    (∀ leaderMsg, ∃ d2, Map.get (getFastAndSlowAcksHandler r cmdId leaderMsg).cmdDescs id = some d2 ∧
      d.phase ≤ d2.phase) ∧
    (∀ msg, (id ≠ cmdId ∨ d.phase ≤ ACCEPT) →
      ∃ d2, Map.get (fastAckFromLeader x r msg cmdId).cmdDescs id = some d2 ∧
        d.phase ≤ d2.phase) ∧
    (∀ msg, (id ≠ cmdId ∨ d.phase ≤ PRE_ACCEPT) →
      ∃ d2, Map.get (handlePropose x r msg cmdId).cmdDescs id = some d2 ∧
        d.phase ≤ d2.phase) := by
  have hm : ∀ id2 d1 ms, PhaseMono id2 d1 { d1 with slowPathH := ms } :=
    fun _ _ _ h => ⟨h, le_refl _⟩
  have hf : ∀ id2 d1 ms, PhaseMono id2 d1 { d1 with fastPathH := ms } :=
    fun _ _ _ h => ⟨h, le_refl _⟩
  refine ⟨?_, ?_, ?_, ?_, ?_⟩
  · intro msg
    obtain ⟨d2, g2, q2⟩ := (commonCaseFastAck_spec phaseMono_closed hm hf r msg cmdId).1 id d hg
    exact ⟨d2, g2, (q2 hd).2⟩
  · intro msg
    obtain ⟨d2, g2, q2⟩ := (handleLightSlowAck_spec phaseMono_closed hm hf r msg cmdId).1 id d hg
    exact ⟨d2, g2, (q2 hd).2⟩
  · intro leaderMsg
    obtain ⟨d2, g2, q2⟩ := (handler_spec phaseMono_closed r cmdId leaderMsg).1 id d hg
    exact ⟨d2, g2, (q2 hd).2⟩
  · intro msg hpre
    obtain ⟨d2, g2, q2⟩ :=
      fastAckFromLeader_spec (phaseFloor_closed cmdId ACCEPT (le_refl _)) x r msg id d hg
    refine ⟨d2, g2, ?_⟩
    rcases (q2 hd).2 with h | ⟨h1, h2⟩
    · exact h
    · rcases hpre with h3 | h3
      · exact absurd h1 h3
      · exact le_trans h3 h2
  · intro msg hpre
    obtain ⟨d2, g2, q2⟩ :=
      handlePropose_spec (phaseFloor_closed cmdId PRE_ACCEPT (by decide))
        (fun _ _ _ h => ⟨h, Or.inl (le_refl _)⟩)
        (fun _ _ _ => ⟨(show PRE_ACCEPT ≤ COMMIT by decide), Or.inr ⟨rfl, le_refl _⟩⟩)
        x r msg id d hg
    refine ⟨d2, g2, ?_⟩
    rcases (q2 hd).2 with h | ⟨h1, h2⟩
    · exact h
    · rcases hpre with h3 | h3
      · exact absurd h1 h3
      · exact le_trans h3 h2

/-- Witness of C6 (amended): the descriptor of (1, 1), at PRE_ACCEPT after step
1 of run A, is at ACCEPT after `fastAckFromLeader` on the FastAck of the
leader. -/
theorem handlers_phase_monotone_witness :
    Map.get runA1.cmdDescs c11 = some (runA1.desc c11) ∧ (runA1.desc c11).phase = PRE_ACCEPT ∧
    ((fastAckFromLeader extSingle runA1 leaderAckA c11).desc c11).phase = ACCEPT ∧
    ∃ d2, Map.get (fastAckFromLeader extSingle runA1 leaderAckA c11).cmdDescs c11 = some d2 ∧
      (runA1.desc c11).phase ≤ d2.phase :=
  ⟨by decide, by decide, by decide,
    (handlers_phase_monotone extSingle runA1 c11 c11 (runA1.desc c11) (by decide)
      (by decide)).2.2.2.1 leaderAckA (Or.inr (by decide))⟩

theorem trivialFast_closed (cmdId : CommandId) : FastAckClosed (fun _ _ _ => True) cmdId :=
  { refl := fun _ _ => trivial
    trans := fun _ _ _ _ _ _ => trivial
    succ := fun _ _ _ => trivial
    commit := fun _ _ => trivial
    slow := fun _ _ _ => trivial
    fast := fun _ _ _ => trivial
    accept := fun _ => trivial
    dep := fun _ _ _ => trivial
    pending := fun _ _ _ => trivial }

theorem sent_fastAckFromLeaderDeferred (x : Ext) (rb : Replica) (cmd : Command)
    (hs : Option (List SHash)) (ssa : Bool) (c : CommandId) (chk : Option (List SHash)) :
    (fastAckFromLeaderDeferred x rb cmd hs ssa c chk).sent =
      if ¬ (rb.leader = rb.Id ∨ rb.hasDelivered c = true) ∧
          (ssa = false ∧ rb.optExec = true ∧ x.SHashesEq hs chk = false) then
        rb.sent ++ [Out.sendToClientLightSlowAck c.ClientId
          { Replica := rb.Id, Ballot := rb.ballot, CmdId := c }]
      else rb.sent := by
  unfold fastAckFromLeaderDeferred
  dsimp only
  by_cases h1 : rb.leader = rb.Id ∨ rb.hasDelivered c = true
  · rw [if_pos h1, if_neg (fun h => h.1 h1)]
  · rw [if_neg h1]
    by_cases h2 : ssa = false ∧ rb.optExec = true ∧ x.SHashesEq hs chk = false
    · rw [if_pos h2, if_pos ⟨h1, h2⟩]
      rfl
    · rw [if_neg h2, if_neg (fun h => h2 h.2)]

theorem sendSlowAckOf_iff (r : Replica) (d1 d2 : Dep) :
    sendSlowAckOf r (!(Dep.Equals d1 d2)) = true ↔
      (r.leader ≠ r.Id ∧ (r.SQ.Contains r.Id = true ∨
        (Dep.Equals d1 d2 = false ∧ r.FQ.Contains r.Id = true))) := by
  simp [sendSlowAckOf]

/-- C8, as stated, fails: replica 2 is in SQ, the leader is replica 0, the
local dep (nil) equals the empty dep of the leader and replica 2 is outside FQ,
so the condition of the claim is false; yet `fastAckFromLeader` emits the
LightSlowAck and handles it locally (it is recorded in `slowPathH`). -/
theorem fastAckFromLeader_slowAck_outside_FQ :
    runD1.status = NORMAL ∧ runD1.ballot = leaderAckD.Ballot ∧ (runD1.desc c11).propose ≠ none ∧
    ¬ (runD1.SQ.Contains runD1.Id = true ∧ runD1.leader ≠ runD1.Id ∧
        (Dep.Equals (runD1.desc c11).dep leaderAckD.Dep = false ∨
          runD1.FQ.Contains runD1.Id = true)) ∧
    (fastAckFromLeader extSingle runD1 leaderAckD c11).sent =
      runD1.sent ++ [Out.batcherSendLightSlowAck { Replica := 2, Ballot := 0, CmdId := c11 }] ∧
    Map.get ((fastAckFromLeader extSingle runD1 leaderAckD c11).desc c11).slowPathH.msgs 2 =
      some { Replica := 2, Ballot := 0, CmdId := c11, Dep := none } := by
  decide

/-- C8, amended: when `fastAckFromLeader` accepts a leader FastAck (status
NORMAL, equal ballot, propose recorded), it emits its dep-related
LightSlowAck{replica, ballot, cmdId} exactly when the leader is a different
replica and (this replica is in SQ, or the local dep differs from `msg.Dep` and
this replica is in FQ).  Otherwise the only message it may send is the
corrective LightSlowAck of its deferred function, which goes straight to the
client. -/
theorem fastAckFromLeader_emits_slowAck (x : Ext) (r : Replica) (msg : MFastAck)
    (cmdId : CommandId) (hst : r.status = NORMAL) (hb : r.ballot = msg.Ballot)
    (hp : (r.desc cmdId).propose ≠ none) :
    (fastAckFromLeader x r msg cmdId).sent =
      if r.leader ≠ r.Id ∧ (r.SQ.Contains r.Id = true ∨
          (Dep.Equals (r.desc cmdId).dep msg.Dep = false ∧ r.FQ.Contains r.Id = true)) then
        r.sent ++ [lightSlowAckOut r { Replica := r.Id, Ballot := r.ballot, CmdId := msg.CmdId }]
      else if r.leader ≠ r.Id ∧ msg.CmdId ∉ (recordLeaderAck r msg cmdId).delivered ∧
          r.optExec = true ∧ x.SHashesEq (r.desc cmdId).hs msg.Checksum = false then
        r.sent ++ [Out.sendToClientLightSlowAck msg.CmdId.ClientId
          { Replica := r.Id, Ballot := r.ballot, CmdId := msg.CmdId }]
      else r.sent := by
  have hguard : ¬ (r.status ≠ NORMAL ∨ r.ballot ≠ msg.Ballot) := by
    rintro (h | h)
    · exact h hst
    · exact h hb
  have hcall : fastAckFromLeader x r msg cmdId =
      fastAckFromLeaderDeferred x (fastAckFromLeaderBody r msg cmdId) (r.desc cmdId).cmd
        (r.desc cmdId).hs (sendSlowAckOf r (!(Dep.Equals (r.desc cmdId).dep msg.Dep)))
        msg.CmdId msg.Checksum := by
    unfold fastAckFromLeader afterPropagateCall
    dsimp only
    rw [if_pos hp]
    unfold fastAckFromLeaderClosure
    rw [if_neg hguard]
  have hbody := (fastAckFromLeaderBody_spec (trivialFast_closed cmdId) r msg).2
  rw [hcall, sent_fastAckFromLeaderDeferred]
  by_cases hs : sendSlowAckOf r (!(Dep.Equals (r.desc cmdId).dep msg.Dep)) = true
  · rw [if_pos hs] at hbody
    have hsent : (fastAckFromLeaderBody r msg cmdId).sent =
        (sendLightSlowAck r { Replica := r.Id, Ballot := r.ballot, CmdId := msg.CmdId }).sent :=
      (env_fields hbody).2.2.2.2.2.2.2.1
    rw [if_pos ((sendSlowAckOf_iff r _ _).mp hs), if_neg (fun h => by rw [hs] at h; cases h.2.1),
      hsent]
    rfl
  · rw [if_neg hs] at hbody
    have hrec : fastAckFromLeaderBody r msg cmdId = recordLeaderAck r msg cmdId := by
      unfold fastAckFromLeaderBody
      dsimp only
      rw [if_neg hs]
    obtain ⟨e1, _, e3, _, _, _, e7, e8, _⟩ := env_fields hbody
    have hlead := leader_of_env hbody
    have hs2 : sendSlowAckOf r (!(Dep.Equals (r.desc cmdId).dep msg.Dep)) = false := by
      simpa using hs
    rw [if_neg (fun h => hs ((sendSlowAckOf_iff r _ _).mpr h)), hlead, e1, e3, e7, e8, hs2, hrec]
    simp only [Replica.hasDelivered, decide_eq_true_eq, not_or, true_and, and_assoc]

/-- Witness of C8 (amended): the FastAck of the leader at replica 2, which is
in SQ and outside FQ. -/
theorem fastAckFromLeader_emits_slowAck_witness :
    (runD1.status = NORMAL ∧ runD1.ballot = leaderAckD.Ballot ∧ (runD1.desc c11).propose ≠ none) ∧
    (runD1.leader ≠ runD1.Id ∧ runD1.SQ.Contains runD1.Id = true) ∧
    (fastAckFromLeader extSingle runD1 leaderAckD c11).sent =
      if runD1.leader ≠ runD1.Id ∧ (runD1.SQ.Contains runD1.Id = true ∨
          (Dep.Equals (runD1.desc c11).dep leaderAckD.Dep = false ∧
            runD1.FQ.Contains runD1.Id = true)) then
        runD1.sent ++
          [lightSlowAckOut runD1 { Replica := runD1.Id, Ballot := runD1.ballot, CmdId := leaderAckD.CmdId }]
      else if runD1.leader ≠ runD1.Id ∧
          leaderAckD.CmdId ∉ (recordLeaderAck runD1 leaderAckD c11).delivered ∧
          runD1.optExec = true ∧
          extSingle.SHashesEq (runD1.desc c11).hs leaderAckD.Checksum = false then
        runD1.sent ++ [Out.sendToClientLightSlowAck leaderAckD.CmdId.ClientId
          { Replica := runD1.Id, Ballot := runD1.ballot, CmdId := leaderAckD.CmdId }]
      else runD1.sent :=
  ⟨by decide, by decide,
    fastAckFromLeader_emits_slowAck extSingle runD1 leaderAckD c11 (by decide) (by decide)
      (by decide)⟩

/-- C5, the code at the failing input: at replica 1 of run B the light slow ack
of replica 2 precedes the FastAck of the leader.  `fastAckFromLeader` accepts
that FastAck, whose dep is [(2, 1)]; the slow-path aggregator fires inside
`slowPathH.Add`, before `desc.dep` takes the dep of the leader, so the
descriptor commits with the local dep `[]`: no successor is registered with
(2, 1) and (1, 1) is delivered and executed although (2, 1) is not delivered. -/
theorem fastAckFromLeader_commits_with_local_dep :
    runB2.status = NORMAL ∧ runB2.ballot = leaderAckA.Ballot ∧ leaderAckA.Replica = runB2.leader ∧
    (runB2.desc c11).propose ≠ none ∧ (runB2.desc c11).dep = some [] ∧
    leaderAckA.Dep = some [c21] ∧
    runB3 = fastAckFromLeader extSingle runB2 leaderAckA c11 ∧
    (runB3.desc c11).phase = COMMIT ∧ (runB3.desc c11).dep = some [] ∧
    Dep.Equals (runB3.desc c11).dep leaderAckA.Dep = false ∧
    (runB3.desc c21).successors = [] ∧
    runB3.delivered = [c11] ∧ runB3.executed = [put100] ∧ c21 ∉ runB3.delivered := by
  decide

/-! ### Slow-ack route, checksum corrections and sync order (C12, C16, C17) -/

theorem sent_fastAckFromLeader_emitting (x : Ext) (r : Replica) (msg : MFastAck)
    (cmdId : CommandId) (hst : r.status = NORMAL) (hb : r.ballot = msg.Ballot)
    (hp : (r.desc cmdId).propose ≠ none)
    (hs : sendSlowAckOf r (!(Dep.Equals (r.desc cmdId).dep msg.Dep)) = true) :
    (fastAckFromLeader x r msg cmdId).sent =
      r.sent ++ [lightSlowAckOut r { Replica := r.Id, Ballot := r.ballot, CmdId := msg.CmdId }] := by
  have hguard : ¬ (r.status ≠ NORMAL ∨ r.ballot ≠ msg.Ballot) := by
    rintro (h | h)
    · exact h hst
    · exact h hb
  have hcall : fastAckFromLeader x r msg cmdId =
      fastAckFromLeaderDeferred x (fastAckFromLeaderBody r msg cmdId) (r.desc cmdId).cmd
        (r.desc cmdId).hs (sendSlowAckOf r (!(Dep.Equals (r.desc cmdId).dep msg.Dep)))
        msg.CmdId msg.Checksum := by
    unfold fastAckFromLeader afterPropagateCall
    dsimp only
    rw [if_pos hp]
    unfold fastAckFromLeaderClosure
    rw [if_neg hguard]
  have hbody := (fastAckFromLeaderBody_spec (trivialFast_closed cmdId) r msg).2
  rw [if_pos hs] at hbody
  have hsent : (fastAckFromLeaderBody r msg cmdId).sent =
      (sendLightSlowAck r { Replica := r.Id, Ballot := r.ballot, CmdId := msg.CmdId }).sent :=
    (env_fields hbody).2.2.2.2.2.2.2.1
  rw [hcall, sent_fastAckFromLeaderDeferred, if_neg (fun h => by rw [hs] at h; cases h.2.1), hsent]
  rfl

/-- C17, as stated, fails: at replica 2 of three, `FQ = {0, 1}` has size
`N/2 + 1 = 2` and replica 2 is outside it, `fastAckFromLeader` emits its
LightSlowAck, and with `optExec` disabled the ack is handed to the batcher, not
sent to the client. -/
theorem slowAck_batched_without_optExec :
    runD1.status = NORMAL ∧ runD1.ballot = leaderAckD.Ballot ∧ (runD1.desc c11).propose ≠ none ∧
    runD1.FQ.Size = runD1.N / 2 + 1 ∧ runD1.FQ.Contains runD1.Id = false ∧
    runD1.optExec = false ∧
    (fastAckFromLeader extSingle runD1 leaderAckD c11).sent =
      runD1.sent ++ [Out.batcherSendLightSlowAck { Replica := 2, Ballot := 0, CmdId := c11 }] := by
  decide

/-- C17, amended: whenever `fastAckFromLeader` emits its LightSlowAck while
`FQ` has size `N/2 + 1` and this replica is not a member of `FQ`, the ack is
sent directly to the client, and not handed to the batcher, provided `optExec`
is enabled; with `optExec` disabled it goes to the batcher. -/
theorem slowAck_short_circuit (x : Ext) (r : Replica) (msg : MFastAck) (cmdId : CommandId)
    (hst : r.status = NORMAL) (hb : r.ballot = msg.Ballot) (hp : (r.desc cmdId).propose ≠ none)
    (hemit : r.leader ≠ r.Id ∧ (r.SQ.Contains r.Id = true ∨
      (Dep.Equals (r.desc cmdId).dep msg.Dep = false ∧ r.FQ.Contains r.Id = true)))
    (hfq : r.FQ.Size = r.N / 2 + 1) (hout : r.FQ.Contains r.Id = false) :
    (fastAckFromLeader x r msg cmdId).sent =
      r.sent ++ [if r.optExec = true then
          Out.sendToClientLightSlowAck msg.CmdId.ClientId
            { Replica := r.Id, Ballot := r.ballot, CmdId := msg.CmdId }
        else Out.batcherSendLightSlowAck
            { Replica := r.Id, Ballot := r.ballot, CmdId := msg.CmdId }] := by
  rw [sent_fastAckFromLeader_emitting x r msg cmdId hst hb hp ((sendSlowAckOf_iff r _ _).mpr hemit)]
  unfold lightSlowAckOut
  cases ho : r.optExec
  · simp
  · simp [hfq, hout]

/-- Witness of C17 (amended): replica 2 of three with `optExec` enabled, outside
`FQ = {0, 1}`, sends its LightSlowAck straight to the client. -/
theorem slowAck_short_circuit_witness :
    ({ runD1 with optExec := true } : Replica).optExec = true ∧
    (fastAckFromLeader extSingle { runD1 with optExec := true } leaderAckD c11).sent =
      ({ runD1 with optExec := true } : Replica).sent ++
        [if ({ runD1 with optExec := true } : Replica).optExec = true then
          Out.sendToClientLightSlowAck leaderAckD.CmdId.ClientId
            { Replica := ({ runD1 with optExec := true } : Replica).Id
              Ballot := ({ runD1 with optExec := true } : Replica).ballot
              CmdId := leaderAckD.CmdId }
        else Out.batcherSendLightSlowAck
            { Replica := ({ runD1 with optExec := true } : Replica).Id
              Ballot := ({ runD1 with optExec := true } : Replica).ballot
              CmdId := leaderAckD.CmdId }] :=
  ⟨by decide,
    slowAck_short_circuit extSingle { runD1 with optExec := true } leaderAckD c11 (by decide)
      (by decide) (by decide) (by decide) (by decide) (by decide)⟩

/-- C16, the code at the failing input: at replica 3 the command (1, 1) spans
the keys 100 and 101 with local hashes 5 and 6; the checksum of the leader is
5 and 7, so only the hash of key 101 differs.  The deferred function of
`fastAckFromLeader` requests a correction for each of the two keys with each of
the two hashes of the leader: four corrections, one of them with the hash that
agrees and two that pair a key with the hash of the other key. -/
theorem fastAckFromLeader_corrections_cross_product :
    runE1.status = NORMAL ∧ runE1.ballot = leaderAckE.Ballot ∧ (runE1.desc c11).propose ≠ none ∧
    extPair.keysOf (runE1.desc c11).cmd = [100, 101] ∧
    (runE1.desc c11).hs = some [5, 6] ∧ leaderAckE.Checksum = some [5, 7] ∧
    (fastAckFromLeader extPair runE1 leaderAckE c11).sent =
      runE1.sent ++ [Out.sendToClientLightSlowAck 1 { Replica := 3, Ballot := 0, CmdId := c11 }] ∧
    (fastAckFromLeader extPair runE1 leaderAckE c11).checksumUpds =
      [ { key := 100, cmdId := c11, newHash := 5 }, { key := 100, cmdId := c11, newHash := 7 },
        { key := 101, cmdId := c11, newHash := 5 }, { key := 101, cmdId := c11, newHash := 7 } ] := by
  decide

theorem handleSync_unfold_order (x : Ext) (r : Replica) (msg : MSync)
    (h : ¬ (msg.Ballot < r.ballot ∨ (r.ballot = msg.Ballot ∧ r.status = NORMAL))) :
    ∃ r5 : Replica, handleSync x r msg =
      (((handleSyncOrder msg).foldl (handleSyncInstall msg) (r5, [])).2.foldl (runSyncDefer x)
        (sendAccepts ((handleSyncOrder msg).foldl (handleSyncInstall msg) (r5, [])).1 msg)) := by
  unfold handleSync
  rw [if_neg h]
  exact ⟨_, rfl⟩

/-- C12, the code at the failing input: the keys of `msg.Phases` come out of
the map in the order (1, 1), (3, 1), (2, 1) and `msg.Deps[(1, 1)]` contains
(2, 1).  The insertion sort of `sort.Slice` compares neighbours only, neither
comparison asks for a swap, and `handleSync` installs (1, 1) before its
dependency (2, 1): on `deliverChan` the post of (1, 1) precedes the post that
the installation of (2, 1) makes. -/
theorem handleSync_order_not_topological :
    Map.keys syncUnordered.Phases = [c11, c31, c21] ∧
    Dep.Contains ((Map.get syncUnordered.Deps c11).getD none) c21 = true ∧ c21 ≠ c11 ∧
    handleSyncOrder syncUnordered = [c11, c31, c21] ∧
    (handleSync extSingle recovering2 syncUnordered).deliverChan = [c21, c11, c31, c21] ∧
    Map.keys (handleSync extSingle recovering2 syncUnordered).cmdDescs = [c11, c21, c31] := by
  decide

/-! ### Conflict index (C18, C19) -/

theorem getDep_fold (k : KeyOps) (r : Replica) (cmd : Command) :
    ∀ (ks : List Int) (dep0 : List CommandId),
      ks.foldl (fun dep key =>
          match Map.get r.keys key with
          | some info => dep ++ k.getConflictCmds info cmd
          | none => dep) dep0 =
        dep0 ++ (ks.map (fun key =>
          match Map.get r.keys key with
          | some info => k.getConflictCmds info cmd
          | none => [])).flatten := by
  intro ks
  induction ks with
  | nil => intro dep0; simp
  | cons key t ih =>
    intro dep0
    rw [List.foldl_cons, ih]
    cases hg : Map.get r.keys key <;> simp [hg]

theorem getDepAndHashes_fold (k : KeyOps) (cmd : Command) (cmdId : CommandId) (r : Replica) :
    ∀ (ks : List Int) (r0 : Replica) (dep0 : List CommandId) (hs0 : List SHash), ks.Nodup →
      (∀ key, key ∈ ks → Map.get r0.keys key = Map.get r.keys key ∧
        Map.get r0.sums key = Map.get r.sums key) →
      (ks.foldl (getDepAndHashesStep k cmd cmdId) (r0, dep0, hs0)).2 =
        (dep0 ++ (ks.map (fun key =>
            match Map.get r.keys key with
            | some info => k.getConflictCmds info cmd
            | none => [])).flatten,
          hs0 ++ ks.map (fun key =>
            (k.update ((Map.get r.sums key).getD k.newChecksum) cmd cmdId).2)) := by
  intro ks
  induction ks with
  | nil => intro r0 dep0 hs0 _ _; simp
  | cons key t ih =>
    intro r0 dep0 hs0 hnd hget
    have hk := hget key (List.mem_cons_self _ _)
    have hnd2 := List.nodup_cons.mp hnd
    have hstep : getDepAndHashesStep k cmd cmdId (r0, dep0, hs0) key =
        ({ r0 with
            keys := Map.put r0.keys key
              (k.add ((Map.get r0.keys key).getD k.newLightKeyInfo) cmd cmdId)
            sums := Map.put r0.sums key
              (k.update ((Map.get r0.sums key).getD k.newChecksum) cmd cmdId).1 },
          (match Map.get r0.keys key with
            | some i => dep0 ++ k.getConflictCmds i cmd
            | none => dep0),
          hs0 ++ [(k.update ((Map.get r0.sums key).getD k.newChecksum) cmd cmdId).2]) := rfl
    rw [List.foldl_cons, hstep, ih _ _ _ hnd2.2]
    · rw [hk.1, hk.2]
      cases hg : Map.get r.keys key <;> simp [hg]
    · intro key2 h2
      have hne : ¬ key = key2 := fun h => hnd2.1 (h ▸ h2)
      have h3 := hget key2 (List.mem_cons_of_mem _ h2)
      constructor
      · show Map.get (Map.put r0.keys key _) key2 = _
        rw [Map.get_put, if_neg hne, h3.1]
      · show Map.get (Map.put r0.sums key _) key2 = _
        rw [Map.get_put, if_neg hne, h3.2]

/-- C18: `getDep(cmd)` is the concatenation, in key order, of
`KeyInfo[k].getConflictCmds(cmd)` over the keys of the command, a key without
`KeyInfo` contributing nothing; and for a command whose keys are pairwise
distinct `getDepAndHashes(cmd, cmdId)` returns as dep what `getDep(cmd)` returns
on the state before the call (so an id absent from that dep, such as a fresh
`cmdId`, is not put into it by the command's own insertion), together with one
hash per key, the one that the checksum of that key before the call returns on
`update`. -/
theorem getDepAndHashes_dep_eq_getDep (x : Ext) (k : KeyOps) (r : Replica) (cmd : Command)
    (cmdId : CommandId) (hnd : (x.keysOf cmd).Nodup) :
    getDep x k r cmd = some (getDepSpec x k r cmd) ∧
    (getDepAndHashes x k r cmd cmdId).2.1 = getDep x k r cmd ∧
    (cmdId ∉ getDepSpec x k r cmd →
      Dep.Contains (getDepAndHashes x k r cmd cmdId).2.1 cmdId = false) ∧
    (getDepAndHashes x k r cmd cmdId).2.2 =
      some ((x.keysOf cmd).map (fun key =>
        (k.update ((Map.get r.sums key).getD k.newChecksum) cmd cmdId).2)) ∧
    ((getDepAndHashes x k r cmd cmdId).2.2.getD []).length = (x.keysOf cmd).length := by
  have h1 : getDep x k r cmd = some (getDepSpec x k r cmd) := by
    unfold getDep getDepSpec
    rw [getDep_fold]
    simp
  have h2 := getDepAndHashes_fold k cmd cmdId r (x.keysOf cmd) r [] [] hnd (fun _ _ => ⟨rfl, rfl⟩)
  have h3 : (getDepAndHashes x k r cmd cmdId).2.1 = some (getDepSpec x k r cmd) := by
    unfold getDepAndHashes getDepSpec
    dsimp only
    rw [h2]
    simp
  have h4 : (getDepAndHashes x k r cmd cmdId).2.2 =
      some ((x.keysOf cmd).map (fun key =>
        (k.update ((Map.get r.sums key).getD k.newChecksum) cmd cmdId).2)) := by
    unfold getDepAndHashes
    dsimp only
    rw [h2]
    simp
  refine ⟨h1, by rw [h3, h1], ?_, h4, by rw [h4]; simp⟩
  intro hc
  rw [h3]
  simpa [Dep.Contains, depList] using hc

/-- Witness of C18: the write (1, 1) on key 100 at a replica whose index holds
the write (2, 1) on that key. -/
theorem getDepAndHashes_dep_eq_getDep_witness :
    (extSingle.keysOf put100).Nodup ∧
    getDep extSingle keyOpsLog replicaIndexed put100 = some [c21] ∧
    (getDepAndHashes extSingle keyOpsLog replicaIndexed put100 c11).2.1 = some [c21] ∧
    (getDepAndHashes extSingle keyOpsLog replicaIndexed put100 c11).2.2 = some [2] ∧
    (getDepAndHashes extSingle keyOpsLog replicaIndexed put100 c11).1.keys =
      [(100, [(c21, 1), (c11, 1)])] :=
  ⟨by decide,
    (getDepAndHashes_dep_eq_getDep extSingle keyOpsLog replicaIndexed put100 c11 (by decide)).1.trans
      (by decide),
    by decide, by decide, by decide⟩

/-- C19: for a command without keys `getDep` and `getDepAndHashes` return an
empty dep, `getDepAndHashes` returns no hash, and the state (key index and
checksums included) is unchanged; and `deliver` on a descriptor with that empty
dep, a recorded propose and phase COMMIT, with exec enabled and `cmdId` not
delivered, marks `cmdId` delivered and executes the command in that call. -/
theorem empty_keyset_unblocks_delivery (x : Ext) (k : KeyOps) (r : Replica) (cmd : Command)
    (cmdId : CommandId) (desc : commandDesc) (hkeys : x.keysOf cmd = [])
    (hdep : desc.dep = (getDepAndHashes x k r cmd cmdId).2.1) (hp : desc.propose ≠ none)
    (hph : desc.phase = COMMIT) (hex : r.Exec = true) (hnd : r.hasDelivered cmdId = false) :
    getDep x k r cmd = some [] ∧
    getDepAndHashes x k r cmd cmdId = (r, some [], some []) ∧
    (getDepAndHashes x k r cmd cmdId).1.keys = r.keys ∧
    (getDepAndHashes x k r cmd cmdId).1.sums = r.sums ∧
    (deliver (getDepAndHashes x k r cmd cmdId).1 desc cmdId).hasDelivered cmdId = true ∧
    (deliver (getDepAndHashes x k r cmd cmdId).1 desc cmdId).delivered = r.delivered ++ [cmdId] ∧
    (deliver (getDepAndHashes x k r cmd cmdId).1 desc cmdId).executed = r.executed ++ [desc.cmd] := by
  have h1 : getDep x k r cmd = some [] := by
    unfold getDep
    rw [hkeys]
    rfl
  have h2 : getDepAndHashes x k r cmd cmdId = (r, some [], some []) := by
    unfold getDepAndHashes
    rw [hkeys]
    rfl
  rw [h2] at hdep
  have hd : deliver r desc cmdId =
      (if r.Dreply = false then
        { r with delivered := r.delivered ++ [cmdId]
                 executed := r.executed ++ [desc.cmd]
                 deliverChan := r.deliverChan ++ desc.successors }
      else
        { r with delivered := r.delivered ++ [cmdId]
                 executed := r.executed ++ [desc.cmd]
                 deliverChan := r.deliverChan ++ desc.successors
                 repchan := r.repchan.reply cmdId }) := by
    unfold deliver
    rw [if_neg (by simp [hp, hnd, hex]), if_neg (by simp [hph]), if_neg (by simp [hdep, depList])]
  rw [h2]
  refine ⟨h1, rfl, rfl, rfl, ?_, ?_, ?_⟩
  · show (deliver r desc cmdId).hasDelivered cmdId = true
    rw [hd]
    split_ifs <;> simp [Replica.hasDelivered]
  · show (deliver r desc cmdId).delivered = _
    rw [hd]
    split_ifs <;> rfl
  · show (deliver r desc cmdId).executed = _
    rw [hd]
    split_ifs <;> rfl

/-- Witness of C19: the committed command (1, 1), which has no key, at a
replica that has delivered nothing. -/
theorem empty_keyset_unblocks_delivery_witness :
    extNoKey.keysOf put100 = [] ∧
    (deliver (getDepAndHashes extNoKey keyOpsLog replicaIndexed put100 c11).1
      { descCommitted with dep := some [] } c11).delivered = replicaIndexed.delivered ++ [c11] :=
  ⟨rfl,
    (empty_keyset_unblocks_delivery extNoKey keyOpsLog replicaIndexed put100 c11
      { descCommitted with dep := some [] } rfl (by decide) (by decide) (by decide) (by decide)
      (by decide)).2.2.2.2.2.1⟩

/-! ### Acks of a recovery (C11, C20) -/

theorem AckSlices.Rep.snoc {s : AckSlices} {rows : List AckRow} (h : s.Rep rows)
    (c : CommandId) (ph : Int) (cmd : Command) (dep : Dep) (seen : List CommandId) :
    AckSlices.Rep { cmdIds := s.cmdIds ++ [c], phases := s.phases ++ [ph], cmds := s.cmds ++ [cmd]
                    deps := s.deps ++ [dep], seen := seen } (rows ++ [(c, ph, cmd, dep)]) := by
  obtain ⟨h1, h2, h3, h4⟩ := h
  refine ⟨?_, ?_, ?_, ?_⟩
  · show s.cmdIds ++ [c] = _
    rw [h1]; simp
  · show s.phases ++ [ph] = _
    rw [h2]; simp
  · show s.cmds ++ [cmd] = _
    rw [h3]; simp
  · show s.deps ++ [dep] = _
    rw [h4]; simp

theorem fillDesc_fold :
    ∀ (L : List (CommandId × commandDesc)) (acc : AckSlices) (rows : List AckRow),
      acc.Rep rows → (∀ id, id ∈ acc.seen ↔ id ∈ acc.cmdIds) → acc.cmdIds.Nodup →
      ∃ rows2, (L.foldl fillDescStep acc).Rep rows2 ∧
        (∀ id, id ∈ (L.foldl fillDescStep acc).seen ↔ id ∈ (L.foldl fillDescStep acc).cmdIds) ∧
        (L.foldl fillDescStep acc).cmdIds.Nodup ∧
        (∀ row, row ∈ rows2 → row ∈ rows ∨
          ∃ p pr, p ∈ L ∧ p.2.propose = some pr ∧ row = (proposeId pr, p.2.phase, p.2.cmd, p.2.dep)) ∧
        (∀ row, row ∈ rows → row ∈ rows2) ∧
        (∀ p pr, p ∈ L → p.2.propose = some pr →
          proposeId pr ∈ (L.foldl fillDescStep acc).cmdIds) := by
  intro L
  induction L with
  | nil =>
    intro acc rows hrep hseen hnd
    exact ⟨rows, hrep, hseen, hnd, fun row h => Or.inl h, fun row h => h,
      fun p pr hp => absurd hp (List.not_mem_nil _)⟩
  | cons p t ih =>
    intro acc rows hrep hseen hnd
    rw [List.foldl_cons]
    cases hpr : p.2.propose with
    | none =>
      have hstep : fillDescStep acc p = acc := by
        unfold fillDescStep
        rw [hpr]
      rw [hstep]
      obtain ⟨rows2, g1, g2, g3, g4, g5, g6⟩ := ih acc rows hrep hseen hnd
      refine ⟨rows2, g1, g2, g3, ?_, g5, ?_⟩
      · intro row hrow
        rcases g4 row hrow with h | ⟨q, pr, hq, h1, h2⟩
        · exact Or.inl h
        · exact Or.inr ⟨q, pr, List.mem_cons_of_mem _ hq, h1, h2⟩
      · intro q pr hq hq2
        rcases List.mem_cons.mp hq with rfl | hq3
        · rw [hpr] at hq2
          cases hq2
        · exact g6 q pr hq3 hq2
    | some pr0 =>
      by_cases hin : proposeId pr0 ∈ acc.seen
      · have hstep : fillDescStep acc p = acc := by
          unfold fillDescStep
          rw [hpr]
          exact if_pos hin
        rw [hstep]
        obtain ⟨rows2, g1, g2, g3, g4, g5, g6⟩ := ih acc rows hrep hseen hnd
        refine ⟨rows2, g1, g2, g3, ?_, g5, ?_⟩
        · intro row hrow
          rcases g4 row hrow with h | ⟨q, pr, hq, h1, h2⟩
          · exact Or.inl h
          · exact Or.inr ⟨q, pr, List.mem_cons_of_mem _ hq, h1, h2⟩
        · intro q pr hq hq2
          rcases List.mem_cons.mp hq with rfl | hq3
          · rw [hpr] at hq2
            cases hq2
            have h7 : proposeId pr0 ∈ rows.map (fun w => w.1) := hrep.1 ▸ (hseen _).mp hin
            obtain ⟨w, hw, hw1⟩ := List.mem_map.mp h7
            have h8 := List.mem_map_of_mem (fun w => w.1) (g5 w hw)
            rw [← g1.1] at h8
            exact hw1 ▸ h8
          · exact g6 q pr hq3 hq2
      · have hstep : fillDescStep acc p =
            { cmdIds := acc.cmdIds ++ [proposeId pr0], phases := acc.phases ++ [p.2.phase]
              cmds := acc.cmds ++ [p.2.cmd], deps := acc.deps ++ [p.2.dep]
              seen := acc.seen ++ [proposeId pr0] } := by
          unfold fillDescStep
          rw [hpr]
          exact if_neg hin
        rw [hstep]
        have hnin : proposeId pr0 ∉ acc.cmdIds := fun h => hin ((hseen _).mpr h)
        obtain ⟨rows2, g1, g2, g3, g4, g5, g6⟩ := ih _ _
          (hrep.snoc (proposeId pr0) p.2.phase p.2.cmd p.2.dep (acc.seen ++ [proposeId pr0]))
          (by
            intro id
            show id ∈ acc.seen ++ [proposeId pr0] ↔ id ∈ acc.cmdIds ++ [proposeId pr0]
            rw [List.mem_append, List.mem_append, hseen id])
          (by
            show (acc.cmdIds ++ [proposeId pr0]).Nodup
            rw [List.nodup_append]
            refine ⟨hnd, List.nodup_singleton _, ?_⟩
            intro a ha hb
            rw [List.mem_singleton] at hb
            exact hnin (hb ▸ ha))
        refine ⟨rows2, g1, g2, g3, ?_, fun row h => g5 row (List.mem_append_left _ h), ?_⟩
        · intro row hrow
          rcases g4 row hrow with h | ⟨q, pr, hq, h1, h2⟩
          · rcases List.mem_append.mp h with h3 | h3
            · exact Or.inl h3
            · rw [List.mem_singleton] at h3
              exact Or.inr ⟨p, pr0, List.mem_cons_self _ _, hpr, h3⟩
          · exact Or.inr ⟨q, pr, List.mem_cons_of_mem _ hq, h1, h2⟩
        · intro q pr hq hq2
          rcases List.mem_cons.mp hq with rfl | hq3
          · rw [hpr] at hq2
            cases hq2
            have h8 := List.mem_map_of_mem (fun w : AckRow => w.1)
              (g5 (proposeId pr0, q.2.phase, q.2.cmd, q.2.dep)
                (List.mem_append_right _ (List.mem_singleton_self _)))
            rw [← g1.1] at h8
            exact h8
          · exact g6 q pr hq3 hq2

theorem fillPropose_fold (r : Replica) :
    ∀ (P : List (CommandId × GPropose)) (acc : AckSlices) (rows : List AckRow),
      acc.Rep rows → acc.cmdIds.Nodup → (Map.keys P).Nodup →
      (∀ id, id ∈ Map.keys P → id ∈ acc.cmdIds → id ∈ acc.seen) →
      ∃ rows2, (P.foldl (fillProposeStep r) acc).Rep rows2 ∧
        (P.foldl (fillProposeStep r) acc).cmdIds.Nodup ∧
        (∀ row, row ∈ rows2 ↔ row ∈ rows ∨
          ∃ id, id ∈ Map.keys P ∧ id ∉ acc.seen ∧ r.hasDelivered id = false ∧
            row = (id, ACCEPT, NOOP, some [])) := by
  intro P
  induction P with
  | nil =>
    intro acc rows hrep hnd _ _
    refine ⟨rows, hrep, hnd, fun row => ⟨fun h => Or.inl h, ?_⟩⟩
    rintro (h | ⟨id, hid, _⟩)
    · exact h
    · exact absurd hid (List.not_mem_nil _)
  | cons p t ih =>
    intro acc rows hrep hnd hkeys hseen
    have hk2 : p.1 ∉ Map.keys t ∧ (Map.keys t).Nodup := List.nodup_cons.mp hkeys
    rw [List.foldl_cons]
    by_cases hskip : p.1 ∈ acc.seen ∨ r.hasDelivered p.1 = true
    · have hstep : fillProposeStep r acc p = acc := if_pos hskip
      rw [hstep]
      obtain ⟨rows2, g1, g2, g3⟩ := ih acc rows hrep hnd hk2.2
        (fun id hid => hseen id (List.mem_cons_of_mem _ hid))
      refine ⟨rows2, g1, g2, fun row => ?_⟩
      rw [g3 row]
      constructor
      · rintro (h | ⟨id, hid, h1, h2, h3⟩)
        · exact Or.inl h
        · exact Or.inr ⟨id, List.mem_cons_of_mem _ hid, h1, h2, h3⟩
      · rintro (h | ⟨id, hid, h1, h2, h3⟩)
        · exact Or.inl h
        · rcases List.mem_cons.mp hid with rfl | hid2
          · rcases hskip with h4 | h4
            · exact absurd h4 h1
            · rw [h2] at h4
              cases h4
          · exact Or.inr ⟨id, hid2, h1, h2, h3⟩
    · have hstep : fillProposeStep r acc p =
          { cmdIds := acc.cmdIds ++ [p.1], phases := acc.phases ++ [ACCEPT]
            cmds := acc.cmds ++ [NOOP], deps := acc.deps ++ [some []], seen := acc.seen } :=
        if_neg hskip
      rw [hstep]
      have hns : p.1 ∉ acc.seen := fun h => hskip (Or.inl h)
      have hnd1 : r.hasDelivered p.1 = false := by
        cases hd : r.hasDelivered p.1
        · rfl
        · exact absurd (Or.inr hd) hskip
      have hnin : p.1 ∉ acc.cmdIds := fun h => hns (hseen p.1 (List.mem_cons_self _ _) h)
      obtain ⟨rows2, g1, g2, g3⟩ := ih _ _ (hrep.snoc p.1 ACCEPT NOOP (some []) acc.seen)
        (by
          show (acc.cmdIds ++ [p.1]).Nodup
          rw [List.nodup_append]
          refine ⟨hnd, List.nodup_singleton _, ?_⟩
          intro a ha hb
          rw [List.mem_singleton] at hb
          exact hnin (hb ▸ ha))
        hk2.2
        (by
          intro id hid hmem
          show id ∈ acc.seen
          rcases List.mem_append.mp hmem with h | h
          · exact hseen id (List.mem_cons_of_mem _ hid) h
          · rw [List.mem_singleton] at h
            exact absurd (h ▸ hid) hk2.1)
      refine ⟨rows2, g1, g2, fun row => ?_⟩
      rw [g3 row]
      constructor
      · rintro (h | ⟨id, hid, h1, h2, h3⟩)
        · rcases List.mem_append.mp h with h4 | h4
          · exact Or.inl h4
          · rw [List.mem_singleton] at h4
            exact Or.inr ⟨p.1, List.mem_cons_self _ _, hns, hnd1, h4⟩
        · exact Or.inr ⟨id, List.mem_cons_of_mem _ hid, h1, h2, h3⟩
      · rintro (h | ⟨id, hid, h1, h2, h3⟩)
        · exact Or.inl (List.mem_append_left _ h)
        · rcases List.mem_cons.mp hid with rfl | hid2
          · exact Or.inl (List.mem_append_right _ (h3 ▸ List.mem_singleton_self _))
          · exact Or.inr ⟨id, hid2, h1, h2, h3⟩

theorem carried_iff_mem_rows (a : MNewLeaderAckN) (rows : List AckRow)
    (h1 : a.CmdIds = rows.map (fun w => w.1)) (h2 : a.Phases = rows.map (fun w => w.2.1))
    (h3 : a.Cmds = rows.map (fun w => w.2.2.1)) (h4 : a.Deps = rows.map (fun w => w.2.2.2))
    (c : CommandId) (ph : Int) (cmd : Command) (dep : Dep) :
    (∃ i, CarriedAt a i c ph cmd dep) ↔ (c, ph, cmd, dep) ∈ rows := by
  unfold CarriedAt
  rw [h1, h2, h3, h4]
  constructor
  · rintro ⟨i, e1, e2, e3, e4⟩
    rw [List.getElem?_map] at e1 e2 e3 e4
    cases hr : rows[i]? with
    | none =>
      rw [hr] at e1
      cases e1
    | some w =>
      rw [hr] at e1 e2 e3 e4
      simp only [Option.map_some', Option.some.injEq] at e1 e2 e3 e4
      obtain ⟨w1, w2, w3, w4⟩ := w
      simp only at e1 e2 e3 e4
      subst e1 e2 e3 e4
      exact List.mem_iff_getElem?.mpr ⟨i, hr⟩
  · intro hmem
    obtain ⟨i, hi⟩ := List.mem_iff_getElem?.mp hmem
    refine ⟨i, ?_, ?_, ?_, ?_⟩ <;> rw [List.getElem?_map, hi] <;> rfl

theorem filterMap_nodup_inj {α β : Type} (f : α → Option β) :
    ∀ (L : List α), (L.filterMap f).Nodup → ∀ p q v, p ∈ L → q ∈ L → f p = some v →
      f q = some v → p = q := by
  intro L
  induction L with
  | nil => intro _ p q v hp; exact absurd hp (List.not_mem_nil _)
  | cons x t ih =>
    intro hnd p q v hp hq hfp hfq
    have hmem : ∀ y, y ∈ t → f y = some v → v ∈ t.filterMap f :=
      fun y hy hfy => List.mem_filterMap.mpr ⟨y, hy, hfy⟩
    cases hfx : f x with
    | none =>
      rw [List.filterMap_cons_none hfx] at hnd
      rcases List.mem_cons.mp hp with rfl | hp2
      · rw [hfx] at hfp
        cases hfp
      · rcases List.mem_cons.mp hq with rfl | hq2
        · rw [hfx] at hfq
          cases hfq
        · exact ih hnd p q v hp2 hq2 hfp hfq
    | some u =>
      rw [List.filterMap_cons_some hfx] at hnd
      obtain ⟨hnu, hnd2⟩ := List.nodup_cons.mp hnd
      rcases List.mem_cons.mp hp with rfl | hp2
      · rcases List.mem_cons.mp hq with rfl | hq2
        · rfl
        · rw [hfx] at hfp
          cases hfp
          exact absurd (hmem q hq2 hfq) hnu
      · rcases List.mem_cons.mp hq with rfl | hq2
        · rw [hfx] at hfq
          cases hfq
          exact absurd (hmem p hp2 hfp) hnu
        · exact ih hnd2 p q v hp2 hq2 hfp hfq

theorem fillNewLeaderAckN_spec (r : Replica) (a : MNewLeaderAckN)
    (hP : (Map.keys r.proposes).Nodup) :
    (fillNewLeaderAckN r a).WellFormed ∧ (fillNewLeaderAckN r a).CmdIds.Nodup ∧
    (r.ProposeIdsDistinct → ∀ key d pr, (key, d) ∈ r.cmdDescs → d.propose = some pr →
      ∃ i, CarriedAt (fillNewLeaderAckN r a) i (proposeId pr) d.phase d.cmd d.dep) ∧
    (∀ id, id ∈ Map.keys r.proposes → r.hasDelivered id = false →
      (∀ key d pr, (key, d) ∈ r.cmdDescs → d.propose = some pr → proposeId pr ≠ id) →
      ∃ i, CarriedAt (fillNewLeaderAckN r a) i id ACCEPT NOOP (some [])) ∧
    (∀ i id ph cmd dep, CarriedAt (fillNewLeaderAckN r a) i id ph cmd dep →
      (∃ key d pr, (key, d) ∈ r.cmdDescs ∧ d.propose = some pr ∧ id = proposeId pr ∧
        ph = d.phase ∧ cmd = d.cmd ∧ dep = d.dep) ∨
      (id ∈ Map.keys r.proposes ∧ r.hasDelivered id = false ∧
        (∀ key d pr, (key, d) ∈ r.cmdDescs → d.propose = some pr → proposeId pr ≠ id) ∧
        ph = ACCEPT ∧ cmd = NOOP ∧ dep = some [])) := by
  obtain ⟨rows1, d1, d2, d3, d4, _, d6⟩ := fillDesc_fold r.cmdDescs {} []
    ⟨rfl, rfl, rfl, rfl⟩ (fun id => Iff.rfl) List.nodup_nil
  obtain ⟨rows2, p1, p2, p3⟩ := fillPropose_fold r r.proposes _ rows1 d1 d3 hP
    (fun id _ h => (d2 id).mpr h)
  have hc := carried_iff_mem_rows (fillNewLeaderAckN r a) rows2 p1.1 p1.2.1 p1.2.2.1 p1.2.2.2
  have hseen : ∀ id, id ∈ (r.cmdDescs.foldl fillDescStep {}).seen ↔
      ∃ key d pr, (key, d) ∈ r.cmdDescs ∧ d.propose = some pr ∧ proposeId pr = id := by
    intro id
    rw [d2 id, d1.1]
    constructor
    · intro h
      obtain ⟨w, hw, hw1⟩ := List.mem_map.mp h
      rcases d4 w hw with h0 | ⟨p, pr, hp, hpr, hrow⟩
      · exact absurd h0 (List.not_mem_nil _)
      · refine ⟨p.1, p.2, pr, hp, hpr, ?_⟩
        rw [← hw1, hrow]
    · rintro ⟨key, d, pr, hmem, hpr, rfl⟩
      have := d6 (key, d) pr hmem hpr
      rw [d1.1] at this
      exact this
  refine ⟨?_, p2, ?_, ?_, ?_⟩
  · refine ⟨?_, ?_, ?_⟩
    · show (r.proposes.foldl (fillProposeStep r) _).cmdIds.length = _
      rw [p1.1]
      show _ = (r.proposes.foldl (fillProposeStep r) _).phases.length
      rw [p1.2.1, List.length_map, List.length_map]
    · show (r.proposes.foldl (fillProposeStep r) _).cmds.length =
        (r.proposes.foldl (fillProposeStep r) _).phases.length
      rw [p1.2.1, p1.2.2.1, List.length_map, List.length_map]
    · show (r.proposes.foldl (fillProposeStep r) _).deps.length =
        (r.proposes.foldl (fillProposeStep r) _).phases.length
      rw [p1.2.1, p1.2.2.2, List.length_map, List.length_map]
  · intro hD key d pr hmem hpr
    rw [hc, p3]
    left
    have h6 := d6 (key, d) pr hmem hpr
    rw [d1.1] at h6
    obtain ⟨w, hw, hw1⟩ := List.mem_map.mp h6
    rcases d4 w hw with h0 | ⟨q, pr2, hq, hpr2, hrow⟩
    · exact absurd h0 (List.not_mem_nil _)
    · have hid : proposeId pr2 = proposeId pr := by
        rw [← hw1, hrow]
      have heq : q = (key, d) :=
        filterMap_nodup_inj (fun p : CommandId × commandDesc => p.2.propose.map proposeId)
          r.cmdDescs hD q (key, d) (proposeId pr) hq hmem
          (by show q.2.propose.map proposeId = _; rw [hpr2, Option.map_some', hid])
          (by show d.propose.map proposeId = _; rw [hpr, Option.map_some'])
      rw [heq] at hrow
      rw [hrow, hid] at hw
      exact hw
  · intro id hid hnd hno
    rw [hc, p3]
    right
    refine ⟨id, hid, ?_, hnd, rfl⟩
    intro hs
    obtain ⟨key, d, pr, hmem, hpr, heq⟩ := (hseen id).mp hs
    exact hno key d pr hmem hpr heq
  · intro i id ph cmd dep hcar
    have hrow := (p3 _).mp ((hc id ph cmd dep).mp ⟨i, hcar⟩)
    rcases hrow with h | ⟨id2, hid, hns, hnd, heq⟩
    · rcases d4 _ h with h0 | ⟨q, pr, hq, hpr, hrow2⟩
      · exact absurd h0 (List.not_mem_nil _)
      · simp only [Prod.mk.injEq] at hrow2
        exact Or.inl ⟨q.1, q.2, pr, hq, hpr, hrow2.1, hrow2.2.1, hrow2.2.2.1, hrow2.2.2.2⟩
    · simp only [Prod.mk.injEq] at heq
      obtain ⟨rfl, e2, e3, e4⟩ := heq
      refine Or.inr ⟨hid, hnd, ?_, e2, e3, e4⟩
      intro key d pr hmem hpr heq2
      exact hns ((hseen id).mpr ⟨key, d, pr, hmem, hpr, heq2⟩)

/-- C20: `fillNewLeaderAckN` fills `CmdIds`, `Phases`, `Cmds` and `Deps` with
slices of one length in which no command id occurs twice (the keys of the
`proposes` map being distinct).  When no two descriptors bear a propose of the
same id, every descriptor that bears a propose is carried with its own phase,
cmd and dep under the id of its propose; every entry of `proposes` whose id no
propose-bearing descriptor has and that is not delivered is carried with phase
ACCEPT, the NOOP command and an empty dep; and every index of the slices
carries one of these two. -/
theorem fillNewLeaderAckN_slices (r : Replica) (a : MNewLeaderAckN)
    (hP : (Map.keys r.proposes).Nodup) :
    (fillNewLeaderAckN r a).CmdIds.length = (fillNewLeaderAckN r a).Phases.length ∧
    (fillNewLeaderAckN r a).Cmds.length = (fillNewLeaderAckN r a).Phases.length ∧
    (fillNewLeaderAckN r a).Deps.length = (fillNewLeaderAckN r a).Phases.length ∧
    (fillNewLeaderAckN r a).CmdIds.Nodup ∧
    (r.ProposeIdsDistinct → ∀ key d pr, (key, d) ∈ r.cmdDescs → d.propose = some pr →
      ∃ i, CarriedAt (fillNewLeaderAckN r a) i (proposeId pr) d.phase d.cmd d.dep) ∧
    (∀ id, id ∈ Map.keys r.proposes → r.hasDelivered id = false →
      (∀ key d pr, (key, d) ∈ r.cmdDescs → d.propose = some pr → proposeId pr ≠ id) →
      ∃ i, CarriedAt (fillNewLeaderAckN r a) i id ACCEPT NOOP (some [])) ∧
    (∀ i id ph cmd dep, CarriedAt (fillNewLeaderAckN r a) i id ph cmd dep →
      (∃ key d pr, (key, d) ∈ r.cmdDescs ∧ d.propose = some pr ∧ id = proposeId pr ∧
        ph = d.phase ∧ cmd = d.cmd ∧ dep = d.dep) ∨
      (id ∈ Map.keys r.proposes ∧ r.hasDelivered id = false ∧
        (∀ key d pr, (key, d) ∈ r.cmdDescs → d.propose = some pr → proposeId pr ≠ id) ∧
        ph = ACCEPT ∧ cmd = NOOP ∧ dep = some [])) ∧
    (fillNewLeaderAckN r a).Replica = a.Replica ∧ (fillNewLeaderAckN r a).Ballot = a.Ballot ∧
    (fillNewLeaderAckN r a).Cballot = a.Cballot := by
  obtain ⟨⟨w1, w2, w3⟩, h2, h3, h4, h5⟩ := fillNewLeaderAckN_spec r a hP
  exact ⟨w1, w2, w3, h2, h3, h4, h5, rfl, rfl, rfl⟩

/-- Witness of C20: replica 1 holds the committed descriptor of (1, 1) and the
pending propose of (2, 1); its ack carries (1, 1) with the values of the
descriptor and (2, 1) as an accepted NOOP. -/
theorem fillNewLeaderAckN_slices_witness :
    (Map.keys freshCommitted.proposes).Nodup ∧
    fillNewLeaderAckN freshCommitted { Replica := 1, Ballot := 2, Cballot := 1 } =
      { Replica := 1, Ballot := 2, Cballot := 1, CmdIds := [c11, c21], Phases := [COMMIT, ACCEPT]
        Cmds := [put100, NOOP], Deps := [some [c21], some []] } ∧
    (fillNewLeaderAckN freshCommitted { Replica := 1, Ballot := 2, Cballot := 1 }).CmdIds.Nodup :=
  ⟨by decide, by decide,
    (fillNewLeaderAckN_slices freshCommitted { Replica := 1, Ballot := 2, Cballot := 1 }
      (by decide)).2.2.2.1⟩

/-- C11, as stated, fails on two counts.  Replica 2 holds (1, 1) at COMMIT in a
descriptor that a sync installed and that bears no propose: its ack does not
carry (1, 1).  Replica 0 holds (2, 1) at COMMIT with its propose, so its ack
carries it, but its `Cballot` 0 is below the `Cballot` 1 of replica 2, so
`handleNewLeaderAckNs` leaves that ack out.  The Sync emitted from the two acks
holds neither command. -/
theorem sync_misses_committed :
    (leaderRecovering.desc c11).phase = COMMIT ∧ (leaderRecovering.desc c11).propose = none ∧
    (staleCommitted.desc c21).phase = COMMIT ∧
    acksLost =
      [ { Replica := 2, Ballot := 2, Cballot := 1 },
        { Replica := 0, Ballot := 2, Cballot := 0, CmdIds := [c21], Phases := [COMMIT]
          Cmds := [put100], Deps := [some []] } ] ∧
    buildSync leaderRecovering acksLost = some { Replica := 2, Ballot := 2 } ∧
    (handleNewLeaderAckNs extSingle leaderRecovering acksLost).map (fun s => s.sent) =
      some (leaderRecovering.sent ++ [Out.sendToAllSync { Replica := 2, Ballot := 2 }]) := by
  decide

/-- C11, amended: for every replica whose ack, built by `fillNewLeaderAckN`, has
the maximal `Cballot` among the acks that `handleNewLeaderAckNs` handles (each
ack with its four slices of one length and a `Cballot` that is not negative),
every command whose descriptor at that replica bore a propose and had phase
COMMIT when the ack was built is present in the emitted Sync, under the id of
that propose, with phase ACCEPT or COMMIT; no two descriptors of that replica
bear a propose of the same id. -/
theorem sync_holds_reported_commits (x : Ext) (r : Replica) (msgs : List MNewLeaderAckN)
    (rq : Replica) (a0 : MNewLeaderAckN) (key : CommandId) (d : commandDesc) (pr : GPropose)
    (hcb : ∀ a ∈ msgs, 0 ≤ a.Cballot) (hwf : ∀ a ∈ msgs, a.WellFormed)
    (hmax : HasMaxCballot msgs (fillNewLeaderAckN rq a0))
    (hP : (Map.keys rq.proposes).Nodup) (hD : rq.ProposeIdsDistinct)
    (hmem : (key, d) ∈ rq.cmdDescs) (hpr : d.propose = some pr) (hph : d.phase = COMMIT) :
    ∃ sync, buildSync r msgs = some sync ∧
      handleNewLeaderAckNs x r msgs =
        some (handleSync x (r.send (Out.sendToAllSync sync)) sync) ∧
      ∃ ph, Map.get sync.Phases (proposeId pr) = some ph ∧ (ph = ACCEPT ∨ ph = COMMIT) ∧
        ACCEPT ≤ ph := by
  have hne : msgs ≠ [] := List.ne_nil_of_mem hmax.1
  obtain ⟨mc, u, hsel, hu⟩ := selectU_spec msgs hne hcb
  have hwfu : ∀ a ∈ u, a.WellFormed := fun a ha => hwf a ((hu a).mp ha).1
  have hinit : SyncInv (fun _ _ _ _ => False) ({} : SyncMaps) :=
    ⟨rfl, rfl, by intro c hc; simp [Map.keys] at hc, by intro c ph cmd dep h; exact h.elim⟩
  obtain ⟨m, hm, _, _, hval, hkey⟩ := syncMapsOf_fold u hwfu _ _ hinit
  have hb : buildSync r msgs = some
      { Replica := r.Id, Ballot := r.ballot, Phases := m.phases, Cmds := m.cmds, Deps := m.deps } := by
    simp only [buildSync, hsel, Option.getD_some, syncMapsOf, hm]
  obtain ⟨i, c1, c2, c3, c4⟩ := (fillNewLeaderAckN_spec rq a0 hP).2.2.1 hD key d pr hmem hpr
  have hrep : Reported u (proposeId pr) d.phase d.cmd d.dep :=
    ⟨_, (hu _).mpr hmax, i, c1, c2, c3, c4, Or.inl hph⟩
  obtain ⟨ph, cmd, dep, g1, _, _, hS⟩ := hval _ (hkey _ _ _ _ (Or.inr hrep))
  refine ⟨_, hb, by simp only [handleNewLeaderAckNs, hb], ph, g1, ?_⟩
  rcases hS with hS | ⟨a, _, j, hr⟩
  · exact hS.elim
  · rcases hr.2.2.2.2 with h5 | h5
    · exact ⟨Or.inr h5, by rw [h5]; decide⟩
    · exact ⟨Or.inl h5, by rw [h5]⟩

theorem acksKept_wellFormed : ∀ a ∈ acksKept, 0 ≤ a.Cballot ∧ a.WellFormed := by
  intro a ha
  have h : a = fillNewLeaderAckN freshCommitted
        { Replica := 1, Ballot := 2, Cballot := freshCommitted.cballot } ∨
      a = fillNewLeaderAckN staleCommitted
        { Replica := 0, Ballot := 2, Cballot := staleCommitted.cballot } := by
    simpa [acksKept] using ha
  rcases h with rfl | rfl
  · exact ⟨by decide, by decide, by decide, by decide⟩
  · exact ⟨by decide, by decide, by decide, by decide⟩

/-- Witness of C11 (amended): replica 1 reports with the maximal `Cballot` its
committed command (1, 1), and the Sync holds it at COMMIT. -/
theorem sync_holds_reported_commits_witness :
    (buildSync leaderRecovering acksKept).map (fun sync => Map.get sync.Phases c11) =
      some (some COMMIT) ∧
    ∃ sync, buildSync leaderRecovering acksKept = some sync ∧
      handleNewLeaderAckNs extSingle leaderRecovering acksKept =
        some (handleSync extSingle (leaderRecovering.send (Out.sendToAllSync sync)) sync) ∧
      ∃ ph, Map.get sync.Phases (proposeId propose11) = some ph ∧ (ph = ACCEPT ∨ ph = COMMIT) ∧
        ACCEPT ≤ ph :=
  ⟨by decide,
    sync_holds_reported_commits extSingle leaderRecovering acksKept freshCommitted
      { Replica := 1, Ballot := 2, Cballot := freshCommitted.cballot } c11 descCommitted propose11
      (fun a ha => (acksKept_wellFormed a ha).1) (fun a ha => (acksKept_wellFormed a ha).2)
      ⟨by decide, fun b hb => by
        have h : b = fillNewLeaderAckN freshCommitted
              { Replica := 1, Ballot := 2, Cballot := freshCommitted.cballot } ∨
            b = fillNewLeaderAckN staleCommitted
              { Replica := 0, Ballot := 2, Cballot := staleCommitted.cballot } := by
          simpa [acksKept] using hb
        rcases h with rfl | rfl <;> decide⟩
      (by decide) (by unfold Replica.ProposeIdsDistinct; decide) (by decide) rfl rfl⟩

/-! ### CURP client (C14, C15) -/

namespace Curp

theorem Map.put_of_get_none {κ α : Type} [DecidableEq κ] (m : List (κ × α)) (k : κ)
    (v : α) (h : Map.get m k = none) : Map.put m k v = m ++ [(k, v)] := by
  induction m with
  | nil => rfl
  | cons p t ih =>
    obtain ⟨k1, v1⟩ := p
    by_cases h1 : k1 = k
    · simp [Map.get, h1] at h
    · simp only [Map.get, if_neg h1] at h
      simp only [Map.put, if_neg h1, List.cons_append, ih h]

theorem wrap32_succ (n : Int) : wrap32 (wrap32 n + 1) = wrap32 (n + 1) := by
  unfold wrap32
  omega

theorem wrap32_of_lt (n : Int) (h0 : 0 ≤ n) (h1 : n < 2147483648) : wrap32 n = n := by
  unfold wrap32
  omega

theorem handleAcks_delivers (c : Client) (leaderMsg : Option MRecordAck)
    (msgs : List MRecordAck) : Delivers c (handleAcks c leaderMsg msgs) := by
  unfold handleAcks
  cases leaderMsg with
  | none => exact Or.inl ⟨rfl, rfl, rfl⟩
  | some lm =>
    dsimp only
    by_cases hd : (Map.get c.delivered lm.CmdId.SeqNum).isSome = true
    · rw [if_pos hd]
      exact Or.inl ⟨rfl, rfl, rfl⟩
    · rw [if_neg hd]
      have hn : Map.get c.delivered lm.CmdId.SeqNum = none := by
        cases hg : Map.get c.delivered lm.CmdId.SeqNum with
        | none => rfl
        | some u => rw [hg] at hd; exact absurd rfl hd
      exact Or.inr ⟨lm.CmdId.SeqNum, c.val, hn, Map.put_of_get_none _ _ _ hn, rfl, rfl⟩

theorem deliverSyncReply_delivers (c : Client) (rep : MSyncReply)
    (hn : Map.get c.delivered rep.CmdId.SeqNum = none) :
    ∃ k v, Map.get c.delivered k = none ∧
      (deliverSyncReply c rep).delivered = c.delivered ++ [(k, ())] ∧
      (deliverSyncReply c rep).lastCmdId.SeqNum = wrap32 (c.lastCmdId.SeqNum + 1) ∧
      (deliverSyncReply c rep).ResChan = c.ResChan ++ [v] :=
  ⟨rep.CmdId.SeqNum, rep.Rep, hn, Map.put_of_get_none _ _ _ hn, rfl, rfl⟩

theorem handleSyncReply_delivers (c : Client) (rep : MSyncReply) :
    Delivers c (handleSyncReply c rep) := by
  unfold handleSyncReply
  by_cases hd : (Map.get c.delivered rep.CmdId.SeqNum).isSome = true
  · rw [if_pos hd]
    exact Or.inl ⟨rfl, rfl, rfl⟩
  · rw [if_neg hd]
    have hn : Map.get c.delivered rep.CmdId.SeqNum = none := by
      cases hg : Map.get c.delivered rep.CmdId.SeqNum with
      | none => rfl
      | some u => rw [hg] at hd; exact absurd rfl hd
    split_ifs
    · exact Or.inr (deliverSyncReply_delivers { c with ballot := rep.Ballot } rep hn)
    · exact Or.inr (deliverSyncReply_delivers (reinitAcks { c with ballot := rep.Ballot }) rep hn)
    · exact Or.inl ⟨rfl, rfl, rfl⟩
    · exact Or.inr (deliverSyncReply_delivers c rep hn)

theorem CountInv.of_delivers {c c2 : Client} (h : Delivers c c2) (hc : CountInv c) :
    CountInv c2 := by
  rcases h with ⟨h1, h2, h3⟩ | ⟨k, v, _, h1, h2, h3⟩
  · unfold CountInv
    rw [h1, h2, h3]
    exact hc
  · unfold CountInv
    rw [h1, h2, h3, hc.1, wrap32_succ]
    simp only [List.length_append, List.length_singleton, Nat.cast_add, Nat.cast_one, hc.2,
      and_self]

theorem CountInv.of_frame {c c2 : Client} (h1 : c2.delivered = c.delivered)
    (h2 : c2.lastCmdId = c.lastCmdId) (h3 : c2.ResChan = c.ResChan) (hc : CountInv c) :
    CountInv c2 :=
  CountInv.of_delivers (Or.inl ⟨h1, h2, h3⟩) hc

theorem acksAdd_countInv (c : Client) (repId : Int) (isLeader : Bool) (msg : MRecordAck)
    (hc : CountInv c) : CountInv (acksAdd c repId isLeader msg) := by
  unfold acksAdd
  dsimp only
  split
  · split_ifs
    · exact CountInv.of_frame rfl rfl rfl hc
    · exact CountInv.of_frame rfl rfl rfl hc
  · apply CountInv.of_delivers (handleAcks_delivers _ _ _)
    split_ifs
    · exact CountInv.of_frame rfl rfl rfl hc
    · exact CountInv.of_frame rfl rfl rfl hc

theorem macksAdd_countInv (c : Client) (repId : Int) (isLeader : Bool) (msg : MRecordAck)
    (hc : CountInv c) : CountInv (macksAdd c repId isLeader msg) := by
  unfold macksAdd
  dsimp only
  split
  · exact CountInv.of_frame rfl rfl rfl hc
  · exact CountInv.of_delivers (handleAcks_delivers _ _ _) (CountInv.of_frame rfl rfl rfl hc)

theorem recordAck_countInv (c : Client) (r : MRecordAck) (fromLeader : Bool)
    (hc : CountInv c) : CountInv (recordAck c r fromLeader) := by
  have h1 : CountInv (if fromLeader = true then
      macksAdd { c with leader := r.Replica } r.Replica true r else c) := by
    split_ifs
    · exact macksAdd_countInv _ _ _ _ (CountInv.of_frame rfl rfl rfl hc)
    · exact hc
  unfold recordAck
  dsimp only
  by_cases ho : r.Ok = ORDERED
  · rw [if_pos ho]
    exact macksAdd_countInv _ _ _ _ h1
  · rw [if_neg ho]
    exact acksAdd_countInv _ _ _ _ h1

theorem handleRecordAck_countInv (c : Client) (r : MRecordAck) (fromLeader : Bool)
    (hc : CountInv c) : CountInv (handleRecordAck c r fromLeader) := by
  unfold handleRecordAck
  split_ifs
  · exact hc
  · exact recordAck_countInv _ _ _ (CountInv.of_frame rfl rfl rfl hc)
  · exact recordAck_countInv _ _ _ (CountInv.of_frame rfl rfl rfl hc)
  · exact hc
  · exact recordAck_countInv _ _ _ hc

theorem handleMsgs_countInv (c : Client) (ev : Event) (hc : CountInv c) :
    CountInv (handleMsgs c ev) := by
  unfold handleMsgs
  by_cases hs : c.stopped = true
  · rw [if_pos hs]
    exact hc
  · rw [if_neg hs]
    cases ev with
    | reply rep =>
      dsimp only
      split_ifs
      · unfold handleReply
        split_ifs
        · exact hc
        · exact handleRecordAck_countInv _ _ _ (CountInv.of_frame rfl rfl rfl hc)
      · exact hc
    | recordAck recAck =>
      dsimp only
      split_ifs
      · exact handleRecordAck_countInv _ _ _ hc
      · exact hc
    | syncReply rep =>
      dsimp only
      split_ifs
      · exact CountInv.of_delivers (handleSyncReply_delivers _ _) hc
      · exact hc
    | timer needSync =>
      dsimp only
      split_ifs
      · exact CountInv.of_frame rfl rfl rfl hc
      · exact CountInv.of_frame rfl rfl rfl hc
      · exact hc

theorem reachable_countInv (c : Client) (hr : Reachable c) : CountInv c := by
  induction hr with
  | init clientId N Q M =>
    refine ⟨?_, rfl⟩
    show (0 : Int) = wrap32 ((0 : Nat) : Int)
    unfold wrap32
    norm_num
  | acks c leaderMsg msgs _ ih => exact CountInv.of_delivers (handleAcks_delivers _ _ _) ih
  | syncReply c rep _ ih => exact CountInv.of_delivers (handleSyncReply_delivers _ _) ih
  | msg c ev _ ih => exact handleMsgs_countInv _ _ ih

theorem delivers_step (c c2 : Client) (hc : CountInv c) (hb : c.delivered.length < 2147483647)
    (h : Delivers c c2) :
    c.lastCmdId.SeqNum ≤ c2.lastCmdId.SeqNum ∧
    c2.lastCmdId.SeqNum = c2.delivered.length ∧ c2.ResChan.length = c2.delivered.length ∧
    ((c2.ResChan = c.ResChan ∧ c2.delivered = c.delivered ∧
        c2.lastCmdId.SeqNum = c.lastCmdId.SeqNum) ∨
      (∃ k v, Map.get c.delivered k = none ∧ c2.ResChan = c.ResChan ++ [v] ∧
        c2.delivered = c.delivered ++ [(k, ())] ∧
        c2.lastCmdId.SeqNum = c.lastCmdId.SeqNum + 1)) := by
  have hc2 := CountInv.of_delivers h hc
  have e1 : c.lastCmdId.SeqNum = c.delivered.length := by
    rw [hc.1]
    exact wrap32_of_lt _ (by omega) (by omega)
  rcases h with ⟨h1, h2, h3⟩ | ⟨k, v, hk, h1, h2, h3⟩
  · refine ⟨by rw [h2], ?_, hc2.2, Or.inl ⟨h3, h1, by rw [h2]⟩⟩
    rw [h2, h1]
    exact e1
  · have e2 : c2.lastCmdId.SeqNum = c.lastCmdId.SeqNum + 1 := by
      rw [h2, e1]
      exact wrap32_of_lt _ (by omega) (by omega)
    refine ⟨by omega, ?_, hc2.2, Or.inr ⟨k, v, hk, h3, h1, e2⟩⟩
    rw [e2, e1, h1]
    simp

theorem deliverMany_spec (n : Nat) :
    Reachable (deliverMany n) ∧
    (deliverMany n).delivered = (List.range n).map (fun k : Nat => (Int.ofNat k, ())) ∧
    (deliverMany n).lastCmdId.SeqNum = wrap32 n ∧ (deliverMany n).ResChan.length = n := by
  induction n with
  | zero =>
    refine ⟨Reachable.init _ _ _ _, rfl, ?_, rfl⟩
    show (0 : Int) = wrap32 ((0 : Nat) : Int)
    unfold wrap32
    norm_num
  | succ n ih =>
    obtain ⟨h1, h2, h3, h4⟩ := ih
    have hn : Map.get (deliverMany n).delivered (ackOf n).CmdId.SeqNum = none := by
      cases hg : Map.get (deliverMany n).delivered (ackOf n).CmdId.SeqNum with
      | none => rfl
      | some u =>
        have hk := (Paxoi.Map.mem_keys_iff (deliverMany n).delivered _).mpr ⟨u, hg⟩
        rw [h2] at hk
        simp [Map.keys, ackOf] at hk
    have hstep : deliverMany (n + 1) =
        { reinitAcks
            { deliverMany n with
                delivered := Map.put (deliverMany n).delivered (ackOf n).CmdId.SeqNum ()
                lastCmdId := { (deliverMany n).lastCmdId with
                  SeqNum := wrap32 ((deliverMany n).lastCmdId.SeqNum + 1) }
                ResChan := (deliverMany n).ResChan ++ [(deliverMany n).val]
                ready := (deliverMany n).ready + 1 } with
          timerResets := (deliverMany n).timerResets + 1 } := by
      show handleAcks (deliverMany n) (some (ackOf n)) [] = _
      unfold handleAcks
      dsimp only
      rw [hn]
      rfl
    refine ⟨Reachable.acks _ _ _ h1, ?_, ?_, ?_⟩
    · rw [hstep]
      show Map.put (deliverMany n).delivered (ackOf n).CmdId.SeqNum () = _
      rw [Map.put_of_get_none _ _ _ hn, h2, List.range_succ, List.map_append]
      rfl
    · rw [hstep]
      show wrap32 ((deliverMany n).lastCmdId.SeqNum + 1) = _
      rw [h3, wrap32_succ]
      rfl
    · rw [hstep]
      show ((deliverMany n).ResChan ++ [(deliverMany n).val]).length = _
      rw [List.length_append, h4]
      rfl

end Curp

namespace Curp

theorem deliverMany_succ (n : Nat) :
    deliverMany (n + 1) = handleAcks (deliverMany n) (some (ackOf n)) [] := rfl

/-- C14, as stated, fails once the `int32` sequence number is exhausted: after
2147483647 deliveries through `handleAcks` (leader acks of the sequence numbers
0 to 2147483646) the client is reachable, its sequence number is 2147483647 and
its delivered set has as many entries; the next `handleAcks`, on the ack of
sequence number 2147483647, delivers one more value and `lastCmdId.SeqNum++`
wraps to -2147483648: the sequence number decreases and no longer equals the
number of entries of the delivered set. -/
theorem seqNum_wraps_after_max_int32 :
    Reachable (deliverMany 2147483647) ∧
    (deliverMany 2147483647).lastCmdId.SeqNum = 2147483647 ∧
    (deliverMany 2147483647).delivered.length = 2147483647 ∧
    Reachable (handleAcks (deliverMany 2147483647) (some (ackOf 2147483647)) []) ∧
    (handleAcks (deliverMany 2147483647) (some (ackOf 2147483647)) []).lastCmdId.SeqNum =
      -2147483648 ∧
    (handleAcks (deliverMany 2147483647) (some (ackOf 2147483647)) []).delivered.length =
      2147483648 ∧
    (handleAcks (deliverMany 2147483647) (some (ackOf 2147483647)) []).ResChan.length =
      (deliverMany 2147483647).ResChan.length + 1 := by
  obtain ⟨a1, a2, a3, a4⟩ := deliverMany_spec 2147483647
  obtain ⟨b1, b2, b3, b4⟩ := deliverMany_spec (2147483647 + 1)
  rw [deliverMany_succ] at b1 b2 b3 b4
  refine ⟨a1, ?_, ?_, b1, ?_, ?_, ?_⟩
  · rw [a3]
    unfold wrap32
    norm_num
  · rw [a2, List.length_map, List.length_range]
  · rw [b3]
    unfold wrap32
    norm_num
  · rw [b2, List.length_map, List.length_range]
  · rw [b4, a4]

/-- C14, amended: in every state of the CURP client reachable from the initial
state through `handleAcks` and `handleSyncReply` (and the turns of the message
loop) in which fewer than 2147483647 values have been delivered,
`lastCmdId.SeqNum` equals the number of entries of the delivered set and the
number of values posted on the result channel; and a call of `handleAcks` or of
`handleSyncReply` in such a state does not decrease it: either nothing is
delivered and it is unchanged, or one value is posted on the result channel,
the delivered set gains one entry and it grows by exactly one. -/
theorem seqNum_counts_deliveries (c : Client) (hr : Reachable c)
    (hb : c.delivered.length < 2147483647) :
    c.lastCmdId.SeqNum = c.delivered.length ∧ c.ResChan.length = c.delivered.length ∧
    (∀ leaderMsg msgs,
      c.lastCmdId.SeqNum ≤ (handleAcks c leaderMsg msgs).lastCmdId.SeqNum ∧
      (handleAcks c leaderMsg msgs).lastCmdId.SeqNum =
        (handleAcks c leaderMsg msgs).delivered.length ∧
      (handleAcks c leaderMsg msgs).ResChan.length =
        (handleAcks c leaderMsg msgs).delivered.length ∧
      (((handleAcks c leaderMsg msgs).ResChan = c.ResChan ∧
          (handleAcks c leaderMsg msgs).delivered = c.delivered ∧
          (handleAcks c leaderMsg msgs).lastCmdId.SeqNum = c.lastCmdId.SeqNum) ∨
        (∃ k v, Map.get c.delivered k = none ∧
          (handleAcks c leaderMsg msgs).ResChan = c.ResChan ++ [v] ∧
          (handleAcks c leaderMsg msgs).delivered = c.delivered ++ [(k, ())] ∧
          (handleAcks c leaderMsg msgs).lastCmdId.SeqNum = c.lastCmdId.SeqNum + 1))) ∧
    (∀ rep,
      c.lastCmdId.SeqNum ≤ (handleSyncReply c rep).lastCmdId.SeqNum ∧
      (handleSyncReply c rep).lastCmdId.SeqNum = (handleSyncReply c rep).delivered.length ∧
      (handleSyncReply c rep).ResChan.length = (handleSyncReply c rep).delivered.length ∧
      (((handleSyncReply c rep).ResChan = c.ResChan ∧
          (handleSyncReply c rep).delivered = c.delivered ∧
          (handleSyncReply c rep).lastCmdId.SeqNum = c.lastCmdId.SeqNum) ∨
        (∃ k v, Map.get c.delivered k = none ∧
          (handleSyncReply c rep).ResChan = c.ResChan ++ [v] ∧
          (handleSyncReply c rep).delivered = c.delivered ++ [(k, ())] ∧
          (handleSyncReply c rep).lastCmdId.SeqNum = c.lastCmdId.SeqNum + 1))) := by
  have hc := reachable_countInv c hr
  refine ⟨?_, hc.2, fun leaderMsg msgs => delivers_step c _ hc hb (handleAcks_delivers _ _ _),
    fun rep => delivers_step c _ hc hb (handleSyncReply_delivers _ _)⟩
  rw [hc.1]
  exact wrap32_of_lt _ (by omega) (by omega)

/-- Witness of C14 (amended): the client after two deliveries. -/
theorem seqNum_counts_deliveries_witness :
    (deliverMany 2).lastCmdId.SeqNum = 2 ∧ (deliverMany 2).delivered = [(0, ()), (1, ())] ∧
    (handleSyncReply (deliverMany 2)
      { Replica := 0, Ballot := 0, CmdId := { ClientId := 0, SeqNum := 2 }, Rep := some [7] }
      ).lastCmdId.SeqNum = 3 ∧
    (deliverMany 2).ResChan.length = (deliverMany 2).delivered.length :=
  ⟨by decide, by decide, by decide,
    (seqNum_counts_deliveries (deliverMany 2) (deliverMany_spec 2).1 (by decide)).2.1⟩

end Curp

namespace Curp

theorem handleAcks_ballot (c : Client) (leaderMsg : Option MRecordAck) (msgs : List MRecordAck) :
    (handleAcks c leaderMsg msgs).ballot = c.ballot := by
  unfold handleAcks
  cases leaderMsg with
  | none => rfl
  | some lm =>
    dsimp only
    split_ifs <;> rfl

theorem acksAdd_ballot (c : Client) (repId : Int) (isLeader : Bool) (msg : MRecordAck) :
    (acksAdd c repId isLeader msg).ballot = c.ballot := by
  unfold acksAdd
  dsimp only
  split
  · split_ifs <;> rfl
  · rw [handleAcks_ballot]
    split_ifs <;> rfl

theorem macksAdd_ballot (c : Client) (repId : Int) (isLeader : Bool) (msg : MRecordAck) :
    (macksAdd c repId isLeader msg).ballot = c.ballot := by
  unfold macksAdd
  dsimp only
  split
  · rfl
  · rw [handleAcks_ballot]

theorem recordAck_ballot (c : Client) (r : MRecordAck) (fromLeader : Bool) :
    (recordAck c r fromLeader).ballot = c.ballot := by
  have h1 : (if fromLeader = true then
      macksAdd { c with leader := r.Replica } r.Replica true r else c).ballot = c.ballot := by
    split_ifs
    · rw [macksAdd_ballot]
    · rfl
  unfold recordAck
  dsimp only
  by_cases ho : r.Ok = ORDERED
  · rw [if_pos ho, macksAdd_ballot, h1]
  · rw [if_neg ho, acksAdd_ballot, h1]

/-- C15: `handleRecordAck(r, fromLeader)` returns the client unchanged when
`r.CmdId.SeqNum` is in `delivered`, and when a ballot is known and `r.Ballot` is
lower than it.  Otherwise, with no ballot known the ballot becomes `r.Ballot`
and `r` is recorded in the aggregators as they are; with a known ballot lower
than `r.Ballot` the ballot becomes `r.Ballot` and `r` is recorded after
`reinitAcks`, in two aggregators that are empty and bound to their quorums;
with the known ballot equal to `r.Ballot` the ballot stays and `r` is recorded
in the aggregators as they are.  A known ballot never decreases. -/
theorem handleRecordAck_reconciles_ballot (c : Client) (r : MRecordAck) (fromLeader : Bool) :
    ((Map.get c.delivered r.CmdId.SeqNum).isSome = true ∨ (c.ballot ≠ -1 ∧ r.Ballot < c.ballot) →
      handleRecordAck c r fromLeader = c) ∧
    ((Map.get c.delivered r.CmdId.SeqNum).isSome = false → c.ballot = -1 →
      handleRecordAck c r fromLeader = recordAck { c with ballot := r.Ballot } r fromLeader ∧
      (handleRecordAck c r fromLeader).ballot = r.Ballot) ∧
    ((Map.get c.delivered r.CmdId.SeqNum).isSome = false → c.ballot ≠ -1 → c.ballot < r.Ballot →
      handleRecordAck c r fromLeader =
        recordAck (reinitAcks { c with ballot := r.Ballot }) r fromLeader ∧
      (reinitAcks { c with ballot := r.Ballot }).acks = { q := c.Q } ∧
      (reinitAcks { c with ballot := r.Ballot }).macks = { q := c.M } ∧
      (handleRecordAck c r fromLeader).ballot = r.Ballot) ∧
    ((Map.get c.delivered r.CmdId.SeqNum).isSome = false → c.ballot ≠ -1 → c.ballot = r.Ballot →
      handleRecordAck c r fromLeader = recordAck c r fromLeader ∧
      (handleRecordAck c r fromLeader).ballot = c.ballot) ∧
    (c.ballot ≠ -1 → c.ballot ≤ (handleRecordAck c r fromLeader).ballot) := by
  refine ⟨?_, ?_, ?_, ?_, ?_⟩
  · rintro (hd | ⟨hk, hlt⟩)
    · unfold handleRecordAck
      rw [if_pos hd]
    · unfold handleRecordAck
      split_ifs with h1 h2
      · rfl
      · omega
      · rfl
  · intro hd hk
    have hd2 : ¬ (Map.get c.delivered r.CmdId.SeqNum).isSome = true := by
      rw [hd]
      exact Bool.false_ne_true
    have h : handleRecordAck c r fromLeader =
        recordAck { c with ballot := r.Ballot } r fromLeader := by
      unfold handleRecordAck
      rw [if_neg hd2, if_pos hk]
    exact ⟨h, by rw [h, recordAck_ballot]⟩
  · intro hd hk hlt
    have hd2 : ¬ (Map.get c.delivered r.CmdId.SeqNum).isSome = true := by
      rw [hd]
      exact Bool.false_ne_true
    have h : handleRecordAck c r fromLeader =
        recordAck (reinitAcks { c with ballot := r.Ballot }) r fromLeader := by
      unfold handleRecordAck
      rw [if_neg hd2, if_neg hk, if_pos hlt]
    exact ⟨h, rfl, rfl, by rw [h, recordAck_ballot]; rfl⟩
  · intro hd hk heq
    have hd2 : ¬ (Map.get c.delivered r.CmdId.SeqNum).isSome = true := by
      rw [hd]
      exact Bool.false_ne_true
    have h : handleRecordAck c r fromLeader = recordAck c r fromLeader := by
      unfold handleRecordAck
      rw [if_neg hd2, if_neg hk, if_neg (by omega), if_neg (by omega)]
    exact ⟨h, by rw [h, recordAck_ballot]⟩
  · intro hk
    unfold handleRecordAck
    split_ifs with h1 h2 h3
    · exact le_refl _
    · rw [recordAck_ballot]
      show c.ballot ≤ r.Ballot
      omega
    · exact le_refl _
    · rw [recordAck_ballot]

/-- Witness of C15: a client at ballot 0 with one ack recorded receives a
record ack of ballot 1: the ballot becomes 1 and the ack is alone in `acks`. -/
theorem handleRecordAck_reconciles_ballot_witness :
    (handleRecordAck
      (handleRecordAck (deliverMany 1)
        { Replica := 1, Ballot := 0, CmdId := { ClientId := 0, SeqNum := 1 }, Ok := TRUE } false)
      { Replica := 2, Ballot := 1, CmdId := { ClientId := 0, SeqNum := 1 }, Ok := TRUE } false).acks.msgs
      = [(2, { Replica := 2, Ballot := 1, CmdId := { ClientId := 0, SeqNum := 1 }, Ok := TRUE })] ∧
    (0 : Int) ≤ (handleRecordAck
      (handleRecordAck (deliverMany 1)
        { Replica := 1, Ballot := 0, CmdId := { ClientId := 0, SeqNum := 1 }, Ok := TRUE } false)
      { Replica := 2, Ballot := 1, CmdId := { ClientId := 0, SeqNum := 1 }, Ok := TRUE }
      false).ballot :=
  ⟨by decide,
    (handleRecordAck_reconciles_ballot
      (handleRecordAck (deliverMany 1)
        { Replica := 1, Ballot := 0, CmdId := { ClientId := 0, SeqNum := 1 }, Ok := TRUE } false)
      { Replica := 2, Ballot := 1, CmdId := { ClientId := 0, SeqNum := 1 }, Ok := TRUE }
      false).2.2.2.2 (by decide)⟩

end Curp

/-! ### Descriptors installed by a sync (C13) -/

theorem delivered_deliver_sub (r : Replica) (d : commandDesc) (c : CommandId) :
    r.delivered ⊆ (deliver r d c).delivered := by
  unfold deliver
  dsimp only
  split_ifs <;> first | exact List.Subset.refl _ | exact List.subset_append_left _ _

theorem delivered_handler_sub (r : Replica) (cmdId : CommandId) (leaderMsg : Option MFastAck) :
    r.delivered ⊆ (getFastAndSlowAcksHandler r cmdId leaderMsg).delivered := by
  unfold getFastAndSlowAcksHandler
  cases leaderMsg with
  | none => exact List.Subset.refl _
  | some l =>
    simp only
    have g3 := (foldl_addSuccessor_spec trivial_closed l.CmdId
      (depList ((r.setDesc cmdId { r.desc cmdId with phase := COMMIT }).desc cmdId).dep)
      (r.setDesc cmdId { r.desc cmdId with phase := COMMIT })).2.2
    have h := delivered_deliver_sub
      ((depList ((r.setDesc cmdId { r.desc cmdId with phase := COMMIT }).desc cmdId).dep).foldl
        (fun acc depCmdId => addSuccessor acc depCmdId l.CmdId)
        (r.setDesc cmdId { r.desc cmdId with phase := COMMIT }))
      (((depList ((r.setDesc cmdId { r.desc cmdId with phase := COMMIT }).desc cmdId).dep).foldl
        (fun acc depCmdId => addSuccessor acc depCmdId l.CmdId)
        (r.setDesc cmdId { r.desc cmdId with phase := COMMIT })).desc cmdId) l.CmdId
    rw [g3, delivered_setDesc] at h
    exact h

theorem delivered_slowPathHAdd_sub (r : Replica) (cmdId : CommandId) (repId : Int)
    (isLeader : Bool) (msg : MFastAck) :
    r.delivered ⊆ (slowPathHAdd r cmdId repId isLeader msg).delivered := by
  unfold slowPathHAdd
  cases hf : (MsgSet.Add acceptFastAndSlowAck (r.desc cmdId).slowPathH repId isLeader msg).2 with
  | none =>
    simp only [hf]
    exact List.Subset.refl _
  | some fire =>
    simp only [hf]
    exact delivered_handler_sub (r.setDesc cmdId { r.desc cmdId with
      slowPathH := (MsgSet.Add acceptFastAndSlowAck (r.desc cmdId).slowPathH repId isLeader msg).1 })
      cmdId fire.1

theorem delivered_fastPathHAdd_sub (r : Replica) (cmdId : CommandId) (repId : Int)
    (isLeader : Bool) (msg : MFastAck) :
    r.delivered ⊆ (fastPathHAdd r cmdId repId isLeader msg).delivered := by
  unfold fastPathHAdd
  cases hf : (MsgSet.Add acceptFastAndSlowAck (r.desc cmdId).fastPathH repId isLeader msg).2 with
  | none =>
    simp only [hf]
    exact List.Subset.refl _
  | some fire =>
    simp only [hf]
    exact delivered_handler_sub (r.setDesc cmdId { r.desc cmdId with
      fastPathH := (MsgSet.Add acceptFastAndSlowAck (r.desc cmdId).fastPathH repId isLeader msg).1 })
      cmdId fire.1

theorem delivered_commonCaseFastAck_sub (r : Replica) (msg : MFastAck) (cmdId : CommandId) :
    r.delivered ⊆ (commonCaseFastAck r msg cmdId).delivered := by
  unfold commonCaseFastAck
  dsimp only
  split_ifs
  · exact List.Subset.refl _
  · exact delivered_slowPathHAdd_sub r cmdId _ _ msg
  · exact List.Subset.trans (delivered_slowPathHAdd_sub r cmdId _ _ msg)
      (delivered_fastPathHAdd_sub _ cmdId _ _ msg)
  · exact delivered_fastPathHAdd_sub r cmdId _ _ msg

theorem recordLeaderAck_rel {R : CommandId → commandDesc → commandDesc → Prop} {cmdId : CommandId}
    (hR : HandlerClosed R) (hslow : ∀ id d ms, R id d { d with slowPathH := ms })
    (hfast : ∀ id d ms, R id d { d with fastPathH := ms })
    (haccept : ∀ d, R cmdId d { d with phase := ACCEPT }) (r : Replica) (msg : MFastAck) :
    DescsRel R r (recordLeaderAck r msg cmdId) ∧ (recordLeaderAck r msg cmdId).env = r.env ∧
      r.delivered ⊆ (recordLeaderAck r msg cmdId).delivered := by
  unfold recordLeaderAck
  dsimp only
  have h1 : DescsRel R r (r.setDesc cmdId { r.desc cmdId with phase := ACCEPT }) :=
    DescsRel.setDesc hR r cmdId _ (fun d0 h0 => by
      rw [desc_of_get r cmdId d0 h0]; exact haccept d0)
  obtain ⟨a1, a2⟩ := slowPathHAdd_spec hR hslow
    (r.setDesc cmdId { r.desc cmdId with phase := ACCEPT }) cmdId msg.Replica true msg
  have a3 := delivered_slowPathHAdd_sub
    (r.setDesc cmdId { r.desc cmdId with phase := ACCEPT }) cmdId msg.Replica true msg
  rw [delivered_setDesc] at a3
  split_ifs with hdel
  · obtain ⟨b1, b2⟩ := fastPathHAdd_spec hR hfast
      (slowPathHAdd (r.setDesc cmdId { r.desc cmdId with phase := ACCEPT }) cmdId msg.Replica
        true msg) cmdId msg.Replica true msg
    exact ⟨DescsRel.trans hR h1 (DescsRel.trans hR a1 b1), by rw [b2, a2, env_setDesc],
      List.Subset.trans a3 (delivered_fastPathHAdd_sub _ cmdId _ _ msg)⟩
  · exact ⟨DescsRel.trans hR h1 a1, by rw [a2, env_setDesc], a3⟩

theorem fastAckFromLeader_own {R : CommandId → commandDesc → commandDesc → Prop}
    {cmdId : CommandId} (hR : HandlerClosed R)
    (hslow : ∀ id d ms, R id d { d with slowPathH := ms })
    (hfast : ∀ id d ms, R id d { d with fastPathH := ms })
    (haccept : ∀ d, R cmdId d { d with phase := ACCEPT })
    (hpending : ∀ id d m, R id d { d with afterPropagate := m })
    (x : Ext) (r : Replica) (msg : MFastAck) (hl : r.Id = r.leader) :
    DescsRel R r (fastAckFromLeader x r msg cmdId) ∧ (fastAckFromLeader x r msg cmdId).env = r.env ∧
      r.delivered ⊆ (fastAckFromLeader x r msg cmdId).delivered := by
  unfold fastAckFromLeader afterPropagateCall
  dsimp only
  by_cases hp : (r.desc cmdId).propose ≠ none
  · rw [if_pos hp]
    unfold fastAckFromLeaderClosure
    by_cases hg : r.status ≠ NORMAL ∨ r.ballot ≠ msg.Ballot
    · rw [if_pos hg]
      exact ⟨DescsRel.refl hR r, rfl, List.Subset.refl _⟩
    · rw [if_neg hg]
      dsimp only
      have hs : sendSlowAckOf r (!(Dep.Equals (r.desc cmdId).dep msg.Dep)) = false := by
        simp [sendSlowAckOf, hl.symm]
      have hbody : fastAckFromLeaderBody r msg cmdId = recordLeaderAck r msg cmdId := by
        unfold fastAckFromLeaderBody
        dsimp only
        rw [hs]
        rfl
      obtain ⟨a1, a2, a3⟩ := @recordLeaderAck_rel R cmdId hR hslow hfast haccept r msg
      have hdef : fastAckFromLeaderDeferred x (recordLeaderAck r msg cmdId) (r.desc cmdId).cmd
          (r.desc cmdId).hs (sendSlowAckOf r (!(Dep.Equals (r.desc cmdId).dep msg.Dep)))
          msg.CmdId msg.Checksum = recordLeaderAck r msg cmdId := by
        unfold fastAckFromLeaderDeferred
        rw [if_pos (Or.inl (by rw [leader_of_env a2, (env_fields a2).1]; exact hl.symm))]
      rw [hbody, hdef]
      exact ⟨a1, a2, a3⟩
  · rw [if_neg hp]
    exact ⟨DescsRel.setDesc hR r cmdId _ (fun d0 h0 => by
      rw [desc_of_get r cmdId d0 h0]; exact hpending cmdId d0 _), rfl, List.Subset.refl _⟩

theorem keepsInstalled_closed : HandlerClosed KeepsInstalled :=
  { refl := fun _ _ => ⟨rfl, rfl, fun h => h⟩
    trans := fun _ _ _ _ h1 h2 =>
      ⟨h2.1.trans h1.1, h2.2.1.trans h1.2.1, fun h => h2.2.2 (h1.2.2 h)⟩
    succ := fun _ _ _ => ⟨rfl, rfl, fun h => h⟩
    commit := fun _ _ => ⟨rfl, rfl, fun _ => Or.inr rfl⟩ }

theorem keepsInstalledBut_closed (cmdId : CommandId) : HandlerClosed (KeepsInstalledBut cmdId) :=
  { refl := fun id d => Or.inr (keepsInstalled_closed.refl id d)
    trans := fun id a b c h1 h2 => by
      rcases h1 with h1 | h1
      · exact Or.inl h1
      · rcases h2 with h2 | h2
        · exact Or.inl h2
        · exact Or.inr (keepsInstalled_closed.trans id a b c h1 h2)
    succ := fun id d s => Or.inr (keepsInstalled_closed.succ id d s)
    commit := fun id d => Or.inr (keepsInstalled_closed.commit id d) }

theorem runSyncDefer_keeps (x : Ext) (r : Replica) (d : SyncDefer) (hown : d.Own r) :
    DescsRel KeepsInstalled r (runSyncDefer x r d) ∧ (runSyncDefer x r d).env = r.env ∧
      r.delivered ⊆ (runSyncDefer x r d).delivered := by
  cases d with
  | fastAck m cmdId =>
    obtain ⟨h1, h2⟩ := hown
    have he : runSyncDefer x r (SyncDefer.fastAck m cmdId) = fastAckFromLeader x r m cmdId := by
      show handleFastAck x r m cmdId = _
      unfold handleFastAck
      rw [if_pos (h1.trans h2)]
    rw [he]
    exact @fastAckFromLeader_own KeepsInstalled cmdId keepsInstalled_closed
      (fun _ _ _ => ⟨rfl, rfl, fun h => h⟩) (fun _ _ _ => ⟨rfl, rfl, fun h => h⟩)
      (fun _ => ⟨rfl, rfl, fun _ => Or.inl rfl⟩) (fun _ _ _ => ⟨rfl, rfl, fun h => h⟩) x r m h2
  | lightSlowAck m cmdId =>
    have he : runSyncDefer x r (SyncDefer.lightSlowAck m cmdId) = handleLightSlowAck r m cmdId :=
      rfl
    rw [he]
    obtain ⟨a1, a2⟩ := handleLightSlowAck_spec keepsInstalled_closed
      (fun _ _ _ => ⟨rfl, rfl, fun h => h⟩) (fun _ _ _ => ⟨rfl, rfl, fun h => h⟩) r m cmdId
    exact ⟨a1, a2, delivered_commonCaseFastAck_sub r _ cmdId⟩

theorem handleSyncInstall_eq (msg : MSync) (acc : Replica × List SyncDefer) (cmdId : CommandId) :
    handleSyncInstall msg acc cmdId =
      announceInstalled
        (match upsertCmdDesc acc.1 cmdId none none false with
          | none => acc.1
          | some r0 => installDesc msg r0 cmdId)
        (upsertCmdDesc acc.1 cmdId none none false).isSome
        ((Map.get msg.Deps cmdId).getD none) acc.2 cmdId := rfl

theorem foldl_installSuccessor_spec {R : CommandId → commandDesc → commandDesc → Prop}
    (hR : HandlerClosed R) (suc : CommandId) (l : List CommandId) :
    ∀ r : Replica,
      DescsRel R r (l.foldl (fun a cmdIdPrime =>
        { addSuccessor a cmdIdPrime suc with
          deliverChan := (addSuccessor a cmdIdPrime suc).deliverChan ++ [cmdIdPrime] }) r) ∧
      (l.foldl (fun a cmdIdPrime =>
        { addSuccessor a cmdIdPrime suc with
          deliverChan := (addSuccessor a cmdIdPrime suc).deliverChan ++ [cmdIdPrime] }) r).env =
        r.env ∧
      (l.foldl (fun a cmdIdPrime =>
        { addSuccessor a cmdIdPrime suc with
          deliverChan := (addSuccessor a cmdIdPrime suc).deliverChan ++ [cmdIdPrime] })
        r).delivered = r.delivered := by
  induction l with
  | nil => intro r; exact ⟨DescsRel.refl hR r, rfl, rfl⟩
  | cons a t ih =>
    intro r
    obtain ⟨h1, h2, h3⟩ := addSuccessor_spec hR r a suc
    obtain ⟨g1, g2, g3⟩ := ih { addSuccessor r a suc with
      deliverChan := (addSuccessor r a suc).deliverChan ++ [a] }
    have k1 : DescsRel R (addSuccessor r a suc) { addSuccessor r a suc with
        deliverChan := (addSuccessor r a suc).deliverChan ++ [a] } := DescsRel.of_eq hR rfl
    rw [List.foldl_cons]
    exact ⟨DescsRel.trans hR h1 (DescsRel.trans hR k1 g1), g2.trans h2, g3.trans h3⟩

theorem installDesc_spec (msg : MSync) (r0 : Replica) (cmdId : CommandId) :
    DescsRel (KeepsInstalledBut cmdId) r0 (installDesc msg r0 cmdId) ∧
    (installDesc msg r0 cmdId).env = r0.env ∧
    (installDesc msg r0 cmdId).delivered = r0.delivered ∧
    ∃ d, Map.get (installDesc msg r0 cmdId).cmdDescs cmdId = some d ∧ Installed msg cmdId d := by
  have hB := keepsInstalledBut_closed cmdId
  have hra : DescsRel (KeepsInstalledBut cmdId) r0 (r0.setDesc cmdId
      { r0.desc cmdId with phase := (Map.get msg.Phases cmdId).getD 0
                           cmd := (Map.get msg.Cmds cmdId).getD default
                           dep := (Map.get msg.Deps cmdId).getD none
                           proposeDep := (Map.get msg.Deps cmdId).getD none }) :=
    DescsRel.setDesc hB r0 cmdId _ (fun _ _ => Or.inl rfl)
  generalize hrae : r0.setDesc cmdId
      { r0.desc cmdId with phase := (Map.get msg.Phases cmdId).getD 0
                           cmd := (Map.get msg.Cmds cmdId).getD default
                           dep := (Map.get msg.Deps cmdId).getD none
                           proposeDep := (Map.get msg.Deps cmdId).getD none } = ra at hra
  have hget : ∃ d, Map.get ra.cmdDescs cmdId = some d ∧
      d.cmd = (Map.get msg.Cmds cmdId).getD default ∧
      d.dep = (Map.get msg.Deps cmdId).getD none := by
    rw [← hrae]
    exact ⟨_, get_setDesc_same _ _ _, rfl, rfl⟩
  have henv : ra.env = r0.env := by rw [← hrae]; rfl
  have hdel : ra.delivered = r0.delivered := by rw [← hrae]; rfl
  obtain ⟨b1, b2, b3⟩ := foldl_installSuccessor_spec hB cmdId
    (depList ((Map.get msg.Deps cmdId).getD none)) ra
  obtain ⟨c1, _, _⟩ := foldl_installSuccessor_spec keepsInstalled_closed cmdId
    (depList ((Map.get msg.Deps cmdId).getD none)) ra
  have hinst : installDesc msg r0 cmdId =
      (let rb := (depList ((Map.get msg.Deps cmdId).getD none)).foldl (fun a cmdIdPrime =>
          { addSuccessor a cmdIdPrime cmdId with
            deliverChan := (addSuccessor a cmdIdPrime cmdId).deliverChan ++ [cmdIdPrime] }) ra
        let rc : Replica := { rb with deliverChan := rb.deliverChan ++ [cmdId] }
        if (rc.desc cmdId).phase ≠ COMMIT ∧ (rc.desc cmdId).phase ≠ ACCEPT then
          rc.setDesc cmdId { rc.desc cmdId with phase := ACCEPT }
        else rc) := by
    rw [← hrae]
    rfl
  rw [hinst]
  generalize (depList ((Map.get msg.Deps cmdId).getD none)).foldl (fun a cmdIdPrime =>
      { addSuccessor a cmdIdPrime cmdId with
        deliverChan := (addSuccessor a cmdIdPrime cmdId).deliverChan ++ [cmdIdPrime] }) ra = rb
    at b1 b2 b3 c1
  obtain ⟨da, hda, hcmd, hdep⟩ := hget
  obtain ⟨db, hdb, k1, k2, _⟩ := c1 cmdId da hda
  have hrc : ({ rb with deliverChan := rb.deliverChan ++ [cmdId] } : Replica).desc cmdId = db :=
    desc_of_get _ cmdId db hdb
  dsimp only
  rw [hrc]
  have h0b : DescsRel (KeepsInstalledBut cmdId) r0 rb := DescsRel.trans hB hra b1
  have hbc : DescsRel (KeepsInstalledBut cmdId) rb
      ({ rb with deliverChan := rb.deliverChan ++ [cmdId] } : Replica) := DescsRel.of_eq hB rfl
  by_cases hph : db.phase ≠ COMMIT ∧ db.phase ≠ ACCEPT
  · rw [if_pos hph]
    refine ⟨DescsRel.trans hB h0b (DescsRel.trans hB hbc
        (DescsRel.setDesc hB _ cmdId _ (fun _ _ => Or.inl rfl))), ?_, ?_, ?_⟩
    · show rb.env = r0.env
      rw [b2, henv]
    · show rb.delivered = r0.delivered
      rw [b3, hdel]
    · exact ⟨_, get_setDesc_same _ _ _, Or.inl rfl, k1.trans hcmd, k2.trans hdep⟩
  · rw [if_neg hph]
    refine ⟨DescsRel.trans hB h0b hbc, ?_, ?_, ?_⟩
    · show rb.env = r0.env
      rw [b2, henv]
    · show rb.delivered = r0.delivered
      rw [b3, hdel]
    · refine ⟨db, hdb, ?_, k1.trans hcmd, k2.trans hdep⟩
      by_cases hc : db.phase = COMMIT
      · exact Or.inr hc
      · by_cases ha : db.phase = ACCEPT
        · exact Or.inl ha
        · exact absurd ⟨hc, ha⟩ hph

theorem announceInstalled_spec (r1 : Replica) (installed : Bool) (deps : Dep)
    (defers : List SyncDefer) (cmdId : CommandId) :
    DescsRel KeepsInstalled r1 (announceInstalled r1 installed deps defers cmdId).1 ∧
    (announceInstalled r1 installed deps defers cmdId).1.delivered = r1.delivered ∧
    (announceInstalled r1 installed deps defers cmdId).1.Id = r1.Id ∧
    (announceInstalled r1 installed deps defers cmdId).1.leader = r1.leader ∧
    ∀ d, d ∈ (announceInstalled r1 installed deps defers cmdId).2 →
      d ∈ defers ∨ d.Own (announceInstalled r1 installed deps defers cmdId).1 := by
  have hK := keepsInstalled_closed
  unfold announceInstalled
  cases hp : Map.get r1.proposes cmdId with
  | none => exact ⟨DescsRel.refl hK r1, rfl, rfl, rfl, fun d hd => Or.inl hd⟩
  | some propose =>
    dsimp only
    have h2 : DescsRel KeepsInstalled r1
          (if installed = true then
            r1.setDesc cmdId { r1.desc cmdId with propose := some propose } else r1) ∧
        (if installed = true then
            r1.setDesc cmdId { r1.desc cmdId with propose := some propose } else r1).env =
          r1.env ∧
        (if installed = true then
            r1.setDesc cmdId { r1.desc cmdId with propose := some propose } else r1).delivered =
          r1.delivered := by
      by_cases hi : installed = true
      · rw [if_pos hi]
        exact ⟨DescsRel.setDesc hK r1 cmdId _ (fun d0 h0 => by
          rw [desc_of_get r1 cmdId d0 h0]; exact ⟨rfl, rfl, fun h => h⟩), rfl, rfl⟩
      · rw [if_neg hi]
        exact ⟨DescsRel.refl hK r1, rfl, rfl⟩
    generalize (if installed = true then
        r1.setDesc cmdId { r1.desc cmdId with propose := some propose } else r1) = r2 at h2 ⊢
    obtain ⟨g1, g2, g3⟩ := h2
    have gid : r2.Id = r1.Id := (env_fields g2).1
    have gl : r2.leader = r1.leader := leader_of_env g2
    by_cases hsq : r2.SQ.Contains r2.Id = false
    · rw [if_pos hsq]
      exact ⟨g1, g3, gid, gl, fun d hd => Or.inl hd⟩
    · rw [if_neg hsq]
      by_cases hl : r2.Id = r2.leader
      · rw [if_pos hl]
        refine ⟨DescsRel.trans hK g1 (DescsRel.of_eq hK rfl), g3, gid, gl, ?_⟩
        intro d hd
        by_cases hi : installed = true
        · rw [if_pos hi] at hd
          rcases List.mem_cons.mp hd with rfl | hd2
          · exact Or.inr ⟨rfl, hl⟩
          · exact Or.inl hd2
        · rw [if_neg hi] at hd
          exact Or.inl hd
      · rw [if_neg hl]
        refine ⟨DescsRel.trans hK g1 (DescsRel.of_eq hK rfl), g3, gid, gl, ?_⟩
        intro d hd
        by_cases hi : installed = true
        · rw [if_pos hi] at hd
          rcases List.mem_cons.mp hd with rfl | hd2
          · exact Or.inr trivial
          · exact Or.inl hd2
        · rw [if_neg hi] at hd
          exact Or.inl hd

theorem SyncDefer.Own.transfer {r r2 : Replica} (hid : r2.Id = r.Id) (hl : r2.leader = r.leader)
    (d : SyncDefer) (h : d.Own r) : d.Own r2 := by
  cases d with
  | fastAck m c =>
    obtain ⟨h1, h2⟩ := h
    exact ⟨h1.trans hid.symm, by rw [hid, hl]; exact h2⟩
  | lightSlowAck m c => trivial

theorem installed_of_keeps {msg : MSync} {r r2 : Replica} {c : CommandId}
    (R : CommandId → commandDesc → commandDesc → Prop)
    (hR : ∀ d d2, R c d d2 → KeepsInstalled c d d2) (h : DescsRel R r r2)
    (hi : ∃ d, Map.get r.cmdDescs c = some d ∧ Installed msg c d) :
    ∃ d, Map.get r2.cmdDescs c = some d ∧ Installed msg c d := by
  obtain ⟨d, hd, h1, h2, h3⟩ := hi
  obtain ⟨d2, hd2, hr⟩ := h c d hd
  obtain ⟨k1, k2, k3⟩ := hR d d2 hr
  exact ⟨d2, hd2, k3 h1, k1.trans h2, k2.trans h3⟩

theorem handleSyncInstall_spec (msg : MSync) (acc : Replica × List SyncDefer)
    (cmdId : CommandId) :
    (handleSyncInstall msg acc cmdId).1.delivered = acc.1.delivered ∧
    (handleSyncInstall msg acc cmdId).1.Id = acc.1.Id ∧
    (handleSyncInstall msg acc cmdId).1.leader = acc.1.leader ∧
    (∀ d, d ∈ (handleSyncInstall msg acc cmdId).2 →
      d ∈ acc.2 ∨ d.Own (handleSyncInstall msg acc cmdId).1) ∧
    (acc.1.hasDelivered cmdId = false → ∃ d,
      Map.get (handleSyncInstall msg acc cmdId).1.cmdDescs cmdId = some d ∧
        Installed msg cmdId d) ∧
    (∀ c, c ≠ cmdId → (∃ d, Map.get acc.1.cmdDescs c = some d ∧ Installed msg c d) →
      ∃ d, Map.get (handleSyncInstall msg acc cmdId).1.cmdDescs c = some d ∧
        Installed msg c d) := by
  rw [handleSyncInstall_eq]
  have hB := keepsInstalledBut_closed cmdId
  have h1 : DescsRel (KeepsInstalledBut cmdId) acc.1
        (match upsertCmdDesc acc.1 cmdId none none false with
          | none => acc.1
          | some r0 => installDesc msg r0 cmdId) ∧
      (match upsertCmdDesc acc.1 cmdId none none false with
          | none => acc.1
          | some r0 => installDesc msg r0 cmdId).env = acc.1.env ∧
      (match upsertCmdDesc acc.1 cmdId none none false with
          | none => acc.1
          | some r0 => installDesc msg r0 cmdId).delivered = acc.1.delivered ∧
      (acc.1.hasDelivered cmdId = false → ∃ d,
        Map.get (match upsertCmdDesc acc.1 cmdId none none false with
          | none => acc.1
          | some r0 => installDesc msg r0 cmdId).cmdDescs cmdId = some d ∧
        Installed msg cmdId d) := by
    cases hu : upsertCmdDesc acc.1 cmdId none none false with
    | none =>
      refine ⟨DescsRel.refl hB _, rfl, rfl, ?_⟩
      intro hnd
      rw [upsert_none_eq, if_neg (by rw [hnd]; exact Bool.false_ne_true)] at hu
      cases hg : Map.get acc.1.cmdDescs cmdId <;> rw [hg] at hu <;> cases hu
    | some r0 =>
      obtain ⟨u1, u2, u3, _⟩ := upsert_spec hB acc.1 r0 cmdId none false hu
      obtain ⟨i1, i2, i3, i4⟩ := installDesc_spec msg r0 cmdId
      exact ⟨DescsRel.trans hB u1 i1, i2.trans u2, i3.trans u3, fun _ => i4⟩
  generalize (match upsertCmdDesc acc.1 cmdId none none false with
      | none => acc.1
      | some r0 => installDesc msg r0 cmdId) = r1 at h1 ⊢
  obtain ⟨a1, a2, a3, a4⟩ := h1
  obtain ⟨b1, b2, b3, b4, b5⟩ := announceInstalled_spec r1
    (upsertCmdDesc acc.1 cmdId none none false).isSome ((Map.get msg.Deps cmdId).getD none)
    acc.2 cmdId
  refine ⟨b2.trans a3, b3.trans (env_fields a2).1, b4.trans (leader_of_env a2), b5, ?_, ?_⟩
  · intro hnd
    exact installed_of_keeps KeepsInstalled (fun _ _ h => h) b1 (a4 hnd)
  · intro c hc hi
    exact installed_of_keeps KeepsInstalled (fun _ _ h => h) b1
      (installed_of_keeps (KeepsInstalledBut cmdId)
        (fun _ _ h => h.resolve_left hc) a1 hi)

theorem hasDelivered_congr {r r2 : Replica} (h : r2.delivered = r.delivered) (c : CommandId) :
    r2.hasDelivered c = r.hasDelivered c := by
  unfold Replica.hasDelivered
  rw [h]

theorem foldl_handleSyncInstall_spec (msg : MSync) :
    ∀ (L : List CommandId) (acc : Replica × List SyncDefer),
      (L.foldl (handleSyncInstall msg) acc).1.delivered = acc.1.delivered ∧
      (L.foldl (handleSyncInstall msg) acc).1.Id = acc.1.Id ∧
      (L.foldl (handleSyncInstall msg) acc).1.leader = acc.1.leader ∧
      ((∀ d, d ∈ acc.2 → d.Own acc.1) →
        ∀ d, d ∈ (L.foldl (handleSyncInstall msg) acc).2 →
          d.Own (L.foldl (handleSyncInstall msg) acc).1) ∧
      (∀ c, acc.1.hasDelivered c = false →
        (c ∈ L ∨ ∃ d, Map.get acc.1.cmdDescs c = some d ∧ Installed msg c d) →
        ∃ d, Map.get (L.foldl (handleSyncInstall msg) acc).1.cmdDescs c = some d ∧
          Installed msg c d) := by
  intro L
  induction L with
  | nil =>
    intro acc
    refine ⟨rfl, rfl, rfl, fun h => h, ?_⟩
    intro c _ h
    rcases h with h | h
    · exact absurd h (List.not_mem_nil _)
    · exact h
  | cons a t ih =>
    intro acc
    obtain ⟨s1, s2, s3, s4, s5, s6⟩ := handleSyncInstall_spec msg acc a
    obtain ⟨g1, g2, g3, g4, g5⟩ := ih (handleSyncInstall msg acc a)
    rw [List.foldl_cons]
    refine ⟨g1.trans s1, g2.trans s2, g3.trans s3, ?_, ?_⟩
    · intro hown
      apply g4
      intro d hd
      rcases s4 d hd with h | h
      · exact SyncDefer.Own.transfer s2 s3 d (hown d h)
      · exact h
    · intro c hnd h
      have hnd2 : (handleSyncInstall msg acc a).1.hasDelivered c = false := by
        rw [hasDelivered_congr s1]
        exact hnd
      apply g5 c hnd2
      by_cases hca : c = a
      · subst hca
        exact Or.inr (s5 hnd)
      · rcases h with h | h
        · rcases List.mem_cons.mp h with h2 | h2
          · exact absurd h2 hca
          · exact Or.inl h2
        · exact Or.inr (s6 c hca h)

theorem mem_insertLeft {α : Type} (less : α → α → Bool) (a x : α) :
    ∀ l : List α, x ∈ insertLeft less a l ↔ x = a ∨ x ∈ l := by
  intro l
  induction l with
  | nil => simp [insertLeft]
  | cons y t ih =>
    unfold insertLeft
    split_ifs
    · rw [List.mem_cons, ih, List.mem_cons]
      tauto
    · rw [List.mem_cons]

theorem mem_sortSlice {α : Type} (less : α → α → Bool) (x : α) (l : List α) :
    x ∈ sortSlice less l ↔ x ∈ l := by
  have h : ∀ (l acc : List α),
      x ∈ l.foldl (fun revPrefix a => insertLeft less a revPrefix) acc ↔ x ∈ acc ∨ x ∈ l := by
    intro l
    induction l with
    | nil => intro acc; simp
    | cons a t ih =>
      intro acc
      rw [List.foldl_cons, ih, mem_insertLeft, List.mem_cons]
      tauto
  unfold sortSlice
  rw [List.mem_reverse, h]
  simp

theorem sendAccepts_spec (msg : MSync) (r : Replica) :
    (sendAccepts r msg).cmdDescs = r.cmdDescs ∧ (sendAccepts r msg).delivered = r.delivered ∧
    (sendAccepts r msg).Id = r.Id ∧ (sendAccepts r msg).leader = r.leader := by
  have h : ∀ (P : List (CommandId × GPropose)) (acc : Replica),
      (P.foldl (fun acc p =>
          if Map.get msg.Phases p.1 ≠ none then acc
          else acc.send (Out.sendToClientAccept p.2.ClientId
            { Replica := acc.Id, Ballot := acc.ballot, CmdId := p.1 })) acc).cmdDescs =
        acc.cmdDescs ∧
      (P.foldl (fun acc p =>
          if Map.get msg.Phases p.1 ≠ none then acc
          else acc.send (Out.sendToClientAccept p.2.ClientId
            { Replica := acc.Id, Ballot := acc.ballot, CmdId := p.1 })) acc).delivered =
        acc.delivered ∧
      (P.foldl (fun acc p =>
          if Map.get msg.Phases p.1 ≠ none then acc
          else acc.send (Out.sendToClientAccept p.2.ClientId
            { Replica := acc.Id, Ballot := acc.ballot, CmdId := p.1 })) acc).Id = acc.Id ∧
      (P.foldl (fun acc p =>
          if Map.get msg.Phases p.1 ≠ none then acc
          else acc.send (Out.sendToClientAccept p.2.ClientId
            { Replica := acc.Id, Ballot := acc.ballot, CmdId := p.1 })) acc).leader =
        acc.leader := by
    intro P
    induction P with
    | nil => intro acc; exact ⟨rfl, rfl, rfl, rfl⟩
    | cons p t ih =>
      intro acc
      rw [List.foldl_cons]
      by_cases hp : Map.get msg.Phases p.1 ≠ none
      · rw [if_pos hp]
        exact ih acc
      · rw [if_neg hp]
        obtain ⟨g1, g2, g3, g4⟩ := ih (acc.send (Out.sendToClientAccept p.2.ClientId
          { Replica := acc.Id, Ballot := acc.ballot, CmdId := p.1 }))
        exact ⟨g1, g2, g3, g4⟩
  exact h r.proposes r

theorem foldl_runSyncDefer_keeps (x : Ext) :
    ∀ (ds : List SyncDefer) (r : Replica), (∀ d, d ∈ ds → d.Own r) →
      DescsRel KeepsInstalled r (ds.foldl (runSyncDefer x) r) ∧
      r.delivered ⊆ (ds.foldl (runSyncDefer x) r).delivered := by
  intro ds
  induction ds with
  | nil => intro r _; exact ⟨DescsRel.refl keepsInstalled_closed r, List.Subset.refl _⟩
  | cons d t ih =>
    intro r hown
    obtain ⟨a1, a2, a3⟩ := runSyncDefer_keeps x r d (hown d (List.mem_cons_self _ _))
    obtain ⟨b1, b2⟩ := ih (runSyncDefer x r d) (fun e he =>
      SyncDefer.Own.transfer (env_fields a2).1 (leader_of_env a2) e
        (hown e (List.mem_cons_of_mem _ he)))
    rw [List.foldl_cons]
    exact ⟨DescsRel.trans keepsInstalled_closed a1 b1, List.Subset.trans a3 b2⟩

/-- C13: after a `handleSync(msg)` that is not ignored, every command id of
`msg.Phases` that is not in the Delivered set has a descriptor in the
descriptor map (which the call has reset) whose phase is ACCEPT or COMMIT,
whose cmd is `msg.Cmds[cmdId]` and whose dep is `msg.Deps[cmdId]`, whatever
phase the message carries for it. -/
theorem handleSync_installs (x : Ext) (r : Replica) (msg : MSync) (cmdId : CommandId)
    (hgo : ¬ (msg.Ballot < r.ballot ∨ (r.ballot = msg.Ballot ∧ r.status = NORMAL)))
    (hmem : cmdId ∈ Map.keys msg.Phases)
    (hnd : (handleSync x r msg).hasDelivered cmdId = false) :
    ∃ d, Map.get (handleSync x r msg).cmdDescs cmdId = some d ∧
      (d.phase = ACCEPT ∨ d.phase = COMMIT) ∧
      d.cmd = (Map.get msg.Cmds cmdId).getD default ∧
      d.dep = (Map.get msg.Deps cmdId).getD none := by
  obtain ⟨r5, h5⟩ := handleSync_unfold_order x r msg hgo
  rw [h5] at hnd ⊢
  obtain ⟨g1, g2, g3, g4, g5⟩ := foldl_handleSyncInstall_spec msg (handleSyncOrder msg) (r5, [])
  obtain ⟨s1, s2, s3, s4⟩ := sendAccepts_spec msg
    ((handleSyncOrder msg).foldl (handleSyncInstall msg) (r5, [])).1
  have hown : ∀ d, d ∈ ((handleSyncOrder msg).foldl (handleSyncInstall msg) (r5, [])).2 →
      d.Own (sendAccepts ((handleSyncOrder msg).foldl (handleSyncInstall msg) (r5, [])).1 msg) :=
    fun d hd => SyncDefer.Own.transfer s3 s4 d
      (g4 (fun e he => absurd he (List.not_mem_nil _)) d hd)
  obtain ⟨k1, k2⟩ := foldl_runSyncDefer_keeps x _ _ hown
  have hnd5 : Replica.hasDelivered r5 cmdId = false := by
    cases hd : Replica.hasDelivered r5 cmdId with
    | false => rfl
    | true =>
      have hm : cmdId ∈ r5.delivered := by
        simpa [Replica.hasDelivered] using hd
      have hm2 := k2 (by rw [s2, g1]; exact hm)
      have : Replica.hasDelivered (((handleSyncOrder msg).foldl (handleSyncInstall msg)
          (r5, [])).2.foldl (runSyncDefer x) (sendAccepts ((handleSyncOrder msg).foldl
          (handleSyncInstall msg) (r5, [])).1 msg)) cmdId = true := by
        simpa [Replica.hasDelivered] using hm2
      rw [this] at hnd
      cases hnd
  have hin := g5 cmdId hnd5 (Or.inl ((mem_sortSlice _ _ _).mpr hmem))
  have hin2 : ∃ d, Map.get (sendAccepts ((handleSyncOrder msg).foldl (handleSyncInstall msg)
      (r5, [])).1 msg).cmdDescs cmdId = some d ∧ Installed msg cmdId d := by
    rw [s1]
    exact hin
  exact installed_of_keeps KeepsInstalled (fun _ _ h => h) k1 hin2

/-- Witness of C13: replica 2 handles a sync that carries (1, 1) at PRE_ACCEPT;
the descriptor of (1, 1) is installed at ACCEPT with the command and dep of the
sync. -/
theorem handleSync_installs_witness :
    Map.get (handleSync extSingle recovering2 syncPreAccepted).cmdDescs c11 =
      some ((handleSync extSingle recovering2 syncPreAccepted).desc c11) ∧
    ((handleSync extSingle recovering2 syncPreAccepted).desc c11).phase = ACCEPT ∧
    ∃ d, Map.get (handleSync extSingle recovering2 syncPreAccepted).cmdDescs c11 = some d ∧
      (d.phase = ACCEPT ∨ d.phase = COMMIT) ∧
      d.cmd = (Map.get syncPreAccepted.Cmds c11).getD default ∧
      d.dep = (Map.get syncPreAccepted.Deps c11).getD none :=
  ⟨by decide, by decide,
    handleSync_installs extSingle recovering2 syncPreAccepted c11 (by decide) (by decide)
      (by decide)⟩

/-! ### Ballots (C21) -/

theorem epoch_of_env {r r2 : Replica} (h : r2.env = r.env) : r2.epoch = r.epoch := by
  show r2.env.epoch = r.env.epoch
  rw [h]

theorem epoch_upsertCmdDesc (r r1 : Replica) (cmdId : CommandId) (dep : Dep)
    (hs : Option (List SHash)) (seq : Bool) (h : upsertCmdDesc r cmdId dep hs seq = some r1) :
    r1.epoch = r.epoch := by
  unfold upsertCmdDesc at h
  by_cases hd : r.hasDelivered cmdId = true
  · rw [if_pos hd] at h
    cases h
  · rw [if_neg hd] at h
    simp only [Option.some.injEq] at h
    rw [← h]
    cases hg : Map.get r.cmdDescs cmdId with
    | some d => rfl
    | none =>
      dsimp only
      split_ifs <;> rfl

theorem epoch_deliver (r : Replica) (d : commandDesc) (c : CommandId) :
    (deliver r d c).epoch = r.epoch :=
  epoch_of_env (env_deliver r d c)

theorem epoch_deliverReadDesc (r : Replica) (rDesc : readDesc) (c : CommandId) :
    (deliverReadDesc r rDesc c).epoch = r.epoch := by
  unfold deliverReadDesc
  dsimp only
  split_ifs <;> rfl

theorem epoch_commonCaseFastAck (r : Replica) (msg : MFastAck) (cmdId : CommandId) :
    (commonCaseFastAck r msg cmdId).epoch = r.epoch :=
  epoch_of_env (commonCaseFastAck_spec trivial_closed (fun _ _ _ => trivial)
    (fun _ _ _ => trivial) r msg cmdId).2

theorem epoch_fastAckFromLeaderClosure (x : Ext) (r : Replica) (msg : MFastAck)
    (cmdId : CommandId) : (fastAckFromLeaderClosure x r msg cmdId).epoch = r.epoch := by
  unfold fastAckFromLeaderClosure
  by_cases hg : r.status ≠ NORMAL ∨ r.ballot ≠ msg.Ballot
  · rw [if_pos hg]
  · rw [if_neg hg]
    dsimp only
    have hb : (fastAckFromLeaderBody r msg cmdId).epoch = r.epoch := by
      have h := (fastAckFromLeaderBody_spec (trivialFast_closed cmdId) r msg).2
      by_cases hs : sendSlowAckOf r (!(Dep.Equals (r.desc cmdId).dep msg.Dep)) = true
      · rw [if_pos hs] at h
        exact (epoch_of_env h).trans rfl
      · rw [if_neg hs] at h
        exact epoch_of_env h
    rw [← hb]
    unfold fastAckFromLeaderDeferred
    dsimp only
    split_ifs <;> rfl

theorem epoch_fastAckFromLeader (x : Ext) (r : Replica) (msg : MFastAck) (cmdId : CommandId) :
    (fastAckFromLeader x r msg cmdId).epoch = r.epoch := by
  unfold fastAckFromLeader afterPropagateCall
  dsimp only
  split_ifs
  · exact epoch_fastAckFromLeaderClosure x r msg cmdId
  · rfl

theorem epoch_afterPropagateRecall (x : Ext) (r : Replica) (cmdId : CommandId) :
    (afterPropagateRecall x r cmdId).1.epoch = r.epoch := by
  unfold afterPropagateRecall
  dsimp only
  cases hp : (r.desc cmdId).afterPropagate with
  | none => rfl
  | some m =>
    dsimp only
    split_ifs
    · rw [epoch_fastAckFromLeaderClosure]
      rfl
    · rfl

theorem epoch_handleFastAck (x : Ext) (r : Replica) (msg : MFastAck) (cmdId : CommandId) :
    (handleFastAck x r msg cmdId).epoch = r.epoch := by
  unfold handleFastAck
  split_ifs
  · exact epoch_fastAckFromLeader x r msg cmdId
  · exact epoch_commonCaseFastAck r msg cmdId

theorem epoch_handlePropose (x : Ext) (r : Replica) (msg : GPropose) (cmdId : CommandId) :
    (handlePropose x r msg cmdId).epoch = r.epoch := by
  unfold handlePropose
  dsimp only
  by_cases hg : r.status ≠ NORMAL ∨ (r.desc cmdId).propose ≠ none
  · rw [if_pos hg]
  · rw [if_neg hg]
    generalize hr1 : r.setDesc cmdId { r.desc cmdId with propose := some msg, cmd := msg.Command }
      = r1
    have e1 : r1.epoch = r.epoch := by rw [← hr1]; rfl
    by_cases hfq : r1.FQ.Contains r1.Id = false
    · rw [if_pos hfq, epoch_afterPropagateRecall, e1]
    · rw [if_neg hfq]
      generalize hr2 : r1.setDesc cmdId
        { r1.desc cmdId with dep := (r1.desc cmdId).proposeDep, phase := PRE_ACCEPT } = r2
      have e2 : r2.epoch = r.epoch := by rw [← hr2]; exact e1
      have e3 : (afterPropagateRecall x r2 cmdId).1.epoch = r.epoch := by
        rw [epoch_afterPropagateRecall, e2]
      generalize afterPropagateRecall x r2 cmdId = rc at e3 ⊢
      split_ifs
      · exact e3
      · rw [epoch_handleFastAck]
        exact e3
      · rw [epoch_handleFastAck, epoch_deliver]
        exact e3
      · rw [epoch_handleFastAck]
        exact e3

theorem epoch_handleMsg (x : Ext) (r : Replica) (m : Msg) (cmdId : CommandId) :
    (handleMsg x r m cmdId).1.epoch = r.epoch := by
  cases m with
  | propose p => exact epoch_handlePropose x r p cmdId
  | fastAck msg =>
    show (if msg.CmdId = cmdId then handleFastAck x r msg cmdId else r).epoch = r.epoch
    split_ifs
    · exact epoch_handleFastAck x r msg cmdId
    · rfl
  | lightSlowAck msg =>
    show (if msg.CmdId = cmdId then handleLightSlowAck r msg cmdId else r).epoch = r.epoch
    split_ifs
    · exact epoch_commonCaseFastAck r _ cmdId
    · rfl
  | str s =>
    show (if s = "deliver" then deliver r (r.desc cmdId) cmdId else r).epoch = r.epoch
    split_ifs
    · exact epoch_deliver r _ cmdId
    · rfl
  | slot i => rfl

theorem epoch_getCmdDescSeq (x : Ext) (r r2 : Replica) (cmdId : CommandId) (msg : Option Msg)
    (dep : Dep) (hs : Option (List SHash)) (seq : Bool)
    (h : getCmdDescSeq x r cmdId msg dep hs seq = some r2) : r2.epoch = r.epoch := by
  unfold getCmdDescSeq at h
  cases hu : upsertCmdDesc r cmdId dep hs seq with
  | none =>
    rw [hu] at h
    cases h
  | some r1 =>
    rw [hu] at h
    have e1 := epoch_upsertCmdDesc r r1 cmdId dep hs seq hu
    cases msg with
    | none =>
      simp only [Option.some.injEq] at h
      rw [← h, e1]
    | some m =>
      dsimp only at h
      by_cases hseq : (r1.desc cmdId).seq = true
      · rw [if_pos hseq] at h
        simp only [Option.some.injEq] at h
        rw [← h, epoch_handleMsg, e1]
      · rw [if_neg hseq] at h
        simp only [Option.some.injEq] at h
        rw [← h]
        exact e1

theorem epoch_handleDescStep (x : Ext) (r : Replica) (cmdId : CommandId) :
    (handleDescStep x r cmdId).epoch = r.epoch := by
  unfold handleDescStep
  dsimp only
  cases hm : (r.desc cmdId).msgs with
  | nil => rfl
  | cons m rest =>
    dsimp only
    have e := epoch_handleMsg x (r.setDesc cmdId { r.desc cmdId with msgs := rest }) m cmdId
    split_ifs
    · exact e
    · exact e

theorem epoch_requeueProposes (msg : MSync) (r : Replica) :
    (requeueProposes r msg).epoch = r.epoch := by
  have h : ∀ (L : List (CommandId × commandDesc)) (acc : Replica),
      (L.foldl (fun acc p =>
        match p.2.propose with
        | none => acc
        | some propose =>
          let cmdId : CommandId := { ClientId := propose.ClientId, SeqNum := propose.CommandId }
          if Map.get msg.Phases cmdId = none then
            { acc with ProposeChan := acc.ProposeChan ++ [propose] }
          else acc) acc).epoch = acc.epoch := by
    intro L
    induction L with
    | nil => intro acc; rfl
    | cons p t ih =>
      intro acc
      rw [List.foldl_cons, ih]
      cases p.2.propose with
      | none => rfl
      | some propose =>
        dsimp only
        split_ifs <;> rfl
  exact h r.cmdDescs r

theorem epoch_announceInstalled (r1 : Replica) (installed : Bool) (deps : Dep)
    (defers : List SyncDefer) (cmdId : CommandId) :
    (announceInstalled r1 installed deps defers cmdId).1.epoch = r1.epoch := by
  unfold announceInstalled
  cases hp : Map.get r1.proposes cmdId with
  | none => rfl
  | some propose =>
    dsimp only
    have h2 : (if installed = true then
        r1.setDesc cmdId { r1.desc cmdId with propose := some propose } else r1).epoch =
        r1.epoch := by
      split_ifs <;> rfl
    generalize (if installed = true then
        r1.setDesc cmdId { r1.desc cmdId with propose := some propose } else r1) = r2 at h2 ⊢
    by_cases hsq : r2.SQ.Contains r2.Id = false
    · rw [if_pos hsq]
      exact h2
    · rw [if_neg hsq]
      by_cases hl : r2.Id = r2.leader
      · rw [if_pos hl]
        exact h2
      · rw [if_neg hl]
        exact h2

theorem epoch_handleSyncInstall (msg : MSync) (acc : Replica × List SyncDefer)
    (cmdId : CommandId) : (handleSyncInstall msg acc cmdId).1.epoch = acc.1.epoch := by
  rw [handleSyncInstall_eq, epoch_announceInstalled]
  cases hu : upsertCmdDesc acc.1 cmdId none none false with
  | none => rfl
  | some r0 =>
    dsimp only
    rw [epoch_of_env (installDesc_spec msg r0 cmdId).2.1]
    exact epoch_upsertCmdDesc acc.1 r0 cmdId none none false hu

theorem epoch_sendAccepts (msg : MSync) (r : Replica) : (sendAccepts r msg).epoch = r.epoch := by
  have h : ∀ (P : List (CommandId × GPropose)) (acc : Replica),
      (P.foldl (fun acc p =>
          if Map.get msg.Phases p.1 ≠ none then acc
          else acc.send (Out.sendToClientAccept p.2.ClientId
            { Replica := acc.Id, Ballot := acc.ballot, CmdId := p.1 })) acc).epoch =
        acc.epoch := by
    intro P
    induction P with
    | nil => intro acc; rfl
    | cons p t ih =>
      intro acc
      rw [List.foldl_cons, ih]
      split_ifs <;> rfl
  exact h r.proposes r

theorem epoch_runSyncDefer (x : Ext) (r : Replica) (d : SyncDefer) :
    (runSyncDefer x r d).epoch = r.epoch := by
  cases d with
  | fastAck m cmdId => exact epoch_handleFastAck x r m cmdId
  | lightSlowAck m cmdId => exact epoch_commonCaseFastAck r _ cmdId

theorem epoch_handleSync (x : Ext) (r : Replica) (msg : MSync)
    (hgo : ¬ (msg.Ballot < r.ballot ∨ (r.ballot = msg.Ballot ∧ r.status = NORMAL))) :
    (handleSync x r msg).epoch = (msg.Ballot, msg.Ballot, NORMAL, r.newLeaderAckNs) := by
  have hfold1 : ∀ (L : List CommandId) (acc : Replica × List SyncDefer),
      (L.foldl (handleSyncInstall msg) acc).1.epoch = acc.1.epoch := by
    intro L
    induction L with
    | nil => intro acc; rfl
    | cons a t ih => intro acc; rw [List.foldl_cons, ih, epoch_handleSyncInstall]
  have hfold2 : ∀ (ds : List SyncDefer) (acc : Replica),
      (ds.foldl (runSyncDefer x) acc).epoch = acc.epoch := by
    intro ds
    induction ds with
    | nil => intro acc; rfl
    | cons d t ih => intro acc; rw [List.foldl_cons, ih, epoch_runSyncDefer]
  unfold handleSync
  rw [if_neg hgo]
  dsimp only
  rw [hfold2, epoch_sendAccepts, hfold1]
  have h1 : (if r.status = NORMAL then stopDescs { r with repchan := r.repchan.stop }
      else r).epoch = r.epoch := by
    split_ifs <;> rfl
  have h2 := epoch_requeueProposes msg
    (if r.status = NORMAL then stopDescs { r with repchan := r.repchan.stop } else r)
  rw [h1] at h2
  generalize requeueProposes
    (if r.status = NORMAL then stopDescs { r with repchan := r.repchan.stop } else r) msg = rq
    at h2 ⊢
  have h3 : rq.newLeaderAckNs = r.newLeaderAckNs := congrArg (fun e => e.2.2.2) h2
  dsimp only
  split_ifs
  · show (msg.Ballot, msg.Ballot, NORMAL, rq.newLeaderAckNs) = _
    rw [h3]
  · show (msg.Ballot, msg.Ballot, NORMAL, rq.newLeaderAckNs) = _
    rw [h3]

theorem handleSync_ballot_le (x : Ext) (r : Replica) (msg : MSync) (hinv : r.cballot ≤ r.ballot) :
    r.ballot ≤ (handleSync x r msg).ballot ∧
      (handleSync x r msg).cballot ≤ (handleSync x r msg).ballot := by
  by_cases hgo : msg.Ballot < r.ballot ∨ (r.ballot = msg.Ballot ∧ r.status = NORMAL)
  · have h : handleSync x r msg = r := by
      unfold handleSync
      rw [if_pos hgo]
    rw [h]
    exact ⟨le_refl _, hinv⟩
  · have he := epoch_handleSync x r msg hgo
    have h1 : (handleSync x r msg).ballot = msg.Ballot := congrArg (fun e => e.1) he
    have h2 : (handleSync x r msg).cballot = msg.Ballot := congrArg (fun e => e.2.1) he
    have hb : r.ballot ≤ msg.Ballot := by
      by_contra hlt
      exact hgo (Or.inl (not_le.mp hlt))
    rw [h1, h2]
    exact ⟨hb, le_refl _⟩

theorem buildSync_ballot (r : Replica) (msgs : List MNewLeaderAckN) (sync : MSync)
    (h : buildSync r msgs = some sync) : sync.Ballot = r.ballot := by
  unfold buildSync at h
  split at h
  · cases h
  · split at h
    · cases h
    · cases h
      rfl

theorem buildSync_returns (r : Replica) (msgs : List MNewLeaderAckN) (hne : msgs ≠ [])
    (hcb : ∀ a ∈ msgs, 0 ≤ a.Cballot) (hwf : ∀ a ∈ msgs, a.WellFormed) :
    ∃ sync, buildSync r msgs = some sync := by
  obtain ⟨mc, u, hsel, hu⟩ := selectU_spec msgs hne hcb
  have hwfu : ∀ a ∈ u, a.WellFormed := fun a ha => hwf a ((hu a).mp ha).1
  have hinit : SyncInv (fun _ _ _ _ => False) ({} : SyncMaps) :=
    ⟨rfl, rfl, by intro c hc; simp [Map.keys] at hc, by intro c ph cmd dep h; exact h.elim⟩
  obtain ⟨m, hm, _⟩ := syncMapsOf_fold u hwfu _ _ hinit
  refine ⟨{ Replica := r.Id, Ballot := r.ballot, Phases := m.phases, Cmds := m.cmds
            Deps := m.deps }, ?_⟩
  simp only [buildSync, hsel, Option.getD_some, syncMapsOf, hm]

/-- A `handleNewLeaderAckNs` that runs at a recovering replica and returns ends
in `handleSync` with status NORMAL and `cballot` raised to the ballot. -/
theorem handleNewLeaderAckNs_recovering (x : Ext) (r r2 : Replica) (msgs : List MNewLeaderAckN)
    (hst : r.status = RECOVERING) (h : handleNewLeaderAckNs x r msgs = some r2) :
    r2.status = NORMAL ∧ r2.ballot = r.ballot ∧ r2.cballot = r.ballot := by
  unfold handleNewLeaderAckNs at h
  cases hb : buildSync r msgs with
  | none =>
    rw [hb] at h
    cases h
  | some sync =>
    rw [hb] at h
    have hbal := buildSync_ballot r msgs sync hb
    have hgo : ¬ (sync.Ballot < (r.send (Out.sendToAllSync sync)).ballot ∨
        ((r.send (Out.sendToAllSync sync)).ballot = sync.Ballot ∧
          (r.send (Out.sendToAllSync sync)).status = NORMAL)) := by
      show ¬ (sync.Ballot < r.ballot ∨ (r.ballot = sync.Ballot ∧ r.status = NORMAL))
      rw [hbal, hst]
      rintro (h1 | ⟨_, h2⟩)
      · exact lt_irrefl _ h1
      · exact absurd h2 (by decide)
    have he := epoch_handleSync x _ sync hgo
    simp only [Option.some.injEq] at h
    rw [← h]
    exact ⟨congrArg (fun e => e.2.2.1) he, (congrArg (fun e => e.1) he).trans hbal,
      (congrArg (fun e => e.2.1) he).trans hbal⟩

theorem Map.mem_put {κ α : Type} [DecidableEq κ] (m : List (κ × α)) (k : κ) (v : α) :
    (k, v) ∈ Map.put m k v := by
  induction m with
  | nil => simp [Map.put]
  | cons p t ih =>
    obtain ⟨k1, v1⟩ := p
    simp only [Map.put]
    split_ifs
    · exact List.mem_cons_self _ _
    · exact List.mem_cons_of_mem _ ih

/-- The pair handed to the handler of `newLeaderAckNs` holds the ack that made
the set fire. -/
theorem MsgSet.AddQuorum_mem {M : Type} (ms : MsgSet M) (repId : Int) (msg : M)
    (fire : Option M × List M)
    (h : (MsgSet.AddQuorum (fun _ _ => true) ms repId false msg).2 = some fire) :
    msg ∈ fire.2 := by
  have hm : msg ∈ MsgSet.accepted (fun _ _ => true)
      { ms with msgs := Map.put ms.msgs repId msg } := by
    unfold MsgSet.accepted
    rw [List.filter_true]
    exact List.mem_map.mpr ⟨(repId, msg), Map.mem_put _ _ _, rfl⟩
  unfold MsgSet.AddQuorum at h
  simp only [Bool.false_eq_true, if_false] at h
  split_ifs at h
  simp only [Option.some.injEq] at h
  rw [← h]
  exact hm

theorem handleNewLeaderAckN_quiet (x : Ext) (r : Replica) (msg : MNewLeaderAckN)
    (h : (r.status ≠ RECOVERING ∨ r.ballot ≠ msg.Ballot) ∨
      (MsgSet.AddQuorum (fun _ _ => true) r.newLeaderAckNs msg.Replica false msg).2 = none) :
    ∃ r2, handleNewLeaderAckN x r msg = some r2 ∧ r2.status = r.status ∧
      r2.ballot = r.ballot ∧ r2.cballot = r.cballot := by
  unfold handleNewLeaderAckN
  by_cases hg : r.status ≠ RECOVERING ∨ r.ballot ≠ msg.Ballot
  · rw [if_pos hg]
    exact ⟨r, rfl, rfl, rfl, rfl⟩
  · rw [if_neg hg]
    rcases h with h | h
    · exact absurd h hg
    · dsimp only
      rw [h]
      exact ⟨_, rfl, rfl, rfl, rfl⟩

theorem handleNewLeaderAckN_fires (x : Ext) (r r2 : Replica) (msg : MNewLeaderAckN)
    (hst : r.status = RECOVERING) (hb : r.ballot = msg.Ballot)
    (hf : (MsgSet.AddQuorum (fun _ _ => true) r.newLeaderAckNs msg.Replica false msg).2.isSome
      = true)
    (h : handleNewLeaderAckN x r msg = some r2) :
    r2.status = NORMAL ∧ r2.ballot = r.ballot ∧ r2.cballot = r.ballot := by
  have hg : ¬ (r.status ≠ RECOVERING ∨ r.ballot ≠ msg.Ballot) := by
    rintro (h1 | h1)
    · exact h1 hst
    · exact h1 hb
  unfold handleNewLeaderAckN at h
  rw [if_neg hg] at h
  dsimp only at h
  cases hres : (MsgSet.AddQuorum (fun _ _ => true) r.newLeaderAckNs msg.Replica false msg).2 with
  | none =>
    rw [hres] at hf
    cases hf
  | some fire =>
    rw [hres] at h
    exact handleNewLeaderAckNs_recovering x
      { r with newLeaderAckNs :=
          (MsgSet.AddQuorum (fun _ _ => true) r.newLeaderAckNs msg.Replica false msg).1 }
      r2 fire.2 hst h

/-- The call `handleNewLeaderAckN(msg)` returns when the acks that the set hands
to the handler have slices of one length and a `Cballot` that is not
negative. -/
theorem handleNewLeaderAckN_returns (x : Ext) (r : Replica) (msg : MNewLeaderAckN)
    (hok : ∀ fire,
      (MsgSet.AddQuorum (fun _ _ => true) r.newLeaderAckNs msg.Replica false msg).2 = some fire →
      ∀ a ∈ fire.2, 0 ≤ a.Cballot ∧ a.WellFormed) :
    ∃ r2, handleNewLeaderAckN x r msg = some r2 := by
  cases hres : (MsgSet.AddQuorum (fun _ _ => true) r.newLeaderAckNs msg.Replica false msg).2 with
  | none =>
    obtain ⟨r2, h, _⟩ := handleNewLeaderAckN_quiet x r msg (Or.inr hres)
    exact ⟨r2, h⟩
  | some fire =>
    unfold handleNewLeaderAckN
    by_cases hg : r.status ≠ RECOVERING ∨ r.ballot ≠ msg.Ballot
    · rw [if_pos hg]
      exact ⟨r, rfl⟩
    · rw [if_neg hg]
      dsimp only
      rw [hres]
      have hmem := MsgSet.AddQuorum_mem r.newLeaderAckNs msg.Replica msg fire hres
      generalize hr1 : ({ r with newLeaderAckNs :=
        (MsgSet.AddQuorum (fun _ _ => true) r.newLeaderAckNs msg.Replica false msg).1 } : Replica)
        = r1
      obtain ⟨sync, hs⟩ := buildSync_returns r1 fire.2 (List.ne_nil_of_mem hmem)
        (fun a ha => (hok fire hres a ha).1) (fun a ha => (hok fire hres a ha).2)
      have hrun : handleNewLeaderAckNs x r1 fire.2 =
          some (handleSync x (r1.send (Out.sendToAllSync sync)) sync) := by
        simp only [handleNewLeaderAckNs, hs]
      exact ⟨_, hrun⟩

theorem handleNewLeaderAckN_ballot_le (x : Ext) (r r2 : Replica) (msg : MNewLeaderAckN)
    (hinv : r.cballot ≤ r.ballot) (h : handleNewLeaderAckN x r msg = some r2) :
    r2.ballot = r.ballot ∧ r2.cballot ≤ r2.ballot := by
  by_cases hq : (r.status ≠ RECOVERING ∨ r.ballot ≠ msg.Ballot) ∨
      (MsgSet.AddQuorum (fun _ _ => true) r.newLeaderAckNs msg.Replica false msg).2 = none
  · obtain ⟨r3, g1, _, g3, g4⟩ := handleNewLeaderAckN_quiet x r msg hq
    rw [g1] at h
    simp only [Option.some.injEq] at h
    rw [← h, g3, g4]
    exact ⟨rfl, hinv⟩
  · have hst : r.status = RECOVERING := by
      by_contra hne
      exact hq (Or.inl (Or.inl hne))
    have hb : r.ballot = msg.Ballot := by
      by_contra hne
      exact hq (Or.inl (Or.inr hne))
    have hf : (MsgSet.AddQuorum (fun _ _ => true) r.newLeaderAckNs msg.Replica false msg).2.isSome
        = true := by
      cases hres : (MsgSet.AddQuorum (fun _ _ => true) r.newLeaderAckNs msg.Replica false msg).2
        with
      | none => exact absurd (Or.inr hres) hq
      | some fire => rfl
    obtain ⟨_, g2, g3⟩ := handleNewLeaderAckN_fires x r r2 msg hst hb hf h
    rw [g2, g3]
    exact ⟨rfl, le_refl _⟩

theorem handleNewLeader_stale (x : Ext) (r : Replica) (msg : MNewLeader)
    (h : msg.Ballot ≤ r.ballot) : handleNewLeader x r msg = some r := by
  unfold handleNewLeader
  rw [if_pos h]

theorem handleNewLeader_own (x : Ext) (r : Replica) (msg : MNewLeader)
    (h : r.ballot < msg.Ballot) (hrep : msg.Replica = r.Id) :
    handleNewLeader x r msg =
      handleNewLeaderAckN x (startRecovery r msg.Ballot)
        (fillNewLeaderAckN (startRecovery r msg.Ballot)
          { Replica := r.Id, Ballot := msg.Ballot, Cballot := r.cballot }) := by
  unfold handleNewLeader
  rw [if_neg (not_le.mpr h)]
  dsimp only
  have hid : ¬ (msg.Replica ≠ (startRecovery r msg.Ballot).Id) := fun hne => hne hrep
  rw [if_neg hid]
  rfl

theorem handleNewLeader_recovering (x : Ext) (r : Replica) (msg : MNewLeader)
    (h : r.ballot < msg.Ballot) (hq : ¬ CompletesQuorum r msg) :
    ∃ r2, handleNewLeader x r msg = some r2 ∧ r2.status = RECOVERING ∧
      r2.ballot = msg.Ballot ∧ r2.cballot = r.cballot := by
  by_cases hrep : msg.Replica = r.Id
  · rw [handleNewLeader_own x r msg h hrep]
    have hnone : (ownAckAdded r msg).2 = none := by
      cases hres : (ownAckAdded r msg).2 with
      | none => rfl
      | some fire => exact absurd ⟨hrep, by rw [hres]; rfl⟩ hq
    obtain ⟨r2, g1, g2, g3, g4⟩ := handleNewLeaderAckN_quiet x (startRecovery r msg.Ballot)
      (fillNewLeaderAckN (startRecovery r msg.Ballot)
        { Replica := r.Id, Ballot := msg.Ballot, Cballot := r.cballot }) (Or.inr hnone)
    exact ⟨r2, g1, g2, g3, g4⟩
  · unfold handleNewLeader
    rw [if_neg (not_le.mpr h)]
    dsimp only
    have hid : msg.Replica ≠ (startRecovery r msg.Ballot).Id := hrep
    rw [if_pos hid]
    exact ⟨_, rfl, rfl, rfl, rfl⟩

theorem handleNewLeader_completes (x : Ext) (r r2 : Replica) (msg : MNewLeader)
    (h : r.ballot < msg.Ballot) (hq : CompletesQuorum r msg)
    (hr : handleNewLeader x r msg = some r2) :
    r2.status = NORMAL ∧ r2.ballot = msg.Ballot ∧ r2.cballot = msg.Ballot := by
  rw [handleNewLeader_own x r msg h hq.1] at hr
  exact handleNewLeaderAckN_fires x (startRecovery r msg.Ballot) r2
    (fillNewLeaderAckN (startRecovery r msg.Ballot)
      { Replica := r.Id, Ballot := msg.Ballot, Cballot := r.cballot }) rfl rfl hq.2 hr

theorem handleNewLeader_returns (x : Ext) (r : Replica) (msg : MNewLeader)
    (h : r.ballot < msg.Ballot) (hrep : msg.Replica = r.Id)
    (hok : ∀ fire, (ownAckAdded r msg).2 = some fire →
      ∀ a ∈ fire.2, 0 ≤ a.Cballot ∧ a.WellFormed) :
    ∃ r2, handleNewLeader x r msg = some r2 := by
  rw [handleNewLeader_own x r msg h hrep]
  exact handleNewLeaderAckN_returns x (startRecovery r msg.Ballot)
    (fillNewLeaderAckN (startRecovery r msg.Ballot)
      { Replica := r.Id, Ballot := msg.Ballot, Cballot := r.cballot }) hok

theorem handleNewLeader_ballot_le (x : Ext) (r r2 : Replica) (msg : MNewLeader)
    (hinv : r.cballot ≤ r.ballot) (h : handleNewLeader x r msg = some r2) :
    r.ballot ≤ r2.ballot ∧ r2.cballot ≤ r2.ballot := by
  by_cases hb : msg.Ballot ≤ r.ballot
  · rw [handleNewLeader_stale x r msg hb] at h
    simp only [Option.some.injEq] at h
    rw [← h]
    exact ⟨le_refl _, hinv⟩
  · have hlt := not_le.mp hb
    by_cases hq : CompletesQuorum r msg
    · obtain ⟨_, g2, g3⟩ := handleNewLeader_completes x r r2 msg hlt hq h
      rw [g2, g3]
      exact ⟨le_of_lt hlt, le_refl _⟩
    · obtain ⟨r3, g1, _, g3, g4⟩ := handleNewLeader_recovering x r msg hlt hq
      rw [g1] at h
      simp only [Option.some.injEq] at h
      rw [← h, g3, g4]
      exact ⟨le_of_lt hlt, by omega⟩

theorem step_ballot_le (x : Ext) (r r2 : Replica) (hs : Step x r r2)
    (hinv : r.cballot ≤ r.ballot) : r.ballot ≤ r2.ballot ∧ r2.cballot ≤ r2.ballot := by
  have hkeep : ∀ r3 : Replica, r3.epoch = r.epoch →
      r.ballot ≤ r3.ballot ∧ r3.cballot ≤ r3.ballot := by
    intro r3 he
    have h1 : r3.ballot = r.ballot := congrArg (fun e => e.1) he
    have h2 : r3.cballot = r.cballot := congrArg (fun e => e.2.1) he
    rw [h1, h2]
    exact ⟨le_refl _, hinv⟩
  cases hs with
  | store cmdId p => exact hkeep _ rfl
  | dispatch _ cmdId msg dep hs seq h => exact hkeep _ (epoch_getCmdDescSeq x r r2 cmdId msg dep hs seq h)
  | worker cmdId => exact hkeep _ (epoch_handleDescStep x r cmdId)
  | handle m cmdId => exact hkeep _ (epoch_handleMsg x r m cmdId)
  | read rDesc cmdId => exact hkeep _ (epoch_deliverReadDesc r rDesc cmdId)
  | recover _ chosen Q h =>
    exact handleNewLeader_ballot_le x (announceNewLeader r chosen Q) r2
      { Replica := r.Id, Ballot := chosen } hinv h
  | announce chosen Q => exact ⟨le_refl _, hinv⟩
  | newLeader _ msg h => exact handleNewLeader_ballot_le x r r2 msg hinv h
  | newLeaderAckN _ msg h =>
    obtain ⟨g1, g2⟩ := handleNewLeaderAckN_ballot_le x r r2 msg hinv h
    exact ⟨le_of_eq g1.symm, g2⟩
  | sync msg => exact handleSync_ballot_le x r msg hinv

theorem reachable_cballot_le (x : Ext) (r : Replica) (hr : ReplicaReachable x r) :
    r.cballot ≤ r.ballot := by
  induction hr with
  | init r h => exact le_of_eq h.2.1
  | step r r2 _ hs ih => exact (step_ballot_le x r r2 hs ih).2

/-- C21, as stated, fails where the replica's own ack completes the quorum of
acks.  The cluster has one replica, fresh at ballot 0; the recovery case of the
dispatch loop sends the `MNewLeader` of ballot 1, binds the aggregator to the
majority of one and calls `handleNewLeader`.  The ballot is below the one of
the message, and the call runs `handleNewLeaderAckN`, `handleNewLeaderAckNs`
and `handleSync` inside: it ends with status NORMAL and `cballot` 1, not with
status RECOVERING and the `cballot` 0 it started from. -/
theorem handleNewLeader_alone_ends_normal :
    replicaAlone.Fresh ∧
    ReplicaReachable extSingle (announceNewLeader replicaAlone 1 majorityOfOne) ∧
    recoverNewLeader extSingle replicaAlone 1 majorityOfOne =
      handleNewLeader extSingle (announceNewLeader replicaAlone 1 majorityOfOne)
        { Replica := 0, Ballot := 1 } ∧
    (announceNewLeader replicaAlone 1 majorityOfOne).ballot < 1 ∧
    (announceNewLeader replicaAlone 1 majorityOfOne).cballot = 0 ∧
    (handleNewLeader extSingle (announceNewLeader replicaAlone 1 majorityOfOne)
      { Replica := 0, Ballot := 1 }).map (fun s => (s.status, s.ballot, s.cballot)) =
      some (NORMAL, 1, 1) ∧
    ¬ (∃ r2, handleNewLeader extSingle (announceNewLeader replicaAlone 1 majorityOfOne)
        { Replica := 0, Ballot := 1 } = some r2 ∧
      r2.status = RECOVERING ∧ r2.ballot = 1 ∧
      r2.cballot = (announceNewLeader replicaAlone 1 majorityOfOne).cballot) := by
  have hrun : (handleNewLeader extSingle (announceNewLeader replicaAlone 1 majorityOfOne)
      { Replica := 0, Ballot := 1 }).map (fun s => (s.status, s.ballot, s.cballot)) =
      some (NORMAL, 1, 1) := by decide
  refine ⟨⟨rfl, rfl, rfl⟩,
    ReplicaReachable.step _ _ (ReplicaReachable.init _ ⟨rfl, rfl, rfl⟩)
      (Step.announce replicaAlone 1 majorityOfOne),
    rfl, by decide, rfl, hrun, ?_⟩
  rintro ⟨r2, h1, h2, _, _⟩
  rw [h1] at hrun
  simp only [Option.map_some', Option.some.injEq, Prod.mk.injEq] at hrun
  rw [h2] at hrun
  exact absurd hrun.1 (by decide)

/-- C21: in every state of the replica reachable from a fresh one, `cballot` is
at most `ballot`, and no step decreases the ballot.  There `handleNewLeader(msg)`
returns the state unchanged when `ballot ≥ msg.Ballot`.  Otherwise, unless the
new leader is the replica itself and its own ack completes the quorum of
`newLeaderAckNs`, it returns (its loop apart) with status RECOVERING,
`ballot = msg.Ballot` and `cballot` untouched; when the own ack completes the
quorum, `handleNewLeaderAckNs` and `handleSync` run inside the call, which
returns if the acks held have slices of one length and a `Cballot` that is not
negative, and a call that returns ends with status NORMAL and
`ballot = cballot = msg.Ballot`.  A `handleSync(msg)` that is not ignored ends
with status NORMAL and `ballot = cballot = msg.Ballot`, where `msg.Ballot` is at
least the previous ballot. -/
theorem ballot_never_decreases (x : Ext) (r : Replica) (hr : ReplicaReachable x r) :
    r.cballot ≤ r.ballot ∧
    (∀ r2, Step x r r2 → r.ballot ≤ r2.ballot ∧ r2.cballot ≤ r2.ballot) ∧
    (∀ msg : MNewLeader, msg.Ballot ≤ r.ballot → handleNewLeader x r msg = some r) ∧
    (∀ msg : MNewLeader, r.ballot < msg.Ballot →
      (¬ CompletesQuorum r msg → ∃ r2, handleNewLeader x r msg = some r2 ∧
        r2.status = RECOVERING ∧ r2.ballot = msg.Ballot ∧ r2.cballot = r.cballot) ∧
      (CompletesQuorum r msg →
        ((∀ fire, (ownAckAdded r msg).2 = some fire →
            ∀ a ∈ fire.2, 0 ≤ a.Cballot ∧ a.WellFormed) →
          ∃ r2, handleNewLeader x r msg = some r2) ∧
        ∀ r2, handleNewLeader x r msg = some r2 →
          r2.status = NORMAL ∧ r2.ballot = msg.Ballot ∧ r2.cballot = msg.Ballot)) ∧
    (∀ msg : MSync, ¬ (msg.Ballot < r.ballot ∨ (r.ballot = msg.Ballot ∧ r.status = NORMAL)) →
      (handleSync x r msg).status = NORMAL ∧ (handleSync x r msg).ballot = msg.Ballot ∧
      (handleSync x r msg).cballot = msg.Ballot ∧ r.ballot ≤ msg.Ballot) := by
  have hinv := reachable_cballot_le x r hr
  refine ⟨hinv, ?_, ?_, ?_, ?_⟩
  · intro r2 hs
    exact step_ballot_le x r r2 hs hinv
  · intro msg h
    exact handleNewLeader_stale x r msg h
  · intro msg h
    refine ⟨fun hq => handleNewLeader_recovering x r msg h hq, fun hq => ⟨?_, ?_⟩⟩
    · intro hok
      exact handleNewLeader_returns x r msg h hq.1 hok
    · intro r2 hr2
      exact handleNewLeader_completes x r r2 msg h hq hr2
  · intro msg hgo
    have he := epoch_handleSync x r msg hgo
    refine ⟨congrArg (fun e => e.2.2.1) he, congrArg (fun e => e.1) he,
      congrArg (fun e => e.2.1) he, ?_⟩
    by_contra hlt
    exact hgo (Or.inl (not_le.mp hlt))

/-- Witness of C21, on the recovery of scenario S3: replica 1 of three, fresh
at ballot 0, has sent the `MNewLeader` of ballot 1 and bound the aggregator to
the majority of two.  Its own ack does not complete the quorum, so
`handleNewLeader` leaves it RECOVERING at ballot 1 with `cballot` 0; the ack of
replica 2 completes the quorum, and the sync that follows ends with status
NORMAL and `ballot = cballot = 1`. -/
theorem ballot_never_decreases_witness :
    ¬ CompletesQuorum (announceNewLeader replicaAfterC21 1 majorityOfThree)
      { Replica := 1, Ballot := 1 } ∧
    (recoverNewLeader extSingle replicaAfterC21 1 majorityOfThree).map
      (fun s => (s.status, s.ballot, s.cballot)) = some (RECOVERING, 1, 0) ∧
    ((recoverNewLeader extSingle replicaAfterC21 1 majorityOfThree).bind
      (fun s => handleNewLeaderAckN extSingle s ackOfTwo)).map
      (fun s => (s.status, s.ballot, s.cballot)) = some (NORMAL, 1, 1) ∧
    ∃ r2, handleNewLeader extSingle (announceNewLeader replicaAfterC21 1 majorityOfThree)
        { Replica := 1, Ballot := 1 } = some r2 ∧
      r2.status = RECOVERING ∧ r2.ballot = 1 ∧
      r2.cballot = (announceNewLeader replicaAfterC21 1 majorityOfThree).cballot :=
  have hq : ¬ CompletesQuorum (announceNewLeader replicaAfterC21 1 majorityOfThree)
      { Replica := 1, Ballot := 1 } := by
    unfold CompletesQuorum
    decide
  ⟨hq, by decide, by decide,
    ((ballot_never_decreases extSingle (announceNewLeader replicaAfterC21 1 majorityOfThree)
      (ReplicaReachable.step _ _ (ReplicaReachable.init _ ⟨rfl, rfl, rfl⟩)
        (Step.announce replicaAfterC21 1 majorityOfThree))).2.2.2.1
      { Replica := 1, Ballot := 1 } (by decide)).1 hq⟩

/-! ### Message loop of the CURP client (C22) -/

namespace Curp

theorem MsgSet.Add_leaderMsg {M : Type} (accept : M → Option M → Bool) (ms : MsgSet M)
    (repId : Int) (isLeader : Bool) (msg : M) :
    (MsgSet.Add accept ms repId isLeader msg).1.leaderMsg =
      (if isLeader = true then some msg else ms.leaderMsg) ∧
    ∀ fire, (MsgSet.Add accept ms repId isLeader msg).2 = some fire →
      fire.1 = (if isLeader = true then some msg else ms.leaderMsg) := by
  unfold MsgSet.Add
  dsimp only
  cases isLeader
  · simp only [Bool.false_eq_true, if_false]
    split_ifs
    · refine ⟨rfl, fun fire h => ?_⟩
      simp only [Option.some.injEq] at h
      rw [← h]
    · exact ⟨rfl, fun fire h => by cases h⟩
  · simp only [if_true]
    split_ifs
    · refine ⟨rfl, fun fire h => ?_⟩
      simp only [Option.some.injEq] at h
      rw [← h]
    · exact ⟨rfl, fun fire h => by cases h⟩

theorem Progress.rfl_of (c : Client) : Progress c c :=
  ⟨le_refl _, rfl, fun _ h => h⟩

theorem Progress.trans_of {c c2 c3 : Client} (h1 : Progress c c2) (h2 : Progress c2 c3) :
    Progress c c3 :=
  ⟨le_trans h1.1 h2.1, h2.2.1.trans h1.2.1, fun m h => h2.2.2 m (h1.2.2 m h)⟩

theorem deliver_loop (c c2 : Client) (s : Int) (hinv : LoopInv c)
    (hs : s = c.lastCmdId.SeqNum) (hn : Map.get c.delivered s = none)
    (hd : c2.delivered = Map.put c.delivered s ())
    (hq : c2.lastCmdId.SeqNum = wrap32 (c.lastCmdId.SeqNum + 1))
    (ha : c2.acks.leaderMsg = none) (hm : c2.macks.leaderMsg = none)
    (hst : c2.stopped = c.stopped) : LoopInv c2 ∧ Progress c c2 := by
  obtain ⟨i1, i2, _, _⟩ := hinv
  have hd2 : c2.delivered = c.delivered ++ [(s, ())] := by
    rw [hd, Map.put_of_get_none _ _ _ hn]
  have hlen : c2.delivered.length = c.delivered.length + 1 := by
    rw [hd2, List.length_append, List.length_singleton]
  have hget : ∀ k : Int, (Map.get c2.delivered k).isSome = true ↔
      (s = k ∨ (Map.get c.delivered k).isSome = true) := by
    intro k
    rw [hd, Paxoi.Map.get_put]
    by_cases hk : s = k
    · simp [hk]
    · simp [hk]
  refine ⟨⟨?_, ?_, ?_, ?_⟩, ?_, hst, ?_⟩
  · rw [hq, i1, wrap32_succ, hlen]
    push_cast
    rfl
  · intro hb k
    have hb1 : c.delivered.length ≤ 2147483648 := by omega
    have hs2 : s = c.delivered.length := by
      rw [hs, i1]
      exact wrap32_of_lt _ (by omega) (by omega)
    rw [hget k, i2 hb1 k, hlen]
    push_cast
    omega
  · intro lm h
    rw [ha] at h
    cases h
  · intro lm h
    rw [hm] at h
    cases h
  · rw [hlen]
    omega
  · intro m h
    rcases h with h | h
    · exact Or.inr ((hget _).mpr (Or.inl (by rw [hs, h])))
    · exact Or.inr ((hget _).mpr (Or.inr h))

theorem handleAcks_loop (c : Client) (leaderMsg : Option MRecordAck) (msgs : List MRecordAck)
    (hinv : LoopInv c) (hlm : ∀ m, leaderMsg = some m → Settled c m) :
    LoopInv (handleAcks c leaderMsg msgs) ∧ Progress c (handleAcks c leaderMsg msgs) := by
  unfold handleAcks
  cases leaderMsg with
  | none => exact ⟨hinv, Progress.rfl_of c⟩
  | some lm =>
    dsimp only
    by_cases hd : (Map.get c.delivered lm.CmdId.SeqNum).isSome = true
    · rw [if_pos hd]
      exact ⟨hinv, Progress.rfl_of c⟩
    · rw [if_neg hd]
      have hn : Map.get c.delivered lm.CmdId.SeqNum = none := by
        cases hg : Map.get c.delivered lm.CmdId.SeqNum with
        | none => rfl
        | some u => rw [hg] at hd; exact absurd rfl hd
      have hs : lm.CmdId.SeqNum = c.lastCmdId.SeqNum := (hlm lm rfl).resolve_right hd
      exact deliver_loop c _ lm.CmdId.SeqNum hinv hs hn rfl rfl rfl rfl rfl

theorem acksAdd_loop (c : Client) (repId : Int) (isLeader : Bool) (msg : MRecordAck)
    (hinv : LoopInv c) (hmsg : Settled c msg) :
    LoopInv (acksAdd c repId isLeader msg) ∧ Progress c (acksAdd c repId isLeader msg) := by
  unfold acksAdd
  dsimp only
  have h0 : LoopInv (if isLeader = false ∧ msg.CmdId ∉ c.alreadySlow ∧ msg.Ok = FALSE then
        { c with slowPaths := c.slowPaths + 1, alreadySlow := c.alreadySlow ++ [msg.CmdId] }
      else c) ∧
      Progress c (if isLeader = false ∧ msg.CmdId ∉ c.alreadySlow ∧ msg.Ok = FALSE then
        { c with slowPaths := c.slowPaths + 1, alreadySlow := c.alreadySlow ++ [msg.CmdId] }
      else c) := by
    split_ifs
    · exact ⟨hinv, Progress.rfl_of c⟩
    · exact ⟨hinv, Progress.rfl_of c⟩
  generalize (if isLeader = false ∧ msg.CmdId ∉ c.alreadySlow ∧ msg.Ok = FALSE then
        { c with slowPaths := c.slowPaths + 1, alreadySlow := c.alreadySlow ++ [msg.CmdId] }
      else c) = c0 at h0 ⊢
  obtain ⟨j0, p0⟩ := h0
  obtain ⟨a1, a2⟩ := MsgSet.Add_leaderMsg (fun m _ => decide (m.Ok = TRUE)) c0.acks repId
    isLeader msg
  have hm0 : Settled c0 msg := p0.2.2 msg hmsg
  have hl : ∀ lm, (if isLeader = true then some msg else c0.acks.leaderMsg) = some lm →
      Settled c0 lm := by
    intro lm h
    by_cases hi : isLeader = true
    · rw [if_pos hi] at h
      simp only [Option.some.injEq] at h
      rw [← h]
      exact hm0
    · rw [if_neg hi] at h
      exact j0.2.2.1 lm h
  have j1 : LoopInv { c0 with acks :=
      (MsgSet.Add (fun m _ => decide (m.Ok = TRUE)) c0.acks repId isLeader msg).1 } :=
    ⟨j0.1, j0.2.1, fun lm h => hl lm (a1 ▸ h), j0.2.2.2⟩
  have p1 : Progress c0 { c0 with acks :=
      (MsgSet.Add (fun m _ => decide (m.Ok = TRUE)) c0.acks repId isLeader msg).1 } :=
    ⟨le_refl _, rfl, fun _ h => h⟩
  cases hf : (MsgSet.Add (fun m _ => decide (m.Ok = TRUE)) c0.acks repId isLeader msg).2 with
  | none => exact ⟨j1, Progress.trans_of p0 p1⟩
  | some fire =>
    dsimp only
    obtain ⟨k1, k2⟩ := handleAcks_loop _ fire.1 fire.2 j1 (fun m h => hl m ((a2 fire hf) ▸ h))
    exact ⟨k1, Progress.trans_of p0 (Progress.trans_of p1 k2)⟩

theorem macksAdd_loop (c : Client) (repId : Int) (isLeader : Bool) (msg : MRecordAck)
    (hinv : LoopInv c) (hmsg : Settled c msg) :
    LoopInv (macksAdd c repId isLeader msg) ∧ Progress c (macksAdd c repId isLeader msg) := by
  unfold macksAdd
  dsimp only
  obtain ⟨a1, a2⟩ := MsgSet.Add_leaderMsg (fun (_ : MRecordAck) _ => true) c.macks repId
    isLeader msg
  have hl : ∀ lm, (if isLeader = true then some msg else c.macks.leaderMsg) = some lm →
      Settled c lm := by
    intro lm h
    by_cases hi : isLeader = true
    · rw [if_pos hi] at h
      simp only [Option.some.injEq] at h
      rw [← h]
      exact hmsg
    · rw [if_neg hi] at h
      exact hinv.2.2.2 lm h
  have j1 : LoopInv { c with macks :=
      (MsgSet.Add (fun (_ : MRecordAck) _ => true) c.macks repId isLeader msg).1 } :=
    ⟨hinv.1, hinv.2.1, hinv.2.2.1, fun lm h => hl lm (a1 ▸ h)⟩
  have p1 : Progress c { c with macks :=
      (MsgSet.Add (fun (_ : MRecordAck) _ => true) c.macks repId isLeader msg).1 } :=
    ⟨le_refl _, rfl, fun _ h => h⟩
  cases hf : (MsgSet.Add (fun (_ : MRecordAck) _ => true) c.macks repId isLeader msg).2 with
  | none => exact ⟨j1, p1⟩
  | some fire =>
    dsimp only
    obtain ⟨k1, k2⟩ := handleAcks_loop _ fire.1 fire.2 j1 (fun m h => hl m ((a2 fire hf) ▸ h))
    exact ⟨k1, Progress.trans_of p1 k2⟩

end Curp

namespace Curp

theorem recordAck_loop (c : Client) (r : MRecordAck) (fromLeader : Bool) (hinv : LoopInv c)
    (hr : Settled c r) :
    LoopInv (recordAck c r fromLeader) ∧ Progress c (recordAck c r fromLeader) := by
  have h1 : LoopInv (if fromLeader = true then
        macksAdd { c with leader := r.Replica } r.Replica true r else c) ∧
      Progress c (if fromLeader = true then
        macksAdd { c with leader := r.Replica } r.Replica true r else c) := by
    by_cases hf : fromLeader = true
    · rw [if_pos hf]
      have p0 : Progress c { c with leader := r.Replica } := ⟨le_refl _, rfl, fun _ h => h⟩
      obtain ⟨a1, a2⟩ := macksAdd_loop { c with leader := r.Replica } r.Replica true r hinv hr
      exact ⟨a1, Progress.trans_of p0 a2⟩
    · rw [if_neg hf]
      exact ⟨hinv, Progress.rfl_of c⟩
  unfold recordAck
  dsimp only
  generalize (if fromLeader = true then
      macksAdd { c with leader := r.Replica } r.Replica true r else c) = c1 at h1 ⊢
  obtain ⟨j1, p1⟩ := h1
  by_cases ho : r.Ok = ORDERED
  · rw [if_pos ho]
    obtain ⟨a1, a2⟩ := macksAdd_loop c1 r.Replica false r j1 (p1.2.2 r hr)
    exact ⟨a1, Progress.trans_of p1 a2⟩
  · rw [if_neg ho]
    obtain ⟨a1, a2⟩ := acksAdd_loop c1 r.Replica fromLeader r j1 (p1.2.2 r hr)
    exact ⟨a1, Progress.trans_of p1 a2⟩

theorem reinitAcks_loop (c : Client) (hinv : LoopInv c) :
    LoopInv (reinitAcks c) ∧ Progress c (reinitAcks c) :=
  ⟨⟨hinv.1, hinv.2.1, fun lm h => (by cases h), fun lm h => (by cases h)⟩,
    le_refl _, rfl, fun _ h => h⟩

theorem handleRecordAck_loop (c : Client) (r : MRecordAck) (fromLeader : Bool)
    (hinv : LoopInv c) (hr : Settled c r) :
    LoopInv (handleRecordAck c r fromLeader) ∧ Progress c (handleRecordAck c r fromLeader) := by
  unfold handleRecordAck
  by_cases hd : (Map.get c.delivered r.CmdId.SeqNum).isSome = true
  · rw [if_pos hd]
    exact ⟨hinv, Progress.rfl_of c⟩
  · rw [if_neg hd]
    by_cases h1 : c.ballot = -1
    · rw [if_pos h1]
      exact recordAck_loop { c with ballot := r.Ballot } r fromLeader hinv hr
    · rw [if_neg h1]
      by_cases h2 : c.ballot < r.Ballot
      · rw [if_pos h2]
        obtain ⟨a1, a2⟩ := reinitAcks_loop { c with ballot := r.Ballot } hinv
        obtain ⟨b1, b2⟩ := recordAck_loop (reinitAcks { c with ballot := r.Ballot }) r fromLeader
          a1 (a2.2.2 r hr)
        exact ⟨b1, @Progress.trans_of c (reinitAcks { c with ballot := r.Ballot }) _
          ⟨a2.1, a2.2.1, a2.2.2⟩ b2⟩
      · rw [if_neg h2]
        by_cases h3 : c.ballot > r.Ballot
        · rw [if_pos h3]
          exact ⟨hinv, Progress.rfl_of c⟩
        · rw [if_neg h3]
          exact recordAck_loop c r fromLeader hinv hr

theorem handleReply_loop (c : Client) (r : MReply) (hinv : LoopInv c)
    (hr : r.CmdId.SeqNum = c.lastCmdId.SeqNum) :
    LoopInv (handleReply c r) ∧ Progress c (handleReply c r) := by
  unfold handleReply
  by_cases hd : (Map.get c.delivered r.CmdId.SeqNum).isSome = true
  · rw [if_pos hd]
    exact ⟨hinv, Progress.rfl_of c⟩
  · rw [if_neg hd]
    exact handleRecordAck_loop { c with val := r.Rep }
      { Replica := r.Replica, Ballot := r.Ballot, CmdId := r.CmdId, Ok := r.Ok } true hinv
      (Or.inl hr)

theorem deliverSyncReply_loop (c : Client) (rep : MSyncReply) (hinv : LoopInv c)
    (hr : rep.CmdId.SeqNum = c.lastCmdId.SeqNum)
    (hn : Map.get c.delivered rep.CmdId.SeqNum = none) :
    LoopInv (deliverSyncReply c rep) ∧ Progress c (deliverSyncReply c rep) ∧
      (deliverSyncReply c rep).delivered.length = c.delivered.length + 1 ∧
      (deliverSyncReply c rep).ballot = c.ballot := by
  obtain ⟨a1, a2⟩ := deliver_loop c (deliverSyncReply c rep) rep.CmdId.SeqNum hinv hr hn rfl rfl
    rfl rfl rfl
  refine ⟨a1, a2, ?_, rfl⟩
  show (Map.put c.delivered rep.CmdId.SeqNum ()).length = _
  rw [Map.put_of_get_none _ _ _ hn, List.length_append, List.length_singleton]

theorem handleSyncReply_loop (c : Client) (rep : MSyncReply) (hinv : LoopInv c)
    (hr : rep.CmdId.SeqNum = c.lastCmdId.SeqNum) :
    LoopInv (handleSyncReply c rep) ∧ Progress c (handleSyncReply c rep) ∧
      ((Map.get c.delivered rep.CmdId.SeqNum).isSome = false →
        (c.ballot = -1 ∨ c.ballot ≤ rep.Ballot) →
        (handleSyncReply c rep).delivered.length = c.delivered.length + 1 ∧
        ((handleSyncReply c rep).ballot = rep.Ballot ∨
          (handleSyncReply c rep).ballot = c.ballot)) := by
  unfold handleSyncReply
  by_cases hd : (Map.get c.delivered rep.CmdId.SeqNum).isSome = true
  · rw [if_pos hd]
    refine ⟨hinv, Progress.rfl_of c, fun h => ?_⟩
    rw [hd] at h
    cases h
  · rw [if_neg hd]
    have hn : Map.get c.delivered rep.CmdId.SeqNum = none := by
      cases hg : Map.get c.delivered rep.CmdId.SeqNum with
      | none => rfl
      | some u => rw [hg] at hd; exact absurd rfl hd
    by_cases h1 : c.ballot = -1
    · rw [if_pos h1]
      obtain ⟨a1, a2, a3, a4⟩ := deliverSyncReply_loop { c with ballot := rep.Ballot } rep hinv
        hr hn
      exact ⟨a1, ⟨a2.1, a2.2.1, a2.2.2⟩, fun _ _ => ⟨a3, Or.inl a4⟩⟩
    · rw [if_neg h1]
      by_cases h2 : c.ballot < rep.Ballot
      · rw [if_pos h2]
        obtain ⟨b1, b2⟩ := reinitAcks_loop { c with ballot := rep.Ballot } hinv
        obtain ⟨a1, a2, a3, a4⟩ := deliverSyncReply_loop
          (reinitAcks { c with ballot := rep.Ballot }) rep b1 hr hn
        exact ⟨a1, ⟨a2.1, a2.2.1, fun m h => a2.2.2 m (b2.2.2 m h)⟩,
          fun _ _ => ⟨a3, Or.inl a4⟩⟩
      · rw [if_neg h2]
        by_cases h3 : c.ballot > rep.Ballot
        · rw [if_pos h3]
          refine ⟨hinv, Progress.rfl_of c, fun _ h => ?_⟩
          rcases h with h | h
          · exact absurd h h1
          · omega
        · rw [if_neg h3]
          obtain ⟨a1, a2, a3, a4⟩ := deliverSyncReply_loop c rep hinv hr hn
          exact ⟨a1, a2, fun _ _ => ⟨a3, Or.inr a4⟩⟩

theorem not_delivered_outstanding (c : Client) (hinv : LoopInv c)
    (hb : c.delivered.length ≤ 2147483647) :
    c.lastCmdId.SeqNum = c.delivered.length ∧
      (Map.get c.delivered c.lastCmdId.SeqNum).isSome = false := by
  have e1 : c.lastCmdId.SeqNum = c.delivered.length := by
    rw [hinv.1]
    exact wrap32_of_lt _ (by omega) (by omega)
  refine ⟨e1, ?_⟩
  cases hg : (Map.get c.delivered c.lastCmdId.SeqNum).isSome with
  | false => rfl
  | true =>
    have := (hinv.2.1 (by omega) c.lastCmdId.SeqNum).mp hg
    omega

theorem handleMsgs_loop (c : Client) (ev : Event) (hinv : LoopInv c) (hrun : Running c) :
    LoopInv (handleMsgs c ev) ∧ Running (handleMsgs c ev) ∧
      c.delivered.length ≤ (handleMsgs c ev).delivered.length := by
  have hprog : ∀ c2, LoopInv c2 ∧ Progress c c2 →
      LoopInv c2 ∧ Running c2 ∧ c.delivered.length ≤ c2.delivered.length := by
    rintro c2 ⟨h1, h2, h3, _⟩
    refine ⟨h1, fun hb => ?_, h2⟩
    rw [h3]
    exact hrun (le_trans h2 hb)
  unfold handleMsgs
  by_cases hs : c.stopped = true
  · rw [if_pos hs]
    exact ⟨hinv, hrun, le_refl _⟩
  · rw [if_neg hs]
    cases ev with
    | reply rep =>
      dsimp only
      by_cases he : rep.CmdId = c.lastCmdId
      · rw [if_pos he]
        exact hprog _ (handleReply_loop c rep hinv (by rw [he]))
      · rw [if_neg he]
        exact ⟨hinv, hrun, le_refl _⟩
    | recordAck recAck =>
      dsimp only
      by_cases he : recAck.CmdId = c.lastCmdId
      · rw [if_pos he]
        exact hprog _ (handleRecordAck_loop c recAck false hinv (Or.inl (by rw [he])))
      · rw [if_neg he]
        exact ⟨hinv, hrun, le_refl _⟩
    | syncReply rep =>
      dsimp only
      by_cases he : rep.CmdId = c.lastCmdId
      · rw [if_pos he]
        obtain ⟨a1, a2, _⟩ := handleSyncReply_loop c rep hinv (by rw [he])
        exact hprog _ ⟨a1, a2⟩
      · rw [if_neg he]
        exact ⟨hinv, hrun, le_refl _⟩
    | timer needSync =>
      dsimp only
      by_cases hn : needSync = true ∧ c.leader ≠ -1
      · rw [if_pos hn]
        by_cases hd : (Map.get c.delivered c.lastCmdId.SeqNum).isSome = true
        · rw [if_pos hd]
          refine ⟨hinv, fun hb => ?_, le_refl _⟩
          have := (not_delivered_outstanding c hinv hb).2
          rw [hd] at this
          cases this
        · rw [if_neg hd]
          exact ⟨hinv, hrun, le_refl _⟩
      · rw [if_neg hn]
        exact ⟨hinv, hrun, le_refl _⟩

theorem loopReachable_inv (c : Client) (hr : LoopReachable c) : LoopInv c ∧ Running c := by
  induction hr with
  | init clientId N Q M =>
    refine ⟨⟨?_, ?_, fun lm h => (by cases h), fun lm h => (by cases h)⟩, fun _ => rfl⟩
    · show (0 : Int) = wrap32 ((0 : Nat) : Int)
      unfold wrap32
      norm_num
    · intro _ k
      show (Map.get ([] : List (Int × Unit)) k).isSome = true ↔ (0 ≤ k ∧ k < ((0 : Nat) : Int))
      simp [Map.get]
  | turn c ev _ ih =>
    obtain ⟨a1, a2, _⟩ := handleMsgs_loop c ev ih.1 ih.2
    exact ⟨a1, a2⟩

end Curp

namespace Curp

theorem loopMany_spec (n : Nat) (hn : n ≤ 2147483648) :
    LoopReachable (loopMany n) ∧ (loopMany n).delivered.length = n ∧
    (loopMany n).stopped = false ∧ ((loopMany n).ballot = -1 ∨ (loopMany n).ballot = 0) := by
  induction n with
  | zero => exact ⟨LoopReachable.init _ _ _ _, rfl, rfl, Or.inl rfl⟩
  | succ n ih =>
    obtain ⟨h1, h2, h3, h4⟩ := ih (by omega)
    obtain ⟨hinv, _⟩ := loopReachable_inv _ h1
    have hnd := (not_delivered_outstanding _ hinv (by omega)).2
    have hstep : loopMany (n + 1) = handleSyncReply (loopMany n)
        { Replica := 0, Ballot := 0, CmdId := (loopMany n).lastCmdId, Rep := none } := by
      show handleMsgs (loopMany n) _ = _
      unfold handleMsgs
      rw [if_neg (by rw [h3]; exact Bool.false_ne_true)]
      dsimp only
      rw [if_pos rfl]
    obtain ⟨_, a2, a3⟩ := handleSyncReply_loop (loopMany n)
      { Replica := 0, Ballot := 0, CmdId := (loopMany n).lastCmdId, Rep := none } hinv rfl
    obtain ⟨b1, b2⟩ := a3 hnd (by
      rcases h4 with h | h
      · exact Or.inl h
      · exact Or.inr (le_of_eq h))
    refine ⟨LoopReachable.turn _ _ h1, ?_, ?_, ?_⟩
    · rw [hstep, b1, h2]
    · rw [hstep, a2.2.1, h3]
    · rw [hstep]
      rcases b2 with h | h
      · exact Or.inr h
      · rw [h]
        exact h4

/-- C22, as stated, fails once the `int32` sequence number is exhausted: the
client after 2147483648 turns of the message loop, each on the sync reply for
the outstanding command, is reachable through the loop; it has delivered
2147483648 values, among them the one of sequence number 0, and
`lastCmdId.SeqNum` has wrapped to -2147483648, so the delivered set is not the
set of the sequence numbers below `lastCmdId.SeqNum`, which is empty.  And a
timer tick whose `needSync` is false sends nothing, also when a leader is
known (here leader 0 after one turn). -/
theorem delivered_set_not_below_seqNum :
    LoopReachable (loopMany 2147483648) ∧
    (loopMany 2147483648).delivered.length = 2147483648 ∧
    (loopMany 2147483648).lastCmdId.SeqNum = -2147483648 ∧
    (Map.get (loopMany 2147483648).delivered 0).isSome = true ∧
    ¬ ((0 : Int) ≤ 0 ∧ (0 : Int) < (loopMany 2147483648).lastCmdId.SeqNum) ∧
    LoopReachable (loopMany 1) ∧ (loopMany 1).leader = 0 ∧
    handleMsgs (loopMany 1) (Event.timer false) = loopMany 1 := by
  obtain ⟨h1, h2, _, _⟩ := loopMany_spec 2147483648 (le_refl _)
  obtain ⟨hinv, _⟩ := loopReachable_inv _ h1
  have hq : (loopMany 2147483648).lastCmdId.SeqNum = -2147483648 := by
    rw [hinv.1, h2]
    unfold wrap32
    norm_num
  refine ⟨h1, h2, hq, ?_, ?_, (loopMany_spec 1 (by decide)).1, by decide, by decide⟩
  · refine (hinv.2.1 (by rw [h2]) 0).mpr ⟨le_refl _, ?_⟩
    rw [h2]
    norm_num
  · rw [hq]
    norm_num

/-- C22, amended: in every state of the CURP client reachable through its
message loop in which at most 2147483647 values have been delivered, the
delivered set is exactly the set of the sequence numbers from 0 to
`lastCmdId.SeqNum - 1`, so `lastCmdId.SeqNum` is not in it; the early return of
the timer branch of `handleMsgs` has not been taken, and a timer tick that asks
for a sync while a leader is known sends `Sync{lastCmdId}` to that leader and
changes nothing else. -/
theorem loop_delivered_below_seqNum (c : Client) (hr : LoopReachable c)
    (hb : c.delivered.length ≤ 2147483647) :
    (∀ k : Int, (Map.get c.delivered k).isSome = true ↔ (0 ≤ k ∧ k < c.lastCmdId.SeqNum)) ∧
    Map.get c.delivered c.lastCmdId.SeqNum = none ∧
    c.stopped = false ∧
    (c.leader ≠ -1 →
      handleMsgs c (Event.timer true) =
        { c with sent := c.sent ++ [(c.leader, { CmdId := c.lastCmdId })] }) := by
  obtain ⟨hinv, hrun⟩ := loopReachable_inv c hr
  obtain ⟨e1, e2⟩ := not_delivered_outstanding c hinv hb
  have hst := hrun hb
  refine ⟨?_, ?_, hst, ?_⟩
  · intro k
    rw [hinv.2.1 (by omega) k, e1]
  · cases hg : Map.get c.delivered c.lastCmdId.SeqNum with
    | none => rfl
    | some u =>
      rw [hg] at e2
      cases e2
  · intro hl
    unfold handleMsgs
    rw [if_neg (by rw [hst]; exact Bool.false_ne_true)]
    dsimp only
    rw [if_pos ⟨rfl, hl⟩, if_neg (by rw [e2]; exact Bool.false_ne_true)]

/-- Witness of C22 (amended): the client after two turns of the message loop
knows leader 0; a timer tick sends the sync for sequence number 2 to it. -/
theorem loop_delivered_below_seqNum_witness :
    (loopMany 2).delivered = [(0, ()), (1, ())] ∧ (loopMany 2).lastCmdId.SeqNum = 2 ∧
    (loopMany 2).leader = 0 ∧
    (handleMsgs (loopMany 2) (Event.timer true)).sent =
      [(0, { CmdId := { ClientId := 0, SeqNum := 2 } })] ∧
    Map.get (loopMany 2).delivered (loopMany 2).lastCmdId.SeqNum = none :=
  ⟨by decide, by decide, by decide, by decide,
    (loop_delivered_below_seqNum (loopMany 2) (loopMany_spec 2 (by decide)).1
      (by decide)).2.1⟩

end Curp

end Paxoi
